import Mathlib

/-!
# Cut-matching solver: shallow embedding and verified properties

The definitions below embed `src/lib/cut_matching.cpp` (the cut-matching round
loop, flow projection, potential sampling and outcome classification) and
`readGraph` of `src/main/util.hpp`.

Conventions of the embedding

* C++ `int` is `Int` (unbounded: signed overflow is undefined in the source),
  `std::size_t` and vertex identifiers are `Nat`, `double` is an arbitrary
  linear ordered field `α` with a floor function (exact arithmetic); the
  definitions run for `α = ℚ`.
* `std::vector` is `List`. An index outside the vector is undefined behaviour
  in the source; `vget` then yields `0` and `vset` leaves the vector as it is,
  and no theorem relies on those two conventions. The one read whose index the
  claims are about (inside `samplePotential`) is the checked `vread`.
* `compute` returns `none` where the control flow of the source reaches an
  integer division by zero or a `pop_back` on an empty vector. A loop whose
  model carries a bound on its passes yields `none` when the bound is used up;
  the theorems show that the bounds chosen are never used up.
* `UnitFlow::Graph` (`unit_flow.hpp`) is not part of the sources. Its vertex
  bookkeeping is modelled from the specification; its flow engine, its volume
  query, `std::sqrt`, `std::log10` and the random generator are parameters.
* Statements about the logarithm are made over `ℝ` with `std::log10` the
  logarithm to base ten; statements about the square root assume of `std::sqrt`
  only that it returns a square root of its argument, which `Real.sqrt` does.
-/

namespace CutMatching

/-! ## Flow graph -/

/-- Modelled from the spec: the vertex bookkeeping of `UnitFlow::Graph`, whose
header is not among the sources. `alive` is the range `cbegin() .. cend()`,
`removed` the range `cbeginRemoved() .. cendRemoved()` (a stack, most recent
removal last), `edges` the undirected edges. -/
structure Graph where
  alive : List Nat
  removed : List Nat
  edges : List (Nat × Nat)
  deriving DecidableEq, Repr

namespace Graph

/-- Modelled from the spec: `size()`, the number of alive vertices. -/
def size (g : Graph) : Int := g.alive.length

/-- Modelled from the spec: `removedSize()`, the number of removed vertices. -/
def removedSize (g : Graph) : Int := g.removed.length

/-- Modelled from the spec: `degree(u)`, the number of edges at `u` whose other
endpoint is alive ("`degree(u)` over alive edges"). -/
def degree (g : Graph) (u : Nat) : Int :=
  ((g.edges.filter (fun e =>
    (e.1 = u && g.alive.contains e.2) || (e.2 = u && g.alive.contains e.1))).length : Nat)

/-- Modelled from the spec: `remove(u)` moves an alive vertex onto the stack of
removed vertices ("removal is reversible", "a stack discipline"). -/
def remove (g : Graph) (u : Nat) : Graph :=
  if u ∈ g.alive then { g with alive := g.alive.erase u, removed := g.removed ++ [u] } else g

/-- Modelled from the spec: `restoreRemoves()`, "a LIFO undo of removals": every
removed vertex becomes alive again, the most recently removed first. -/
def restoreRemoves (g : Graph) : Graph :=
  { g with alive := g.alive ++ g.removed.reverse, removed := [] }

end Graph

/-! ## Vectors -/

/-- Read `v[i]`; an index outside the vector yields `0`. -/
def vget {β : Type} [Zero β] (v : List β) (i : Int) : β :=
  if i < 0 then 0 else v.getD i.toNat 0

/-- Write `v[i] = x`; an index outside the vector leaves `v` as it is. -/
def vset {β : Type} (v : List β) (i : Int) (x : β) : List β :=
  if i < 0 then v else v.set i.toNat x

/-- Checked read of `v[i]`: `none` when the index is outside the vector. -/
def vread {β : Type} (v : List β) (i : Int) : Option β :=
  if i < 0 then none else v.get? i.toNat

/-- The entry `(*subdivisionIdx)[u]` of an index map at vertex `u`. -/
def idxAt (m : List Int) (u : Nat) : Int := m.getD u 0

/-- `Matching = std::vector<std::pair<int, int>>`. -/
abbrev Matching := List (Int × Int)

/-- `(int) x` for a `double`: truncation toward zero. -/
def cTrunc {α : Type} [LinearOrderedField α] [FloorRing α] (x : α) : Int :=
  if 0 ≤ x then ⌊x⌋ else ⌈x⌉

/-- `round(x)` of `<cmath>`: nearest integer, halves away from zero. -/
def cRound {α : Type} [LinearOrderedField α] [FloorRing α] (x : α) : Int :=
  if 0 ≤ x then ⌊x + 1 / 2⌋ else ⌈x - 1 / 2⌉

/-! ## Solver state -/

/-- The random generator `randomGen` together with `std::normal_distribution`:
a stream of samples and the number of samples drawn so far. -/
structure Rng (α : Type) where
  draws : Nat → α
  pos : Nat

/-- One call `dist(randomGen)`. -/
def Rng.next {α : Type} (r : Rng α) : α × Rng α :=
  (r.draws r.pos, { r with pos := r.pos + 1 })

/-- `CutMatching::Parameters`. -/
structure Parameters (α : Type) where
  tConst : Int
  tFactor : α
  minBalance : α
  resampleUnitVector : Bool
  randomWalkSteps : Int
  samplePotential : Int

/-- `CutMatching::ResultType`. -/
inductive ResultType where
  | Balanced
  | Expander
  | NearExpander
  deriving DecidableEq, Repr

/-- `CutMatching::Result`. An entry of `sampledPotentials` is `none` when the
sampler computed it from a read outside the flow vector. -/
structure Result (α : Type) where
  type : ResultType
  iterations : Int
  sampledPotentials : List (List (Option α))

/-- The members of `CutMatching::Solver`. -/
structure Solver (α : Type) where
  graph : Graph
  subdivGraph : Graph
  subdivisionIdx : List Int
  fromSubdivisionIdx : List Int
  phi : α
  T : Int
  numSplitNodes : Int
  randomGen : Rng α

/-- What `compute` uses and the sources do not contain: `std::sqrt`,
`std::log10`, the volume query of the flow graph (`globalVolume(begin, end)`)
and the three operations of the unit-flow engine. The engine operations get the
round number, the subdivision graph, the sources and sinks added after
`reset()` and their own arguments. -/
structure Env (α : Type) where
  sqrt : α → α
  log10 : α → α
  globalVolume : Graph → List Nat → Int
  flowCompute : Int → Graph → List Nat → List Nat → Int → List Nat
  levelCut : Int → Graph → List Nat → List Nat → Int → List Nat
  matching : Int → Graph → List Nat → List Nat → List Nat → List (Nat × Nat)

variable {α : Type} [LinearOrderedField α] [FloorRing α]

/-! ## Flow projection (`Solver::projectFlow`) -/

/-- The body of the inner loop of `projectFlow` for one pair `[i, j]`:
`start[i] = 0.5 * (start[i] + start[j]); start[j] = start[i];`. -/
def averagePair (start : List α) (p : Int × Int) : List α :=
  let start1 := vset start p.1 (1 / 2 * (vget start p.1 + vget start p.2))
  vset start1 p.2 (vget start1 p.1)

/-- `Solver::projectFlow`: every matching of `rounds` in order, every pair of a
matching in order. -/
def projectFlow (rounds : List Matching) (start : List α) : List α :=
  rounds.foldl (fun s m => m.foldl averagePair s) start

/-- The averaging inside the round loop of `compute` for one translated pair:
`matchedFlow = 0.5 * (flow[p.first] + flow[p.second])`, stored in both slots. -/
def applyMatched (flow : List α) (p : Int × Int) : List α :=
  let matchedFlow := 1 / 2 * (vget flow p.1 + vget flow p.2)
  vset (vset flow p.1 matchedFlow) p.2 matchedFlow

/-- The squared L2 distance of a vector from the constant vector `c`. -/
def sqDist (c : α) (v : List α) : α := (v.map (fun x => (x - c) ^ 2)).sum

/-! ## Random unit vector (`Solver::randomUnitVector`) -/

/-- First loop of `randomUnitVector`: one sample per alive vertex with a
non-negative compact index, stored in its slot and added to `total`. -/
def drawSamples (subdivisionIdx : List Int) (alive : List Nat)
    (init : List α × α × Rng α) : List α × α × Rng α :=
  alive.foldl (fun acc u =>
    if 0 ≤ idxAt subdivisionIdx u then
      let x := acc.2.2.next
      (vset acc.1 (idxAt subdivisionIdx u) x.1, acc.2.1 + x.1 * x.1, x.2)
    else acc) init

/-- Second loop of `randomUnitVector`: divide the slot of every alive vertex
with a non-negative compact index by `total`. -/
def normalise (subdivisionIdx : List Int) (alive : List Nat) (total : α)
    (result : List α) : List α :=
  alive.foldl (fun res u =>
    if 0 ≤ idxAt subdivisionIdx u then
      vset res (idxAt subdivisionIdx u) (vget res (idxAt subdivisionIdx u) / total)
    else res) result

/-- `Solver::randomUnitVector`; the second component is the generator after the
draws. -/
def randomUnitVector (env : Env α) (s : Solver α) : List α × Rng α :=
  let drawn := drawSamples s.subdivisionIdx s.subdivGraph.alive
    (List.replicate s.numSplitNodes.toNat 0, 0, s.randomGen)
  (normalise s.subdivisionIdx s.subdivGraph.alive (env.sqrt drawn.2.1) drawn.1, drawn.2.2)

/-! ## Potential sampling (`Solver::samplePotential`) -/

/-- The summation loop of `samplePotential` (lines 89-95). The guard is the
truth value of the `int` `(*subdivisionIdx)[u]`, that is `≠ 0`. The read
`flow[(*subdivisionIdx)[u]]` is checked: the sum is `none` once a read falls
outside the vector. -/
def potentialTotal (avgFlow : α) (flow : List α) (subdivisionIdx : List Int)
    (alive : List Nat) : Option α :=
  alive.foldl (fun total u =>
    if idxAt subdivisionIdx u ≠ 0 then
      total.bind (fun t =>
        (vread flow (idxAt subdivisionIdx u)).map (fun f => t + (avgFlow - f) * (avgFlow - f)))
    else total) (some 0)

/-- The loop `for (sample = 0; sample < k; ++sample)` of `samplePotential`, by
the number of samples still to take. -/
def samplePotentialLoop (env : Env α) (s : Solver α) (rounds : List Matching) :
    Nat → List (Option α) → Rng α → List (Option α) × Rng α
  | 0, result, rng => (result, rng)
  | todo + 1, result, rng =>
    let drawn := randomUnitVector env { s with randomGen := rng }
    let flow := projectFlow rounds drawn.1
    let n : Int := s.subdivGraph.size - s.graph.size
    let avgFlow : α := 1 / (n : α)
    samplePotentialLoop env s rounds todo
      (result ++ [potentialTotal avgFlow flow s.subdivisionIdx s.subdivGraph.alive]) drawn.2

/-- `Solver::samplePotential(rounds, k)`; the second component is the generator
after the draws. -/
def samplePotential (env : Env α) (s : Solver α) (rounds : List Matching) (k : Int) :
    List (Option α) × Rng α :=
  samplePotentialLoop env s rounds k.toNat [] s.randomGen

/-- The sum the specification prescribes for one sample: `(1/n - f_i)^2` over
the compact indices `subdivisionIdx[u] ≥ 0` of the alive vertices `u`. -/
def specPotential (avgFlow : α) (flow : List α) (subdivisionIdx : List Int)
    (alive : List Nat) : α :=
  (((alive.map (idxAt subdivisionIdx)).filter (fun i => 0 ≤ i)).map
    (fun i => (avgFlow - vget flow i) ^ 2)).sum

/-! ## Outcome classification (`compute`, lines 284-295) -/

/-- The four branches of the `if` / `else if` chain that sets `result.type`. -/
inductive Branch where
  | balanced
  | noneRemoved
  | allRemoved
  | nearExpander
  deriving DecidableEq, Repr

/-- The branch taken, from `graph->size()`, `graph->removedSize()`, the volume
of the removed range of the subdivision graph and `lowerVolumeBalance`. -/
def classify (size removedSize volRemoved lowerVolumeBalance : Int) : Branch :=
  if size ≠ 0 ∧ removedSize ≠ 0 ∧ volRemoved > lowerVolumeBalance then Branch.balanced
  else if removedSize = 0 then Branch.noneRemoved
  else if size = 0 then Branch.allRemoved
  else Branch.nearExpander

/-- The value `result.type` gets in a branch. -/
def Branch.type : Branch → ResultType
  | Branch.balanced => ResultType.Balanced
  | Branch.noneRemoved => ResultType.Expander
  | Branch.allRemoved => ResultType.Expander
  | Branch.nearExpander => ResultType.NearExpander

/-- The effect of a branch on the original graph: only the third branch calls
`graph->restoreRemoves()`. -/
def Branch.graphAfter (b : Branch) (g : Graph) : Graph :=
  match b with
  | Branch.allRemoved => g.restoreRemoves
  | _ => g

/-- The condition under which the `if` / `else if` chain of lines 284-295 runs
the statement of a branch: its own test holds and every earlier test failed. -/
def Branch.fires (size removedSize volRemoved lowerVolumeBalance : Int) : Branch → Prop
  | Branch.balanced => size ≠ 0 ∧ removedSize ≠ 0 ∧ volRemoved > lowerVolumeBalance
  | Branch.noneRemoved =>
    ¬(size ≠ 0 ∧ removedSize ≠ 0 ∧ volRemoved > lowerVolumeBalance) ∧ removedSize = 0
  | Branch.allRemoved =>
    ¬(size ≠ 0 ∧ removedSize ≠ 0 ∧ volRemoved > lowerVolumeBalance) ∧ ¬removedSize = 0 ∧
      size = 0
  | Branch.nearExpander =>
    ¬(size ≠ 0 ∧ removedSize ≠ 0 ∧ volRemoved > lowerVolumeBalance) ∧ ¬removedSize = 0 ∧
      ¬size = 0

/-! ## Trimming (`compute`, lines 182-187) -/

/-- The loop `while (2 * axRight.size() > numSubdivVertices) axRight.pop_back();`
with a bound `fuel` on the number of tests of its condition. A `pop_back` on an
empty vector yields `none`. -/
def trimRightLoop (numSubdivVertices : Nat) : Nat → List Nat → Option (List Nat)
  | 0, _ => none
  | fuel + 1, axRight =>
    if 2 * axRight.length > numSubdivVertices then
      match axRight with
      | [] => none
      | x :: xs => trimRightLoop numSubdivVertices fuel (x :: xs).dropLast
    else some axRight

/-- The loop `while (8 * axLeft.size() > numSubdivVertices || axLeft.size() >
axRight.size()) axLeft.pop_back();` with a bound `fuel` on the number of tests
of its condition. A `pop_back` on an empty vector yields `none`. -/
def trimLeftLoop (numSubdivVertices rightSize : Nat) : Nat → List Nat → Option (List Nat)
  | 0, _ => none
  | fuel + 1, axLeft =>
    if 8 * axLeft.length > numSubdivVertices ∨ axLeft.length > rightSize then
      match axLeft with
      | [] => none
      | x :: xs => trimLeftLoop numSubdivVertices rightSize fuel (x :: xs).dropLast
    else some axLeft

/-- The first trimming loop. Every pass but the last pops an element, so its
condition is tested at most `axRight.size() + 1` times: that much fuel is
enough. -/
def trimRight (numSubdivVertices : Nat) (axRight : List Nat) : Option (List Nat) :=
  trimRightLoop numSubdivVertices (axRight.length + 1) axRight

/-- The second trimming loop, with fuel `axLeft.size() + 1` for the same
reason. -/
def trimLeft (numSubdivVertices rightSize : Nat) (axLeft : List Nat) : Option (List Nat) :=
  trimLeftLoop numSubdivVertices rightSize (axLeft.length + 1) axLeft

/-- Lines 182-187: `numSubdivVertices` from the two sizes, then the two loops. -/
def trim (axLeft axRight : List Nat) : Option (List Nat × List Nat) :=
  let numSubdivVertices := axLeft.length + axRight.length
  (trimRight numSubdivVertices axRight).bind (fun r =>
    (trimLeft numSubdivVertices r.length axLeft).map (fun l => (l, r)))

/-! ## The round loop of `Solver::compute` -/

/-- The pre-solve block of `compute` (lines 111-118): alive vertices with a
non-negative entry get the compact indices `0, 1, ...` in iteration order. The
accumulator is `(subdivisionIdx, fromSubdivisionIdx, count)`. -/
def redensify (s : Solver α) : Solver α :=
  let r := s.subdivGraph.alive.foldl (fun acc u =>
    if 0 ≤ idxAt acc.1 u then
      let idx1 := acc.1.set u acc.2.2
      (idx1, vset acc.2.1 (idxAt idx1 u) (u : Int), acc.2.2 + 1)
    else acc) (s.subdivisionIdx, s.fromSubdivisionIdx, (0 : Int))
  { s with subdivisionIdx := r.1, fromSubdivisionIdx := r.2.1 }

/-- The local `lowerVolumeBalance = numSplitNodes / (10 * T)`, the division of
two `int`s (truncating), `none` when the divisor is zero. -/
def lowerVolumeBalance (s : Solver α) : Option Int :=
  if 10 * s.T = 0 then none else some (s.numSplitNodes.tdiv (10 * s.T))

/-- The local `targetVolumeBalance = std::max(lowerVolumeBalance,
int(params.minBalance * subdivGraph->globalVolume()))`; `globalVolume()` is the
volume of the alive range. -/
def targetVolumeBalance (env : Env α) (params : Parameters α) (s : Solver α)
    (lower : Int) : Int :=
  max lower (cTrunc (params.minBalance *
    ((env.globalVolume s.subdivGraph s.subdivGraph.alive : Int) : α)))

/-- The local `shouldMaintainMatchings`. -/
def shouldMaintainMatchings (params : Parameters α) : Bool :=
  params.resampleUnitVector || decide (params.samplePotential > 0)

/-- The variables the round loop of `compute` updates: the solver members, the
local `flow`, `rounds`, `result.sampledPotentials` and the counter
`iterations`. -/
structure RoundState (α : Type) where
  solver : Solver α
  flow : List α
  rounds : List Matching
  sampledPotentials : List (List (Option α))
  iterations : Int

/-- The volume of the removed range of the subdivision graph, as the loop guard
and the classification query it. -/
def removedVolume (env : Env α) (s : Solver α) : Int :=
  env.globalVolume s.subdivGraph s.subdivGraph.removed

/-- Lines 148-153: the optional potential sample at the start of a round (and
lines 277-282 after the loop). -/
def sampleStep (env : Env α) (params : Parameters α) (st : RoundState α) : RoundState α :=
  if params.samplePotential > 0 then
    let r := samplePotential env st.solver st.rounds params.samplePotential
    { st with sampledPotentials := st.sampledPotentials ++ [r.1],
              solver := { st.solver with randomGen := r.2 } }
  else st

/-- The loop `for (int i = 0; i < params.randomWalkSteps; ++i)
projectFlow(rounds, flow);`, by the number of passes still to make. -/
def randomWalk (rounds : List Matching) : Nat → List α → List α
  | 0, flow => flow
  | steps + 1, flow => randomWalk rounds steps (projectFlow rounds flow)

/-- Lines 155-160: with `resampleUnitVector`, a fresh unit vector projected
`randomWalkSteps` times; otherwise `flow` stays. -/
def resampleStep (env : Env α) (params : Parameters α) (st : RoundState α) : RoundState α :=
  if params.resampleUnitVector then
    let drawn := randomUnitVector env st.solver
    { st with flow := randomWalk st.rounds params.randomWalkSteps.toNat drawn.1,
              solver := { st.solver with randomGen := drawn.2 } }
  else st

/-- The lambda `curSubdivisionCount`. -/
def curSubdivisionCount (s : Solver α) : Int := s.subdivGraph.size - s.graph.size

/-- Lines 162-163: `std::accumulate` over the whole of `flow`, divided by
`curSubdivisionCount()`. -/
def avgFlow (st : RoundState α) : α :=
  st.flow.foldl (fun acc x => acc + x) 0 / ((curSubdivisionCount st.solver : Int) : α)

/-- Lines 165-173: alive vertices with a non-negative compact index go to
`axLeft` when their flow is below `avgFlow`, else to `axRight`. -/
def bipartition (flow : List α) (subdivisionIdx : List Int) (avg : α)
    (alive : List Nat) : List Nat × List Nat :=
  alive.foldl (fun acc u =>
    if 0 ≤ idxAt subdivisionIdx u then
      if vget flow (idxAt subdivisionIdx u) < avg then (acc.1 ++ [u], acc.2)
      else (acc.1, acc.2 ++ [u])
    else acc) ([], [])

/-- The call `std::sort(.., cmpFlow)`: ascending in the flow of the compact
index. The order of vertices of equal flow, which `std::sort` leaves open, is
the one of a stable sort. -/
def sortByFlow (flow : List α) (subdivisionIdx : List Int) (xs : List Nat) : List Nat :=
  xs.insertionSort (fun u v =>
    vget flow (idxAt subdivisionIdx u) ≤ vget flow (idxAt subdivisionIdx v))

/-- Lines 165-187: bipartition, the two sorts, the reversal of `axRight`, the
trimming. -/
def selectSides (st : RoundState α) : Option (List Nat × List Nat) :=
  let sides := bipartition st.flow st.solver.subdivisionIdx (avgFlow st)
    st.solver.subdivGraph.alive
  trim (sortByFlow st.flow st.solver.subdivisionIdx sides.1)
    (sortByFlow st.flow st.solver.subdivisionIdx sides.2).reverse

/-- Lines 198-199: the height bound `h`. -/
def heightBound (env : Env α) (s : Solver α) : Int :=
  max (cTrunc ((cRound (1 / s.phi / env.log10 ((s.numSplitNodes : Int) : α)) : Int) : α))
    (cTrunc (env.log10 ((s.numSplitNodes : Int) : α)))

/-- Insertion into the local hash set `removed`: an element already present is
not added again. The set is kept in insertion order. -/
def hashInsert (set : List Nat) (u : Nat) : List Nat :=
  if u ∈ set then set else set ++ [u]

/-- Lines 204-214: the set `removed` after the flow computation of a round. -/
def levelCutSet (env : Env α) (st : RoundState α) (axLeft axRight : List Nat) : List Nat :=
  let h := heightBound env st.solver
  let hasExcess := env.flowCompute st.iterations st.solver.subdivGraph axLeft axRight h
  if hasExcess.isEmpty then []
  else (env.levelCut st.iterations st.solver.subdivGraph axLeft axRight h).foldl hashInsert []

/-- The loops of lines 226-230 and 236-240: every listed vertex is removed from
the subdivision graph, and from the original graph too when its compact index
is `-1`. -/
def removeAll (s : Solver α) (us : List Nat) : Solver α :=
  us.foldl (fun acc u =>
    { acc with
      graph := if idxAt acc.subdivisionIdx u = -1 then acc.graph.remove u else acc.graph,
      subdivGraph := acc.subdivGraph.remove u }) s

/-- Lines 232-235: the alive vertices of the subdivision graph of degree `0`. -/
def zeroDegrees (s : Solver α) : List Nat :=
  s.subdivGraph.alive.filter (fun u => decide (s.subdivGraph.degree u = 0))

/-- The lambda `isRemoved`, on an `int`. -/
def isRemoved (removed : List Nat) (u : Int) : Bool :=
  removed.any (fun r => decide ((r : Int) = u))

/-- Lines 242-252: with `shouldMaintainMatchings`, every recorded matching
loses the pairs with an endpoint whose vertex is in `removed`. -/
def scrub (params : Parameters α) (fromSubdivisionIdx : List Int) (removed : List Nat)
    (rounds : List Matching) : List Matching :=
  if shouldMaintainMatchings params then
    rounds.map (fun m => m.filter (fun p =>
      !(isRemoved removed (vget fromSubdivisionIdx p.1) ||
        isRemoved removed (vget fromSubdivisionIdx p.2))))
  else rounds

/-- The argument `axLeft` of `subdivGraph->matching` (lines 221-222): `axLeft`
without the vertices that are in `removed` when `erase` runs. -/
def peelSide (removed : List Nat) (ax : List Nat) : List Nat :=
  ax.filter (fun u => !isRemoved removed (u : Int))

/-- One pass of the body of the round loop (lines 146-272), without the
increment of `iterations`. -/
def roundBody (env : Env α) (params : Parameters α) (st : RoundState α) :
    Option (RoundState α) :=
  let st1 := resampleStep env params (sampleStep env params st)
  (selectSides st1).map (fun sides =>
    let removed := levelCutSet env st1 sides.1 sides.2
    let axLeft := peelSide removed sides.1
    let s2 := removeAll st1.solver removed
    let zero := zeroDegrees s2
    let removed2 := zero.foldl hashInsert removed
    let s3 := removeAll s2 zero
    let rounds1 := scrub params s3.fromSubdivisionIdx removed2 st1.rounds
    let matching := (env.matching st1.iterations s3.subdivGraph sides.1 sides.2 axLeft).map
      (fun p => (idxAt s3.subdivisionIdx p.1, idxAt s3.subdivisionIdx p.2))
    { st1 with
      solver := s3,
      flow := matching.foldl applyMatched st1.flow,
      rounds := if shouldMaintainMatchings params then rounds1 ++ [matching] else rounds1 })

/-- The loop `for (; iterations < T && removedVolume <= targetVolumeBalance;
++iterations)`, with a bound `fuel` on the number of passes: `none` when a
further pass is due and no fuel is left. -/
def roundLoop (env : Env α) (params : Parameters α) (target : Int) :
    Nat → RoundState α → Option (RoundState α)
  | 0, st =>
    if st.iterations < st.solver.T ∧ removedVolume env st.solver ≤ target then none
    else some st
  | fuel + 1, st =>
    if st.iterations < st.solver.T ∧ removedVolume env st.solver ≤ target then
      (roundBody env params st).bind (fun st1 =>
        roundLoop env params target fuel { st1 with iterations := st.iterations + 1 })
    else some st

/-- The state in which the round loop starts (lines 111-140): the index maps
re-densified, `flow` a fresh unit vector, no recorded round, `iterations = 0`. -/
def initialState (env : Env α) (s : Solver α) : RoundState α :=
  let s1 := redensify s
  let drawn := randomUnitVector env s1
  { solver := { s1 with randomGen := drawn.2 }, flow := drawn.1, rounds := [],
    sampledPotentials := [], iterations := 0 }

/-- The state in which the round loop of `compute` ends, when the early exit is
not taken. The loop makes at most `T` passes, so `T` passes of fuel are enough
(`roundLoop_guard`). -/
def loopExit (env : Env α) (params : Parameters α) (s : Solver α) : Option (RoundState α) :=
  (lowerVolumeBalance s).bind (fun lower =>
    roundLoop env params (targetVolumeBalance env params (redensify s) lower) s.T.toNat
      (initialState env s))

/-- `Solver::compute`: the result and the solver members after the call. -/
def compute (env : Env α) (params : Parameters α) (s : Solver α) :
    Option (Result α × Solver α) :=
  if s.numSplitNodes ≤ 1 then
    some ({ type := ResultType.Expander, iterations := 0, sampledPotentials := [] }, s)
  else
    (lowerVolumeBalance s).bind (fun lower =>
      (loopExit env params s).map (fun st =>
        let st1 := sampleStep env params st
        let branch := classify st1.solver.graph.size st1.solver.graph.removedSize
          (removedVolume env st1.solver) lower
        ({ type := branch.type, iterations := st.iterations,
           sampledPotentials := st1.sampledPotentials },
         { st1.solver with graph := branch.graphAfter st1.solver.graph })))

/-! ## Construction (`Solver::Solver`) -/

/-- Modelled from the spec: `edgeCount()`, the number `m` of edges of the
graph, counted over the edges with both endpoints alive. -/
def Graph.edgeCount (g : Graph) : Int :=
  ((g.edges.filter (fun e => g.alive.contains e.1 && g.alive.contains e.2)).length : Nat)

/-- The initialiser of the member `T` (lines 19-21): `params.tConst +
std::ceil(params.tFactor * std::log10(m) * std::log10(m))`, a `double`,
converted to `int`. -/
def roundBudget [FloorRing α] (env : Env α) (params : Parameters α) (edgeCount : Int) : Int :=
  cTrunc (((params.tConst : Int) : α) +
    ((⌈params.tFactor * env.log10 ((edgeCount : Int) : α) * env.log10 ((edgeCount : Int) : α)⌉ :
      Int) : α))

/-- The constructor `Solver::Solver` (lines 13-33). The generator, seeded from
`std::random_device`, is an argument. The loop that writes the capacity
`ceil(1 / phi / T)` to the edges of the subdivision graph has no counterpart:
capacities belong to the flow engine. -/
def Solver.create [FloorRing α] (env : Env α) (g subdivG : Graph)
    (subdivisionIdx fromSubdivisionIdx : List Int) (phi : α) (params : Parameters α)
    (rng : Rng α) : Solver α :=
  { graph := g, subdivGraph := subdivG, subdivisionIdx := subdivisionIdx,
    fromSubdivisionIdx := fromSubdivisionIdx, phi := phi,
    T := roundBudget env params g.edgeCount,
    numSplitNodes := subdivG.size - g.size,
    randomGen := rng }

/-- The threshold the specification prescribes for the bipartition: the mean of
`flow` over the compact indices `subdivisionIdx[u] ≥ 0` of the alive vertices
`u` of the subdivision graph. -/
def specAvgFlow (st : RoundState α) : α :=
  (((st.solver.subdivGraph.alive.map (idxAt st.solver.subdivisionIdx)).filter
      (fun i => 0 ≤ i)).map (fun i => vget st.flow i)).sum /
    ((((st.solver.subdivGraph.alive.map (idxAt st.solver.subdivisionIdx)).filter
      (fun i => 0 ≤ i)).length : Nat) : α)

/-- One pass of the loop of lines 113-117, on `(subdivisionIdx,
fromSubdivisionIdx, count)`: the function `redensify` folds over the alive
vertices. -/
def redensifyStep (acc : List Int × List Int × Int) (u : Nat) : List Int × List Int × Int :=
  if 0 ≤ idxAt acc.1 u then
    let idx1 := acc.1.set u acc.2.2
    (idx1, vset acc.2.1 (idxAt idx1 u) (u : Int), acc.2.2 + 1)
  else acc

/-- The samples a call of `randomUnitVector` draws, in order: one for each alive
vertex of the subdivision graph with a non-negative compact index. -/
def drawnSamples (s : Solver α) : List α :=
  (List.range (s.subdivGraph.alive.filter
    (fun u => decide (0 ≤ idxAt s.subdivisionIdx u))).length).map
    (fun k => s.randomGen.draws (s.randomGen.pos + k))

/-- The local set `removed` of a round when the scrub of lines 242-252 runs: the
level cut together with the vertices of degree zero inserted at line 235. -/
def roundRemoved [FloorRing α] (env : Env α) (params : Parameters α) (st : RoundState α) :
    Option (List Nat) :=
  let st1 := resampleStep env params (sampleStep env params st)
  (selectSides st1).map (fun sides =>
    let removed := levelCutSet env st1 sides.1 sides.2
    (zeroDegrees (removeAll st1.solver removed)).foldl hashInsert removed)

/-- The vector `axLeft` of a round when it is handed to `subdivGraph->matching`
at line 256. -/
def matchingSources [FloorRing α] (env : Env α) (params : Parameters α) (st : RoundState α) :
    Option (List Nat) :=
  let st1 := resampleStep env params (sampleStep env params st)
  (selectSides st1).map (fun sides => peelSide (levelCutSet env st1 sides.1 sides.2) sides.1)

/-- The pairs `subdivGraph->matching(axLeft)` returns in a round, before their
translation to compact indices. -/
def matchingCall [FloorRing α] (env : Env α) (params : Parameters α) (st : RoundState α) :
    Option (List (Nat × Nat)) :=
  let st1 := resampleStep env params (sampleStep env params st)
  (selectSides st1).map (fun sides =>
    let removed := levelCutSet env st1 sides.1 sides.2
    let s3 := removeAll (removeAll st1.solver removed) (zeroDegrees (removeAll st1.solver removed))
    env.matching st1.iterations s3.subdivGraph sides.1 sides.2 (peelSide removed sides.1))

/-- Invariant 1 of the data model: every vertex of the original graph is alive
there iff it is alive in the subdivision graph. -/
def aliveSync (s : Solver α) : Prop :=
  ∀ v ∈ s.graph.alive ++ s.graph.removed, (v ∈ s.graph.alive ↔ v ∈ s.subdivGraph.alive)

/-- The well-formedness of the solver members that the removal of a vertex
relies on: `aliveSync`, compact index `-1` at every vertex of the original
graph, and no vertex twice in an alive range. -/
def syncInvariant (s : Solver α) : Prop :=
  aliveSync s ∧ (∀ v ∈ s.graph.alive ++ s.graph.removed, idxAt s.subdivisionIdx v = -1) ∧
    s.graph.alive.Nodup ∧ s.subdivGraph.alive.Nodup

end CutMatching

/-! ## Graph reader (`readGraph`, `src/main/util.hpp`) -/

/-- The text `readGraph` reads from its stream: the header `n m` and, line by
line, the integers that follow it. -/
structure GraphInput where
  n : Int
  m : Int
  lines : List (List Int)
  deriving DecidableEq, Repr

/-- The Chaco branch (lines 32-42): line `u` lists the neighbours of vertex `u`,
numbered from one; the edge `(u, v - 1)` is appended when `u < v - 1`. A line
the stream does not have reads as empty. -/
def readChaco (inp : GraphInput) : List (Int × Int) :=
  (List.range inp.n.toNat).flatMap (fun u =>
    (((inp.lines.getD u []).map (fun v => v - 1)).filter (fun v => decide ((u : Int) < v))).map
      (fun v => ((u : Int), v)))

/-- The pairs `u v` that `in_stream >> u >> v` extracts from a token sequence. -/
def tokenPairs : List Int → List (Int × Int)
  | u :: v :: rest => (u, v) :: tokenPairs rest
  | _ => []

/-- One pass of the loop of the edge-list branch (lines 46-53) on the pair just
read; the state is `(seen, es)`. -/
def edgeListStep (acc : List (Int × Int) × List (Int × Int)) (p : Int × Int) :
    List (Int × Int) × List (Int × Int) :=
  let q : Int × Int := if p.1 > p.2 then (p.2, p.1) else p
  if q ∈ acc.1 then acc else (acc.1 ++ [q], acc.2 ++ [q])

/-- The edge-list branch (lines 44-54): the first `m` pairs of the stream. -/
def readEdgeList (inp : GraphInput) : List (Int × Int) :=
  (((tokenPairs inp.lines.flatten).take inp.m.toNat).foldl edgeListStep ([], [])).2

/-- The arguments `(n, es)` with which `readGraph` constructs the
`Undirected::Graph`. -/
def readGraph (inp : GraphInput) (chaco_format : Bool) : Int × List (Int × Int) :=
  (inp.n, if chaco_format then readChaco inp else readEdgeList inp)

/-- Equality of two edges as unordered pairs. -/
def sameEdge (e f : Int × Int) : Prop :=
  (e.1 = f.1 ∧ e.2 = f.2) ∨ (e.1 = f.2 ∧ e.2 = f.1)

/-- A Chaco input with two vertices whose first line repeats the neighbour `2`. -/
def chacoRepeated : GraphInput := { n := 2, m := 1, lines := [[2, 2], [1]] }

/-! ## Example inputs

The subdivided path `0 - 1 - 2`: original vertices `0, 1, 2`, split vertex `3`
on the edge `0 - 1` and split vertex `4` on the edge `1 - 2`. -/

namespace CutMatching

/-- The path `0 - 1 - 2`, no vertex removed. -/
def pathGraph : Graph := { alive := [0, 1, 2], removed := [], edges := [(0, 1), (1, 2)] }

/-- The subdivision graph of the path. -/
def pathSubdiv : Graph :=
  { alive := [0, 1, 2, 3, 4], removed := [], edges := [(0, 3), (3, 1), (1, 4), (4, 2)] }

/-- A generator whose samples alternate between `3` and `4`. -/
def pathRng : Rng ℚ := { draws := fun n => if n % 2 = 0 then 3 else 4, pos := 0 }

/-- A solver on the path with `T = 2` and `phi = 1 / 2`. -/
def pathSolver : Solver ℚ :=
  { graph := pathGraph, subdivGraph := pathSubdiv, subdivisionIdx := [-1, -1, -1, 0, 1],
    fromSubdivisionIdx := [3, 4, -1, -1, -1], phi := 1 / 2, T := 2, numSplitNodes := 2,
    randomGen := pathRng }

/-- An environment for the examples: the square root is exact at `25`, the
volume of a range is the number of edge ends at its vertices, the flow engine
leaves excess at the vertices of `cut`, which is also its level cut, and
matches every source with itself. -/
def pathEnv (cut : List Nat) : Env ℚ :=
  { sqrt := fun x => if x = 25 then 5 else x,
    log10 := fun _ => 1,
    globalVolume := fun g us =>
      (us.map (fun u => ((g.edges.filter (fun e => e.1 = u || e.2 = u)).length : Int))).sum,
    flowCompute := fun _ _ _ _ _ => cut,
    levelCut := fun _ _ _ _ _ => cut,
    matching := fun _ _ _ _ ax => ax.map (fun u => (u, u)) }

/-- Parameters without resampling and without potential sampling. -/
def plainParams : Parameters ℚ :=
  { tConst := 2, tFactor := 0, minBalance := 0, resampleUnitVector := false,
    randomWalkSteps := 0, samplePotential := 0 }

/-- Parameters with resampling and the given `randomWalkSteps`. -/
def resampleParams (steps : Int) : Parameters ℚ :=
  { tConst := 2, tFactor := 0, minBalance := 0, resampleUnitVector := true,
    randomWalkSteps := steps, samplePotential := 0 }

/-- A state of the round loop on the path after one recorded matching, the pair
of the two compact indices. -/
def pathState : RoundState ℚ :=
  { solver := pathSolver, flow := [3 / 5, 4 / 5], rounds := [[(0, 1)]],
    sampledPotentials := [], iterations := 1 }

/-- The state in which the round loop starts on the path. -/
def pathStart : RoundState ℚ :=
  { solver := { pathSolver with randomGen := { pathRng with pos := 2 } },
    flow := [3 / 5, 4 / 5], rounds := [], sampledPotentials := [], iterations := 0 }

/-- The state after the round in which the level cut is `{2, 4}`. -/
def pathAfterCut : RoundState ℚ :=
  { solver :=
      { pathSolver with
        graph := { pathGraph with alive := [0, 1], removed := [2] },
        subdivGraph := { pathSubdiv with alive := [0, 1, 3], removed := [2, 4] },
        randomGen := { pathRng with pos := 2 } },
    flow := [3 / 5, 4 / 5], rounds := [], sampledPotentials := [], iterations := 0 }

/-- The state after the round in which the level cut is every vertex. -/
def pathAfterAll : RoundState ℚ :=
  { solver :=
      { pathSolver with
        graph := { pathGraph with alive := [], removed := [0, 1, 2] },
        subdivGraph := { pathSubdiv with alive := [], removed := [0, 1, 2, 3, 4] },
        randomGen := { pathRng with pos := 2 } },
    flow := [3 / 5, 4 / 5], rounds := [], sampledPotentials := [], iterations := 0 }

/-- A solver on the single edge `0 - 1`, whose subdivision graph has the one
split vertex `2`. -/
def edgeSolver : Solver ℚ :=
  { graph := { alive := [0, 1], removed := [], edges := [(0, 1)] },
    subdivGraph := { alive := [0, 1, 2], removed := [], edges := [(0, 2), (2, 1)] },
    subdivisionIdx := [-1, -1, 0], fromSubdivisionIdx := [2, -1, -1], phi := 1 / 2, T := 1,
    numSplitNodes := 1, randomGen := pathRng }

/-- The environment of the examples over any field, with the given square root
and logarithm. -/
def envOver (α : Type) (sqrt log10 : α → α) (cut : List Nat) : Env α :=
  { sqrt := sqrt,
    log10 := log10,
    globalVolume := fun g us =>
      (us.map (fun u => ((g.edges.filter (fun e => e.1 = u || e.2 = u)).length : Int))).sum,
    flowCompute := fun _ _ _ _ _ => cut,
    levelCut := fun _ _ _ _ _ => cut,
    matching := fun _ _ _ _ ax => ax.map (fun u => (u, u)) }

/-- The solver on the path over any field, with `phi = 1 / 2`, `T = 2` and
samples alternating between `3` and `4`. -/
def pathSolverOver (α : Type) [LinearOrderedField α] : Solver α :=
  { graph := pathGraph, subdivGraph := pathSubdiv, subdivisionIdx := [-1, -1, -1, 0, 1],
    fromSubdivisionIdx := [3, 4, -1, -1, -1], phi := 1 / 2, T := 2, numSplitNodes := 2,
    randomGen := { draws := fun n => if n % 2 = 0 then 3 else 4, pos := 0 } }

/-- Parameters over any field with the given `tConst` and `tFactor`, without
resampling and without potential sampling. -/
def budgetParams (α : Type) [LinearOrderedField α] (tConst : Int) (tFactor : α) :
    Parameters α :=
  { tConst := tConst, tFactor := tFactor, minBalance := 0, resampleUnitVector := false,
    randomWalkSteps := 0, samplePotential := 0 }

/-- The solver the constructor builds on the path over any field, for the given
square root, logarithm, `tConst` and `tFactor`, with `phi = 1 / 2`. -/
def pathSolverCreated (α : Type) [LinearOrderedField α] [FloorRing α] (sqrt log10 : α → α)
    (tConst : Int) (tFactor : α) : Solver α :=
  Solver.create (envOver α sqrt log10 []) pathGraph pathSubdiv [-1, -1, -1, 0, 1]
    [3, 4, -1, -1, -1] (1 / 2) (budgetParams α tConst tFactor) (pathSolverOver α).randomGen

/-- The path `0 - 1 - 2` with a further, isolated vertex `5` that is removed on
entry. -/
def isoGraph : Graph := { alive := [0, 1, 2], removed := [5], edges := [(0, 1), (1, 2)] }

/-- The subdivision graph of `isoGraph`. -/
def isoSubdiv : Graph :=
  { alive := [0, 1, 2, 3, 4], removed := [5], edges := [(0, 3), (3, 1), (1, 4), (4, 2)] }

/-- A solver on `isoGraph` with the given `T`. -/
def isoSolver (T : Int) : Solver ℚ :=
  { graph := isoGraph, subdivGraph := isoSubdiv, subdivisionIdx := [-1, -1, -1, 0, 1, -1],
    fromSubdivisionIdx := [3, 4, -1, -1, -1, -1], phi := 1 / 2, T := T, numSplitNodes := 2,
    randomGen := pathRng }

/-- The state in which the round loop starts on `isoGraph`. -/
def isoStart (T : Int) : RoundState ℚ :=
  { solver := { isoSolver T with randomGen := { pathRng with pos := 2 } },
    flow := [3 / 5, 4 / 5], rounds := [], sampledPotentials := [], iterations := 0 }

/-- Parameters without resampling, with `minBalance = 1`. -/
def balanceParams : Parameters ℚ :=
  { tConst := 2, tFactor := 0, minBalance := 1, resampleUnitVector := false,
    randomWalkSteps := 0, samplePotential := 0 }

/-- A solver on the path `0 - 1 - 2 - 3` (split vertices `4, 5, 6`) after the
vertices `0` and `4` were removed: the compact indices `1, 2` of the alive split
vertices `5, 6` are no longer dense. -/
def sparseSolver : Solver ℚ :=
  { graph := { alive := [1, 2, 3], removed := [0], edges := [(0, 1), (1, 2), (2, 3)] },
    subdivGraph :=
      { alive := [1, 2, 3, 5, 6], removed := [0, 4],
        edges := [(0, 4), (4, 1), (1, 5), (5, 2), (2, 6), (6, 3)] },
    subdivisionIdx := [-1, -1, -1, -1, 0, 1, 2],
    fromSubdivisionIdx := [4, 5, 6, -1, -1, -1, -1], phi := 1 / 2, T := 2, numSplitNodes := 2,
    randomGen := pathRng }

/-- A state of the round loop on the path with one recorded matching of two
pairs: `(0, 1)`, which touches the split vertex `4`, and `(0, 0)`, which does
not. -/
def pathStateTwo : RoundState ℚ :=
  { solver := pathSolver, flow := [3 / 5, 4 / 5], rounds := [[(0, 1), (0, 0)]],
    sampledPotentials := [], iterations := 1 }

/-- The state `pathStateTwo` after the round in which the level cut is
`{2, 4}`, with resampling: the pair `(0, 1)` is scrubbed, the empty matching of
the round is recorded. -/
def pathStateTwoAfter : RoundState ℚ :=
  { solver := pathAfterCut.solver, flow := [3 / 5, 4 / 5], rounds := [[(0, 0)], []],
    sampledPotentials := [], iterations := 1 }

/-- The path `0 - 1 - ... - 8` with eight edges. -/
def longGraph : Graph :=
  { alive := [0, 1, 2, 3, 4, 5, 6, 7, 8], removed := [],
    edges := [(0, 1), (1, 2), (2, 3), (3, 4), (4, 5), (5, 6), (6, 7), (7, 8)] }

/-- The subdivision graph of `longGraph`: the split vertex `9 + i` sits on the
edge `i - (i + 1)`. -/
def longSubdiv : Graph :=
  { alive := [0, 1, 2, 3, 4, 5, 6, 7, 8, 9, 10, 11, 12, 13, 14, 15, 16], removed := [],
    edges := [(0, 9), (9, 1), (1, 10), (10, 2), (2, 11), (11, 3), (3, 12), (12, 4), (4, 13),
      (13, 5), (5, 14), (14, 6), (6, 15), (15, 7), (7, 16), (16, 8)] }

/-- A solver on `longGraph` whose generator yields `0` seven times and then
`1`. -/
def longSolver : Solver ℚ :=
  { graph := longGraph, subdivGraph := longSubdiv,
    subdivisionIdx := [-1, -1, -1, -1, -1, -1, -1, -1, -1, 0, 1, 2, 3, 4, 5, 6, 7],
    fromSubdivisionIdx := [9, 10, 11, 12, 13, 14, 15, 16, -1, -1, -1, -1, -1, -1, -1, -1, -1],
    phi := 1 / 2, T := 2, numSplitNodes := 8,
    randomGen := { draws := fun n => if n = 7 then 1 else 0, pos := 0 } }

/-- The state in which the round loop starts on `longGraph`. -/
def longStart : RoundState ℚ :=
  { solver := { longSolver with randomGen := { longSolver.randomGen with pos := 8 } },
    flow := [0, 0, 0, 0, 0, 0, 0, 1], rounds := [], sampledPotentials := [], iterations := 0 }

end CutMatching

/-! # Theorems -/

namespace CutMatching

variable {α : Type} [LinearOrderedField α]

/-! ## Outcome classification -/

theorem classify_fires (size removedSize vol lower : Int) (b : Branch) :
    classify size removedSize vol lower = b ↔ Branch.fires size removedSize vol lower b := by
  unfold classify
  cases b <;> simp only [Branch.fires] <;> split_ifs <;> simp_all

/-- C1: the classification of lines 284-295 is total and mutually exclusive.
For every final state exactly one branch of the chain fires, and it is the one
`classify` takes; the type is `Balanced` iff the graph has alive and removed
vertices and the removed volume exceeds `lowerVolumeBalance`, `Expander` iff
that fails and the removed set or the alive set is empty, `NearExpander` iff
both sets are non-empty and the removed volume is at most
`lowerVolumeBalance`. -/
theorem classification_total_exclusive (size removedSize vol lower : Int) :
    (∃! b : Branch, Branch.fires size removedSize vol lower b) ∧
    Branch.fires size removedSize vol lower (classify size removedSize vol lower) ∧
    ((classify size removedSize vol lower).type = ResultType.Balanced ↔
      size ≠ 0 ∧ removedSize ≠ 0 ∧ vol > lower) ∧
    ((classify size removedSize vol lower).type = ResultType.Expander ↔
      ¬(size ≠ 0 ∧ removedSize ≠ 0 ∧ vol > lower) ∧ (removedSize = 0 ∨ size = 0)) ∧
    ((classify size removedSize vol lower).type = ResultType.NearExpander ↔
      size ≠ 0 ∧ removedSize ≠ 0 ∧ vol ≤ lower) := by
  refine ⟨⟨classify size removedSize vol lower, (classify_fires _ _ _ _ _).1 rfl, ?_⟩,
    (classify_fires _ _ _ _ _).1 rfl, ?_, ?_, ?_⟩
  · intro b hb
    exact ((classify_fires _ _ _ _ _).2 hb).symm
  · unfold classify
    split_ifs <;> simp_all [Branch.type]
  · unfold classify
    split_ifs with h1 h2 h3 <;> simp_all [Branch.type]
  · unfold classify
    split_ifs with h1 h2 h3 <;> simp_all [Branch.type]

/-! ## Trimming -/

theorem trimRightLoop_spec (N : Nat) : ∀ (fuel : Nat) (R : List Nat), R.length < fuel →
    ∃ R1, trimRightLoop N fuel R = some R1 ∧ 2 * R1.length ≤ N ∧ R1 <+: R ∧
      (2 * R.length ≤ N → R1 = R) := by
  intro fuel
  induction fuel with
  | zero => intro R hR; omega
  | succ k ih =>
    intro R hR
    rw [trimRightLoop.eq_def]
    simp only
    split_ifs with h
    · cases R with
      | nil => simp at h
      | cons x xs =>
        obtain ⟨R1, h1, h2, h3, -⟩ := ih (x :: xs).dropLast (by simp at hR ⊢; omega)
        exact ⟨R1, h1, h2, h3.trans (List.dropLast_prefix _), fun h4 => by omega⟩
    · exact ⟨R, rfl, by omega, List.prefix_refl _, fun _ => rfl⟩

theorem trimLeftLoop_spec (N r : Nat) : ∀ (fuel : Nat) (L : List Nat), L.length < fuel →
    ∃ L1, trimLeftLoop N r fuel L = some L1 ∧ 8 * L1.length ≤ N ∧ L1.length ≤ r ∧ L1 <+: L ∧
      (8 * L.length ≤ N → L.length ≤ r → L1 = L) := by
  intro fuel
  induction fuel with
  | zero => intro L hL; omega
  | succ k ih =>
    intro L hL
    rw [trimLeftLoop.eq_def]
    simp only
    split_ifs with h
    · cases L with
      | nil => simp at h
      | cons x xs =>
        obtain ⟨L1, h1, h2, h3, h4, -⟩ := ih (x :: xs).dropLast (by simp at hL ⊢; omega)
        exact ⟨L1, h1, h2, h3, h4.trans (List.dropLast_prefix _), fun h5 h6 => by omega⟩
    · exact ⟨L, rfl, by omega, by omega, List.prefix_refl _, fun _ _ => rfl⟩

theorem trim_spec (axLeft axRight : List Nat) :
    ∃ l r, trim axLeft axRight = some (l, r) ∧
      8 * l.length ≤ axLeft.length + axRight.length ∧
      l.length ≤ r.length ∧
      2 * r.length ≤ axLeft.length + axRight.length ∧
      l <+: axLeft ∧ r <+: axRight := by
  obtain ⟨r, hr, hr2, hrp, -⟩ :=
    trimRightLoop_spec (axLeft.length + axRight.length) (axRight.length + 1) axRight
      (Nat.lt_succ_self _)
  obtain ⟨l, hl, hl8, hlr, hlp, -⟩ :=
    trimLeftLoop_spec (axLeft.length + axRight.length) r.length (axLeft.length + 1) axLeft
      (Nat.lt_succ_self _)
  refine ⟨l, r, ?_, hl8, hlr, hr2, hlp, hrp⟩
  simp [trim, trimRight, trimLeft, hr, hl]

/-- C10: the trimming of lines 182-187 ends without a `pop_back` on an empty
vector (`trim` returns `some`), for every pair of lists; with `N` the sum of the
two lengths before trimming, the result has `8 * |axLeft| ≤ N`,
`|axLeft| ≤ |axRight|` and `2 * |axRight| ≤ N`, and each list is an initial
segment of what it was. -/
theorem trim_terminates_balanced (axLeft axRight : List Nat) :
    ∃ l r, trim axLeft axRight = some (l, r) ∧
      8 * l.length ≤ axLeft.length + axRight.length ∧
      l.length ≤ r.length ∧
      2 * r.length ≤ axLeft.length + axRight.length ∧
      l <+: axLeft ∧ r <+: axRight :=
  trim_spec axLeft axRight

/-! ## Frame properties of the steps of a round -/

theorem Graph.remove_perm (g : Graph) (u : Nat) :
    ((g.remove u).alive ++ (g.remove u).removed).Perm (g.alive ++ g.removed) := by
  unfold Graph.remove
  split_ifs with h
  · have h1 := List.perm_cons_erase h
    have h2 : (g.alive.erase u ++ (g.removed ++ [u])).Perm
        (u :: (g.alive.erase u ++ g.removed)) := by
      rw [← List.append_assoc]
      exact List.perm_append_singleton u _
    exact h2.trans (h1.symm.append_right g.removed)
  · exact List.Perm.refl _

theorem removeAll_frame {β : Type} (us : List Nat) : ∀ s : Solver β,
    (removeAll s us).T = s.T ∧ (removeAll s us).numSplitNodes = s.numSplitNodes ∧
    (removeAll s us).subdivisionIdx = s.subdivisionIdx ∧
    (removeAll s us).fromSubdivisionIdx = s.fromSubdivisionIdx ∧
    (removeAll s us).randomGen = s.randomGen ∧
    (removeAll s us).phi = s.phi ∧
    ((removeAll s us).graph.alive ++ (removeAll s us).graph.removed).Perm
      (s.graph.alive ++ s.graph.removed) ∧
    ((removeAll s us).subdivGraph.alive ++ (removeAll s us).subdivGraph.removed).Perm
      (s.subdivGraph.alive ++ s.subdivGraph.removed) := by
  induction us with
  | nil => intro s; simp [removeAll]
  | cons u us ih =>
    intro s
    have h := ih { s with
      graph := if idxAt s.subdivisionIdx u = -1 then s.graph.remove u else s.graph,
      subdivGraph := s.subdivGraph.remove u }
    simp only [removeAll, List.foldl_cons] at h ⊢
    obtain ⟨h1, h2, h3, h4, h5, h6, h7, h8⟩ := h
    refine ⟨h1, h2, h3, h4, h5, h6, h7.trans ?_, h8.trans (Graph.remove_perm _ _)⟩
    split_ifs
    · exact Graph.remove_perm _ _
    · exact List.Perm.refl _

theorem sampleStep_frame (env : Env α) (params : Parameters α) (st : RoundState α) :
    (sampleStep env params st).solver.graph = st.solver.graph ∧
    (sampleStep env params st).solver.subdivGraph = st.solver.subdivGraph ∧
    (sampleStep env params st).solver.subdivisionIdx = st.solver.subdivisionIdx ∧
    (sampleStep env params st).solver.fromSubdivisionIdx = st.solver.fromSubdivisionIdx ∧
    (sampleStep env params st).solver.T = st.solver.T ∧
    (sampleStep env params st).solver.numSplitNodes = st.solver.numSplitNodes ∧
    (sampleStep env params st).solver.phi = st.solver.phi ∧
    (sampleStep env params st).flow = st.flow ∧
    (sampleStep env params st).rounds = st.rounds ∧
    (sampleStep env params st).iterations = st.iterations := by
  unfold sampleStep
  split_ifs <;> simp

theorem resampleStep_frame (env : Env α) (params : Parameters α) (st : RoundState α) :
    (resampleStep env params st).solver.graph = st.solver.graph ∧
    (resampleStep env params st).solver.subdivGraph = st.solver.subdivGraph ∧
    (resampleStep env params st).solver.subdivisionIdx = st.solver.subdivisionIdx ∧
    (resampleStep env params st).solver.fromSubdivisionIdx = st.solver.fromSubdivisionIdx ∧
    (resampleStep env params st).solver.T = st.solver.T ∧
    (resampleStep env params st).solver.numSplitNodes = st.solver.numSplitNodes ∧
    (resampleStep env params st).solver.phi = st.solver.phi ∧
    (resampleStep env params st).sampledPotentials = st.sampledPotentials ∧
    (resampleStep env params st).rounds = st.rounds ∧
    (resampleStep env params st).iterations = st.iterations := by
  unfold resampleStep
  split_ifs <;> simp

theorem selectSides_some (st : RoundState α) : ∃ sides, selectSides st = some sides := by
  obtain ⟨l, r, h, _⟩ := trim_spec
    (sortByFlow st.flow st.solver.subdivisionIdx
      (bipartition st.flow st.solver.subdivisionIdx (avgFlow st) st.solver.subdivGraph.alive).1)
    (sortByFlow st.flow st.solver.subdivisionIdx
      (bipartition st.flow st.solver.subdivisionIdx (avgFlow st)
        st.solver.subdivGraph.alive).2).reverse
  exact ⟨(l, r), h⟩

/-- A pass of the round body always completes. -/
theorem roundBody_some [FloorRing α] (env : Env α) (params : Parameters α) (st : RoundState α) :
    ∃ st1, roundBody env params st = some st1 := by
  obtain ⟨sides, h⟩ := selectSides_some (resampleStep env params (sampleStep env params st))
  unfold roundBody
  simp only [h, Option.map_some']
  exact ⟨_, rfl⟩

theorem roundBody_frame [FloorRing α] (env : Env α) (params : Parameters α) (st st1 : RoundState α)
    (h : roundBody env params st = some st1) :
    st1.iterations = st.iterations ∧ st1.solver.T = st.solver.T ∧
    st1.solver.numSplitNodes = st.solver.numSplitNodes ∧
    st1.solver.subdivisionIdx = st.solver.subdivisionIdx ∧
    st1.solver.fromSubdivisionIdx = st.solver.fromSubdivisionIdx ∧
    (st1.solver.graph.alive ++ st1.solver.graph.removed).Perm
      (st.solver.graph.alive ++ st.solver.graph.removed) ∧
    (st1.solver.subdivGraph.alive ++ st1.solver.subdivGraph.removed).Perm
      (st.solver.subdivGraph.alive ++ st.solver.subdivGraph.removed) := by
  obtain ⟨sides, hs⟩ := selectSides_some (resampleStep env params (sampleStep env params st))
  unfold roundBody at h
  simp only [hs, Option.map_some', Option.some.injEq] at h
  subst h
  obtain ⟨a1, a2, a3, a4, a5, a6, -, -, -, a10⟩ := sampleStep_frame env params st
  obtain ⟨b1, b2, b3, b4, b5, b6, -, -, -, b10⟩ :=
    resampleStep_frame env params (sampleStep env params st)
  have f1 := removeAll_frame
    (levelCutSet env (resampleStep env params (sampleStep env params st)) sides.1 sides.2)
    (resampleStep env params (sampleStep env params st)).solver
  have f2 := removeAll_frame
    (zeroDegrees (removeAll (resampleStep env params (sampleStep env params st)).solver
      (levelCutSet env (resampleStep env params (sampleStep env params st)) sides.1 sides.2)))
    (removeAll (resampleStep env params (sampleStep env params st)).solver
      (levelCutSet env (resampleStep env params (sampleStep env params st)) sides.1 sides.2))
  obtain ⟨c1, c2, c3, c4, -, -, c7, c8⟩ := f1
  obtain ⟨d1, d2, d3, d4, -, -, d7, d8⟩ := f2
  refine ⟨?_, ?_, ?_, ?_, ?_, ?_, ?_⟩
  · simp only [b10, a10]
  · simp only [d1, c1, b5, a5]
  · simp only [d2, c2, b6, a6]
  · simp only [d3, c3, b3, a3]
  · simp only [d4, c4, b4, a4]
  · exact d7.trans (c7.trans (by rw [b1, a1]))
  · exact d8.trans (c8.trans (by rw [b2, a2]))

/-! ## The round loop -/

/-- With fuel for every pass up to `T`, the round loop ends in a state in which
its guard fails; it never runs out of fuel and never counts past `T`. -/
theorem roundLoop_guard [FloorRing α] (env : Env α) (params : Parameters α) (target : Int) :
    ∀ (fuel : Nat) (st : RoundState α), st.solver.T - st.iterations ≤ fuel →
    ∃ st1, roundLoop env params target fuel st = some st1 ∧
      st1.solver.T = st.solver.T ∧
      st1.solver.numSplitNodes = st.solver.numSplitNodes ∧
      st1.solver.subdivisionIdx = st.solver.subdivisionIdx ∧
      st1.solver.fromSubdivisionIdx = st.solver.fromSubdivisionIdx ∧
      st.iterations ≤ st1.iterations ∧
      (st.iterations ≤ st.solver.T → st1.iterations ≤ st.solver.T) ∧
      ¬(st1.iterations < st.solver.T ∧ removedVolume env st1.solver ≤ target) ∧
      (st1.solver.graph.alive ++ st1.solver.graph.removed).Perm
        (st.solver.graph.alive ++ st.solver.graph.removed) ∧
      (st1.solver.subdivGraph.alive ++ st1.solver.subdivGraph.removed).Perm
        (st.solver.subdivGraph.alive ++ st.solver.subdivGraph.removed) := by
  intro fuel
  induction fuel with
  | zero =>
    intro st hfuel
    have hg : ¬(st.iterations < st.solver.T ∧ removedVolume env st.solver ≤ target) := by
      intro hg
      have := hg.1
      simp only [Nat.cast_zero] at hfuel
      omega
    refine ⟨st, ?_, rfl, rfl, rfl, rfl, le_refl _, fun h => h, hg, List.Perm.refl _,
      List.Perm.refl _⟩
    rw [roundLoop, if_neg hg]
  | succ fuel ih =>
    intro st hfuel
    rw [roundLoop]
    split_ifs with hg
    · obtain ⟨st1, h1⟩ := roundBody_some env params st
      obtain ⟨e1, e2, e3, e4, e5, e6, e7⟩ := roundBody_frame env params st st1 h1
      obtain ⟨st2, h2, f1, f2, f3, f4, f5, f6, f7, f8, f9⟩ :=
        ih { st1 with iterations := st.iterations + 1 } (by
          simp only [e2]
          push_cast at hfuel
          omega)
      simp only at f1 f2 f3 f4 f5 f6 f7 f8 f9
      refine ⟨st2, ?_, f1.trans e2, f2.trans e3, f3.trans e4, f4.trans e5, by omega, ?_, ?_,
        f8.trans e6, f9.trans e7⟩
      · simp only [h1, Option.some_bind, h2]
      · intro _
        rw [e2] at f6
        exact f6 (by have := hg.1; omega)
      · rw [e2] at f7
        exact f7
    · exact ⟨st, rfl, rfl, rfl, rfl, rfl, le_refl _, fun h => h, hg, List.Perm.refl _,
        List.Perm.refl _⟩

theorem redensify_frame {β : Type} (s : Solver β) :
    (redensify s).graph = s.graph ∧ (redensify s).subdivGraph = s.subdivGraph ∧
    (redensify s).T = s.T ∧ (redensify s).numSplitNodes = s.numSplitNodes ∧
    (redensify s).phi = s.phi ∧ (redensify s).randomGen = s.randomGen := by
  simp [redensify]

theorem initialState_frame (env : Env α) (s : Solver α) :
    (initialState env s).solver.graph = s.graph ∧
    (initialState env s).solver.subdivGraph = s.subdivGraph ∧
    (initialState env s).solver.T = s.T ∧
    (initialState env s).solver.numSplitNodes = s.numSplitNodes ∧
    (initialState env s).iterations = 0 ∧
    (initialState env s).rounds = [] ∧
    (initialState env s).sampledPotentials = [] := by
  simp [initialState, redensify]

/-- The state at the end of the round loop: it exists whenever `10 * T ≠ 0`, its
counter is between `0` and `T` (for `T ≥ 0`), the loop guard fails in it, and
the two graphs hold the vertices they held on entry. -/
theorem loopExit_spec [FloorRing α] (env : Env α) (params : Parameters α) (s : Solver α)
    (lower : Int) (hl : lowerVolumeBalance s = some lower) :
    ∃ st, loopExit env params s = some st ∧
      st.solver.T = s.T ∧ st.solver.numSplitNodes = s.numSplitNodes ∧
      0 ≤ st.iterations ∧ (0 ≤ s.T → st.iterations ≤ s.T) ∧
      ¬(st.iterations < s.T ∧
        removedVolume env st.solver ≤ targetVolumeBalance env params (redensify s) lower) ∧
      (st.solver.graph.alive ++ st.solver.graph.removed).Perm
        (s.graph.alive ++ s.graph.removed) ∧
      (st.solver.subdivGraph.alive ++ st.solver.subdivGraph.removed).Perm
        (s.subdivGraph.alive ++ s.subdivGraph.removed) := by
  obtain ⟨i1, i2, i3, i4, i5, -, -⟩ := initialState_frame env s
  obtain ⟨st, h, f1, f2, -, -, f5, f6, f7, f8, f9⟩ :=
    roundLoop_guard env params (targetVolumeBalance env params (redensify s) lower) s.T.toNat
      (initialState env s) (by rw [i3, i5]; have := Int.self_le_toNat s.T; omega)
  rw [i3] at f1 f6 f7
  rw [i5] at f5 f6
  rw [i1] at f8
  rw [i2] at f9
  refine ⟨st, ?_, f1, f2.trans i4, f5, f6, f7, f8, f9⟩
  simp only [loopExit, hl, Option.some_bind, h]

/-- The main path of `compute` in terms of the state at the end of the round
loop. -/
theorem compute_main [FloorRing α] (env : Env α) (params : Parameters α) (s : Solver α)
    (hn : ¬s.numSplitNodes ≤ 1) (lower : Int) (hl : lowerVolumeBalance s = some lower)
    (st : RoundState α) (hst : loopExit env params s = some st) :
    compute env params s = some
      ({ type := (classify st.solver.graph.size st.solver.graph.removedSize
            (removedVolume env st.solver) lower).type,
         iterations := st.iterations,
         sampledPotentials := (sampleStep env params st).sampledPotentials },
       { (sampleStep env params st).solver with
         graph := (classify st.solver.graph.size st.solver.graph.removedSize
            (removedVolume env st.solver) lower).graphAfter st.solver.graph }) := by
  obtain ⟨a1, a2, -⟩ := sampleStep_frame env params st
  simp only [compute, hn, if_false, hl, Option.some_bind, hst, Option.map_some', removedVolume,
    a1, a2]

/-- The call returns unless it divides by zero: `compute` is `some` as soon as
the early exit is taken or `T ≠ 0`. -/
theorem compute_returns [FloorRing α] (env : Env α) (params : Parameters α) (s : Solver α)
    (h : s.numSplitNodes ≤ 1 ∨ s.T ≠ 0) : ∃ r, compute env params s = some r := by
  by_cases hn : s.numSplitNodes ≤ 1
  · exact ⟨_, by rw [compute, if_pos hn]⟩
  · have hT : s.T ≠ 0 := h.resolve_left hn
    have hl : lowerVolumeBalance s = some (s.numSplitNodes.tdiv (10 * s.T)) := by
      simp only [lowerVolumeBalance]
      rw [if_neg (by omega)]
    obtain ⟨st, hst, -⟩ := loopExit_spec env params s _ hl
    exact ⟨_, compute_main env params s hn _ hl st hst⟩

/-- The outcome of `compute` on the main path, read off the state at the end of
the round loop. -/
theorem compute_cases [FloorRing α] (env : Env α) (params : Parameters α) (s : Solver α)
    (r : Result α × Solver α) (h : compute env params s = some r) :
    (s.numSplitNodes ≤ 1 ∧
      r = ({ type := ResultType.Expander, iterations := 0, sampledPotentials := [] }, s)) ∨
    (¬s.numSplitNodes ≤ 1 ∧ s.T ≠ 0 ∧ ∃ st, loopExit env params s = some st ∧
      r.1.type = (classify st.solver.graph.size st.solver.graph.removedSize
        (removedVolume env st.solver) (s.numSplitNodes.tdiv (10 * s.T))).type ∧
      r.1.iterations = st.iterations ∧
      r.2.graph = (classify st.solver.graph.size st.solver.graph.removedSize
        (removedVolume env st.solver) (s.numSplitNodes.tdiv (10 * s.T))).graphAfter
          st.solver.graph ∧
      r.2.subdivGraph = st.solver.subdivGraph ∧
      r.2.subdivisionIdx = st.solver.subdivisionIdx ∧
      r.2.fromSubdivisionIdx = st.solver.fromSubdivisionIdx) := by
  by_cases hn : s.numSplitNodes ≤ 1
  · left
    rw [compute, if_pos hn] at h
    exact ⟨hn, (Option.some.inj h).symm⟩
  · right
    by_cases hT : s.T = 0
    · simp [compute, hn, lowerVolumeBalance, hT] at h
    · have hl : lowerVolumeBalance s = some (s.numSplitNodes.tdiv (10 * s.T)) := by
        simp only [lowerVolumeBalance]
        rw [if_neg (by omega)]
      obtain ⟨st, hst, -⟩ := loopExit_spec env params s _ hl
      rw [compute_main env params s hn _ hl st hst] at h
      obtain ⟨-, a2, a3, a4, -⟩ := sampleStep_frame env params st
      have hr := (Option.some.inj h).symm
      subst hr
      exact ⟨hn, hT, st, hst, rfl, rfl, rfl, a2, a3, a4⟩

/-! ## Claims about the outcome of `compute` -/

/-- C2: when `compute` returns `Balanced` and `T ≥ 1`, the original graph has
at least one alive and at least one removed vertex on return, and the removed
volume of the subdivision graph is strictly above the rational number
`numSplitNodes / (10 * T)`, although the source compares it with the truncated
integer quotient. -/
theorem balanced_exceeds_rational_bound [FloorRing α] (env : Env α) (params : Parameters α)
    (s : Solver α) (r : Result α × Solver α) (hT : 1 ≤ s.T)
    (h : compute env params s = some r) (hb : r.1.type = ResultType.Balanced) :
    1 ≤ r.2.graph.size ∧ 1 ≤ r.2.graph.removedSize ∧
    (s.numSplitNodes : ℚ) / (10 * (s.T : ℚ)) < ((removedVolume env r.2 : Int) : ℚ) := by
  rcases compute_cases env params s r h with ⟨-, hr⟩ | ⟨hn, -, st, -, ht, -, hg, hsub, -⟩
  · rw [hr] at hb
    cases hb
  · rw [hb] at ht
    have hbr : classify st.solver.graph.size st.solver.graph.removedSize
        (removedVolume env st.solver) (s.numSplitNodes.tdiv (10 * s.T)) = Branch.balanced := by
      generalize classify st.solver.graph.size st.solver.graph.removedSize
        (removedVolume env st.solver) (s.numSplitNodes.tdiv (10 * s.T)) = b at ht
      cases b
      · rfl
      · cases ht
      · cases ht
      · cases ht
    rw [hbr] at hg
    obtain ⟨h1, h2, h3⟩ := (classify_fires _ _ _ _ _).1 hbr
    have hs0 : (0 : Int) ≤ st.solver.graph.size := Int.ofNat_nonneg _
    have hr0 : (0 : Int) ≤ st.solver.graph.removedSize := Int.ofNat_nonneg _
    have hvol : removedVolume env r.2 = removedVolume env st.solver := by
      simp only [removedVolume, hsub]
    simp only [Branch.graphAfter] at hg
    rw [hg, hvol]
    refine ⟨by omega, by omega, ?_⟩
    have hd : (0 : Int) < 10 * s.T := by omega
    rw [Int.tdiv_eq_ediv (by omega) (le_of_lt hd)] at h3
    have h4 : s.numSplitNodes < (s.numSplitNodes / (10 * s.T) + 1) * (10 * s.T) :=
      Int.lt_ediv_add_one_mul_self _ hd
    have h5 : s.numSplitNodes < removedVolume env st.solver * (10 * s.T) :=
      lt_of_lt_of_le h4 (Int.mul_le_mul_of_nonneg_right (by omega) (le_of_lt hd))
    have hdq : (0 : ℚ) < 10 * (s.T : ℚ) := by exact_mod_cast hd
    rw [div_lt_iff₀ hdq]
    exact_mod_cast h5

/-- C3: for `T ≥ 0` the returned `iterations` lies between `0` and `T`. When the
early exit is not taken the round loop ends in a state `st` (`loopExit`) whose
counter is the returned one, and if that is below `T` the removed volume of the
subdivision graph in `st` is strictly above `targetVolumeBalance`: the loop
stops early for that reason only. -/
theorem iterations_bounded_by_T [FloorRing α] (env : Env α) (params : Parameters α)
    (s : Solver α) (r : Result α × Solver α) (hT : 0 ≤ s.T)
    (h : compute env params s = some r) :
    0 ≤ r.1.iterations ∧ r.1.iterations ≤ s.T ∧
    (¬s.numSplitNodes ≤ 1 →
      ∃ st lower, loopExit env params s = some st ∧ lowerVolumeBalance s = some lower ∧
        st.iterations = r.1.iterations ∧ st.solver.subdivGraph = r.2.subdivGraph ∧
        (r.1.iterations < s.T →
          targetVolumeBalance env params (redensify s) lower < removedVolume env st.solver)) := by
  rcases compute_cases env params s r h with ⟨hn, hr⟩ | ⟨hn, hT0, st, hst, -, hi, -, hsub, -⟩
  · subst hr
    exact ⟨le_refl _, hT, fun hc => absurd hn hc⟩
  · have hl : lowerVolumeBalance s = some (s.numSplitNodes.tdiv (10 * s.T)) := by
      simp only [lowerVolumeBalance]
      rw [if_neg (by omega)]
    obtain ⟨st1, hst1, -, -, f3, f4, f5, -⟩ := loopExit_spec env params s _ hl
    rw [hst] at hst1
    have hst2 := Option.some.inj hst1
    subst hst2
    refine ⟨hi ▸ f3, hi ▸ f4 hT, fun _ => ⟨st, _, hst, hl, hi.symm, hsub.symm, fun hlt => ?_⟩⟩
    by_contra hc
    exact f5 ⟨hi ▸ hlt, not_lt.1 hc⟩

/-- C4: with `numSplitNodes ≤ 1` the call takes the early exit for any
parameters: it returns `Expander` with `iterations = 0` and no sampled
potentials, and every member of the solver (both graphs with their alive and
removed ranges, both index maps) is as on entry. -/
theorem early_exit_expander [FloorRing α] (env : Env α) (params : Parameters α)
    (s : Solver α) (hn : s.numSplitNodes ≤ 1) :
    ∃ r, compute env params s = some r ∧
      r.1.type = ResultType.Expander ∧ r.1.iterations = 0 ∧ r.1.sampledPotentials = [] ∧
      r.2 = s ∧ r.2.graph = s.graph ∧ r.2.subdivGraph = s.subdivGraph ∧
      r.2.subdivisionIdx = s.subdivisionIdx ∧
      r.2.fromSubdivisionIdx = s.fromSubdivisionIdx :=
  ⟨({ type := ResultType.Expander, iterations := 0, sampledPotentials := [] }, s),
    by rw [compute, if_pos hn], rfl, rfl, rfl, rfl, rfl, rfl, rfl, rfl⟩

/-- C5: on a graph without removed vertices on entry, a call that reports
`Expander` returns with no removed vertex in the original graph and with the
alive vertices it had on entry. This holds in each branch that reports
`Expander`; in the branch taken when every vertex was removed it is the effect
of `restoreRemoves`. -/
theorem expander_restores_vertices [FloorRing α] (env : Env α) (params : Parameters α)
    (s : Solver α) (r : Result α × Solver α) (h0 : s.graph.removed = [])
    (h : compute env params s = some r) (hE : r.1.type = ResultType.Expander) :
    r.2.graph.removed = [] ∧ r.2.graph.alive.Perm s.graph.alive ∧
    (∀ v, v ∈ r.2.graph.alive ↔ v ∈ s.graph.alive) := by
  have key : r.2.graph.removed = [] ∧ r.2.graph.alive.Perm s.graph.alive := by
    rcases compute_cases env params s r h with ⟨-, hr⟩ | ⟨hn, hT0, st, hst, ht, -, hg, -⟩
    · subst hr
      exact ⟨h0, List.Perm.refl _⟩
    · have hl : lowerVolumeBalance s = some (s.numSplitNodes.tdiv (10 * s.T)) := by
        simp only [lowerVolumeBalance]
        rw [if_neg (by omega)]
      obtain ⟨st1, hst1, -, -, -, -, -, f6, -⟩ := loopExit_spec env params s _ hl
      rw [hst] at hst1
      have hst2 := Option.some.inj hst1
      subst hst2
      rw [h0, List.append_nil] at f6
      rw [hE] at ht
      rw [hg]
      generalize hb : classify st.solver.graph.size st.solver.graph.removedSize
        (removedVolume env st.solver) (s.numSplitNodes.tdiv (10 * s.T)) = b at ht
      have hf := (classify_fires _ _ _ _ _).1 hb
      cases b with
      | balanced => simp [Branch.type] at ht
      | nearExpander => simp [Branch.type] at ht
      | noneRemoved =>
        have hrem : st.solver.graph.removed = [] := by
          have := hf.2
          simpa [Graph.removedSize] using this
        simp only [Branch.graphAfter]
        rw [hrem, List.append_nil] at f6
        exact ⟨hrem, f6⟩
      | allRemoved =>
        simp only [Branch.graphAfter, Graph.restoreRemoves]
        refine ⟨trivial, List.Perm.trans ?_ f6⟩
        exact List.Perm.append_left _ (List.reverse_perm _)
  exact ⟨key.1, key.2, fun v => key.2.mem_iff⟩

/-! ## Flow projection -/

theorem sum_map_set (g : α → α) : ∀ (l : List α) (i : Nat) (x : α), i < l.length →
    ((l.set i x).map g).sum = (l.map g).sum - g (l.getD i 0) + g x := by
  intro l
  induction l with
  | nil => intro i x h; simp at h
  | cons a l ih =>
    intro i x h
    cases i with
    | zero =>
      simp only [List.set_cons_zero, List.map_cons, List.sum_cons, List.getD_cons_zero]
      ring
    | succ i =>
      simp only [List.set_cons_succ, List.map_cons, List.sum_cons, List.getD_cons_succ]
      rw [ih i x (by simpa using h)]
      ring

theorem getD_set_self {β : Type} (l : List β) (i : Nat) (x d : β) (h : i < l.length) :
    (l.set i x).getD i d = x := by
  simp [List.getD_eq_getElem?_getD, List.getElem?_set, h]

theorem getD_set_ne {β : Type} (l : List β) (i j : Nat) (x d : β) (h : i ≠ j) :
    (l.set i x).getD j d = l.getD j d := by
  simp [List.getD_eq_getElem?_getD, List.getElem?_set, h]

theorem vset_length {β : Type} (v : List β) (i : Int) (x : β) : (vset v i x).length = v.length := by
  unfold vset
  split_ifs <;> simp

/-- Averaging two slots does not increase the squared distance from a constant. -/
theorem sqDist_pair_le (c : α) (v : List α) (i j : Nat) (hi : i < v.length) (hj : j < v.length) :
    sqDist c ((v.set i (1 / 2 * (v.getD i 0 + v.getD j 0))).set j
      (1 / 2 * (v.getD i 0 + v.getD j 0))) ≤ sqDist c v := by
  unfold sqDist
  by_cases hij : i = j
  · subst hij
    rw [List.set_set]
    rw [sum_map_set _ v i _ hi]
    have : 1 / 2 * (v.getD i 0 + v.getD i 0) = v.getD i 0 := by ring
    rw [this]
    simp
  · rw [sum_map_set _ _ j _ (by simpa using hj), sum_map_set _ v i _ hi, getD_set_ne _ _ _ _ _ hij]
    nlinarith [sq_nonneg (v.getD i 0 - v.getD j 0)]

theorem vget_natCast {β : Type} [Zero β] (v : List β) (i : Nat) : vget v (i : Int) = v.getD i 0 := by
  unfold vget
  rw [if_neg (by omega), Int.toNat_ofNat]

theorem vset_natCast {β : Type} (v : List β) (i : Nat) (x : β) : vset v (i : Int) x = v.set i x := by
  unfold vset
  rw [if_neg (by omega), Int.toNat_ofNat]

theorem averagePair_eq (v : List α) (i j : Nat) (hi : i < v.length) :
    averagePair v ((i : Int), (j : Int)) =
      (v.set i (1 / 2 * (v.getD i 0 + v.getD j 0))).set j (1 / 2 * (v.getD i 0 + v.getD j 0)) := by
  simp only [averagePair, vset_natCast, vget_natCast, getD_set_self _ _ _ _ hi]

theorem applyMatched_eq (v : List α) (i j : Nat) :
    applyMatched v ((i : Int), (j : Int)) =
      (v.set i (1 / 2 * (v.getD i 0 + v.getD j 0))).set j (1 / 2 * (v.getD i 0 + v.getD j 0)) := by
  simp only [applyMatched, vset_natCast, vget_natCast]


theorem averagePair_le (c : α) (v : List α) (p : Int × Int)
    (h : 0 ≤ p.1 ∧ p.1 < v.length ∧ 0 ≤ p.2 ∧ p.2 < v.length) :
    (averagePair v p).length = v.length ∧ sqDist c (averagePair v p) ≤ sqDist c v := by
  obtain ⟨a, b⟩ := p
  obtain ⟨h1, h2, h3, h4⟩ := h
  simp only at h1 h2 h3 h4
  lift a to ℕ using h1
  lift b to ℕ using h3
  have ha : a < v.length := by exact_mod_cast h2
  have hb : b < v.length := by exact_mod_cast h4
  rw [averagePair_eq v a b ha]
  exact ⟨by simp, sqDist_pair_le c v a b ha hb⟩

theorem applyMatched_le (c : α) (v : List α) (p : Int × Int)
    (h : 0 ≤ p.1 ∧ p.1 < v.length ∧ 0 ≤ p.2 ∧ p.2 < v.length) :
    (applyMatched v p).length = v.length ∧ sqDist c (applyMatched v p) ≤ sqDist c v := by
  obtain ⟨a, b⟩ := p
  obtain ⟨h1, h2, h3, h4⟩ := h
  simp only at h1 h2 h3 h4
  lift a to ℕ using h1
  lift b to ℕ using h3
  have ha : a < v.length := by exact_mod_cast h2
  have hb : b < v.length := by exact_mod_cast h4
  rw [applyMatched_eq v a b]
  exact ⟨by simp, sqDist_pair_le c v a b ha hb⟩

/-- A left fold of a step that keeps the length and does not increase the
squared distance, over pairs that are in range, does neither. -/
theorem foldl_pairs_le (c : α) (step : List α → Int × Int → List α) (n : Nat)
    (hstep : ∀ (v : List α) (p : Int × Int), v.length = n →
      (0 ≤ p.1 ∧ p.1 < n ∧ 0 ≤ p.2 ∧ p.2 < n) →
      (step v p).length = n ∧ sqDist c (step v p) ≤ sqDist c v) :
    ∀ (m : List (Int × Int)) (v : List α), v.length = n →
      (∀ p ∈ m, 0 ≤ p.1 ∧ p.1 < n ∧ 0 ≤ p.2 ∧ p.2 < n) →
      (m.foldl step v).length = n ∧ sqDist c (m.foldl step v) ≤ sqDist c v := by
  intro m
  induction m with
  | nil => intro v hv _; exact ⟨hv, le_refl _⟩
  | cons p m ih =>
    intro v hv hm
    obtain ⟨h1, h2⟩ := hstep v p hv (hm p (List.mem_cons_self _ _))
    obtain ⟨h3, h4⟩ := ih (step v p) h1 (fun q hq => hm q (List.mem_cons_of_mem _ hq))
    exact ⟨h3, h4.trans h2⟩

theorem projectFlow_le (c : α) (n : Nat) : ∀ (rounds : List Matching) (v : List α),
    v.length = n →
    (∀ m ∈ rounds, ∀ p ∈ m, 0 ≤ p.1 ∧ p.1 < (n : Int) ∧ 0 ≤ p.2 ∧ p.2 < (n : Int)) →
    (projectFlow rounds v).length = n ∧ sqDist c (projectFlow rounds v) ≤ sqDist c v := by
  intro rounds
  induction rounds with
  | nil => intro v hv _; exact ⟨hv, le_refl _⟩
  | cons m rounds ih =>
    intro v hv hr
    have hm := foldl_pairs_le c averagePair n
      (fun w p hw hp => by
        have := averagePair_le c w p (by rw [hw]; exact hp)
        rw [hw] at this
        exact this) m v hv (hr m (List.mem_cons_self _ _))
    obtain ⟨h3, h4⟩ := ih (m.foldl averagePair v) hm.1
      (fun m1 hm1 => hr m1 (List.mem_cons_of_mem _ hm1))
    exact ⟨h3, h4.trans hm.2⟩

/-- C6: pairwise averaging is a contraction in L2 in exact arithmetic. For every
vector `f`, every constant `c` and every history `rounds` whose indices are in
range, `projectFlow rounds f` is at most as far from the constant vector `c` as
`f` (sum of squared differences), and so is the result of the averaging of the
round loop (`applyMatched`) over a matching `m` with indices in range. -/
theorem averaging_contracts_L2 (c : α) (f : List α) (rounds : List Matching) (m : Matching)
    (hr : ∀ m1 ∈ rounds, ∀ p ∈ m1,
      0 ≤ p.1 ∧ p.1 < (f.length : Int) ∧ 0 ≤ p.2 ∧ p.2 < (f.length : Int))
    (hm : ∀ p ∈ m, 0 ≤ p.1 ∧ p.1 < (f.length : Int) ∧ 0 ≤ p.2 ∧ p.2 < (f.length : Int)) :
    sqDist c (projectFlow rounds f) ≤ sqDist c f ∧
    sqDist c (m.foldl applyMatched f) ≤ sqDist c f :=
  ⟨(projectFlow_le c f.length rounds f rfl hr).2,
   (foldl_pairs_le c applyMatched f.length
      (fun w p hw hp => by
        have := applyMatched_le c w p (by rw [hw]; exact hp)
        rw [hw] at this
        exact this) m f rfl hm).2⟩

/-! ## Potential sampling -/

theorem pathSolver_unitVector (cut : List Nat) (pos : Nat) (hpos : pos % 2 = 0) :
    randomUnitVector (pathEnv cut) { pathSolver with randomGen := { pathRng with pos := pos } } =
      ([3 / 5, 4 / 5], { pathRng with pos := pos + 2 }) := by
  have h1 : (pos + 1) % 2 = 1 := by omega
  simp only [randomUnitVector, drawSamples, normalise, pathSolver, pathSubdiv, pathEnv, pathRng,
    idxAt, List.foldl_cons, List.foldl_nil, List.getD_cons_zero, List.getD_cons_succ, Rng.next,
    hpos, h1]
  have h2 : (2 : Int).toNat = 2 := rfl
  have h3 : List.replicate 2 (0 : ℚ) = [0, 0] := rfl
  norm_num [vset, vget, hpos, h1, h2, h3]

theorem samplePotential_length (env : Env α) (s : Solver α) (rounds : List Matching) :
    ∀ (todo : Nat) (result : List (Option α)) (rng : Rng α),
      (samplePotentialLoop env s rounds todo result rng).1.length = result.length + todo := by
  intro todo
  induction todo with
  | zero => intro result rng; rfl
  | succ todo ih =>
    intro result rng
    rw [samplePotentialLoop, ih]
    simp only [List.length_append, List.length_singleton]
    omega

/-- The sampler on the subdivided path `0 - 1 - 2`: the summation loop reads
`flow[-1]` at the original vertex `0`. -/
theorem samplePotential_path (cut : List Nat) :
    (samplePotential (pathEnv cut) pathSolver [] 1).1 = [none] := by
  have h : randomUnitVector (pathEnv cut) { pathSolver with randomGen := pathSolver.randomGen } =
      ([3 / 5, 4 / 5], { pathRng with pos := 0 + 2 }) := pathSolver_unitVector cut 0 rfl
  simp only [samplePotential, samplePotentialLoop, Int.toNat_one, h, projectFlow, List.foldl_nil,
    List.nil_append]
  simp [potentialTotal, pathSolver, pathSubdiv, idxAt, vread]

/-- The sampler in a state without alive original vertices: the split vertex
with compact index `0` is left out of the sum, which the specification puts at
`1 / 10`. -/
theorem samplePotential_skips_index_zero (cut : List Nat) :
    (samplePotential (pathEnv cut)
      { pathSolver with subdivGraph := { pathSubdiv with alive := [3, 4] },
                        graph := { pathGraph with alive := [] } } [] 1).1 = [some (9 / 100)] ∧
    specPotential (1 / 2 : ℚ) [3 / 5, 4 / 5] pathSolver.subdivisionIdx [3, 4] = 1 / 10 := by
  have h2 : (2 : Int).toNat = 2 := rfl
  have h3 : List.replicate 2 (0 : ℚ) = [0, 0] := rfl
  constructor
  · simp only [samplePotential, samplePotentialLoop, Int.toNat_one, projectFlow, List.foldl_nil,
      List.nil_append, randomUnitVector, drawSamples, normalise, pathSolver, pathSubdiv, pathEnv,
      pathRng, pathGraph, idxAt, List.foldl_cons, List.getD_cons_zero, List.getD_cons_succ,
      Rng.next, potentialTotal, Graph.size]
    norm_num [vset, vget, vread, h2, h3]
  · norm_num [specPotential, pathSolver, idxAt, vget]

/-- C7 (evaluation at the failing input): on the subdivided path `0 - 1 - 2`
with compact indices `[-1, -1, -1, 0, 1]`, unit vector `[3/5, 4/5]` and `k = 1`,
the summation loop of `samplePotential` passes its guard at the original
vertex `0`, whose index is `-1`, and reads `flow[-1]`, outside the vector;
the sum over the compact indices `≥ 0` that the claim describes is `1 / 10`. -/
theorem samplePotential_guard_divergence :
    (samplePotential (pathEnv []) pathSolver [] 1).1 = [none] ∧
    specPotential (1 / 2 : ℚ) [3 / 5, 4 / 5] pathSolver.subdivisionIdx
      pathSolver.subdivGraph.alive = 1 / 10 := by
  refine ⟨samplePotential_path [], ?_⟩
  norm_num [specPotential, pathSolver, pathSubdiv, idxAt, vget]

/-! ## Resampling -/

theorem randomWalk_iterate (rounds : List Matching) : ∀ (steps : Nat) (flow : List α),
    randomWalk rounds steps flow = Nat.iterate (projectFlow rounds) steps flow := by
  intro steps
  induction steps with
  | zero => intro flow; rfl
  | succ steps ih => intro flow; rw [randomWalk, ih]; rfl

/-- C8 as stated fails: with `resampleUnitVector` and `randomWalkSteps = 0`, on
the path with the recorded matching `[(0, 1)]`, the flow of the round is the
fresh unit vector `[3/5, 4/5]` itself and not its projection `[7/10, 7/10]`
through the recorded matching (one projection more than `randomWalkSteps`). -/
theorem resample_zero_steps_unprojected :
    (resampleStep (pathEnv []) (resampleParams 0) pathState).flow = [3 / 5, 4 / 5] ∧
    randomWalk pathState.rounds ((resampleParams 0).randomWalkSteps.toNat + 1)
      (randomUnitVector (pathEnv []) pathState.solver).1 = [7 / 10, 7 / 10] ∧
    (resampleStep (pathEnv []) (resampleParams 0) pathState).flow ≠
      randomWalk pathState.rounds ((resampleParams 0).randomWalkSteps.toNat + 1)
        (randomUnitVector (pathEnv []) pathState.solver).1 := by
  have h : randomUnitVector (pathEnv []) pathState.solver =
      ([3 / 5, 4 / 5], { pathRng with pos := 0 + 2 }) := pathSolver_unitVector [] 0 rfl
  have h1 : (resampleStep (pathEnv []) (resampleParams 0) pathState).flow = [3 / 5, 4 / 5] := by
    simp only [resampleStep, resampleParams, if_true, h, Int.toNat_zero, randomWalk]
  have h2 : randomWalk pathState.rounds ((resampleParams 0).randomWalkSteps.toNat + 1)
      (randomUnitVector (pathEnv []) pathState.solver).1 = [7 / 10, 7 / 10] := by
    rw [h]
    simp only [resampleParams, Int.toNat_zero, randomWalk, pathState, projectFlow,
      List.foldl_cons, List.foldl_nil, averagePair]
    norm_num [vset, vget]
  refine ⟨h1, h2, ?_⟩
  rw [h1, h2]
  norm_num

/-- C8, amended: with `resampleUnitVector`, for every `randomWalkSteps ≥ 0` the
flow of the round (the one `selectSides` partitions) is the fresh unit vector
with `projectFlow` over the whole history applied exactly `randomWalkSteps`
times; for `randomWalkSteps = 0` it is the unit vector as drawn. -/
theorem resample_projects_exactly_steps (env : Env α) (params : Parameters α)
    (st : RoundState α) (hres : params.resampleUnitVector = true)
    (hsteps : 0 ≤ params.randomWalkSteps) :
    (resampleStep env params st).flow =
      Nat.iterate (projectFlow st.rounds) params.randomWalkSteps.toNat
        (randomUnitVector env st.solver).1 ∧
    ((params.randomWalkSteps.toNat : Int) = params.randomWalkSteps) ∧
    (params.randomWalkSteps = 0 →
      (resampleStep env params st).flow = (randomUnitVector env st.solver).1) := by
  have h : (resampleStep env params st).flow =
      Nat.iterate (projectFlow st.rounds) params.randomWalkSteps.toNat
        (randomUnitVector env st.solver).1 := by
    simp only [resampleStep, hres, if_true, randomWalk_iterate]
  refine ⟨h, Int.toNat_of_nonneg hsteps, fun h0 => ?_⟩
  rw [h, h0]
  rfl

/-- C8, amended, on the path: one step, one projection. -/
theorem resample_projects_exactly_steps_path :
    (resampleParams 1).resampleUnitVector = true ∧ 0 ≤ (resampleParams 1).randomWalkSteps ∧
    (resampleStep (pathEnv []) (resampleParams 1) pathState).flow =
      Nat.iterate (projectFlow pathState.rounds) (resampleParams 1).randomWalkSteps.toNat
        (randomUnitVector (pathEnv []) pathState.solver).1 :=
  ⟨rfl, by decide,
    (resample_projects_exactly_steps (pathEnv []) (resampleParams 1) pathState rfl
      (by decide)).1⟩

end CutMatching

/-! ## Graph reader -/

theorem edgeListStep_invariant (acc : List (Int × Int) × List (Int × Int)) (p : Int × Int)
    (h : acc.1 = acc.2 ∧ acc.2.Nodup ∧ ∀ e ∈ acc.2, e.1 ≤ e.2) :
    (edgeListStep acc p).1 = (edgeListStep acc p).2 ∧ (edgeListStep acc p).2.Nodup ∧
      ∀ e ∈ (edgeListStep acc p).2, e.1 ≤ e.2 := by
  obtain ⟨h1, h2, h3⟩ := h
  unfold edgeListStep
  simp only
  split_ifs with hq hmem hmem
  · exact ⟨h1, h2, h3⟩
  · refine ⟨by simp [h1], ?_, ?_⟩
    · rw [h1] at hmem
      exact List.Nodup.append h2 (List.nodup_singleton _) (by simpa using hmem)
    · intro e he
      rcases List.mem_append.1 he with he | he
      · exact h3 e he
      · rw [List.mem_singleton.1 he]
        exact le_of_lt hq
  · exact ⟨h1, h2, h3⟩
  · refine ⟨by simp [h1], ?_, ?_⟩
    · rw [h1] at hmem
      exact List.Nodup.append h2 (List.nodup_singleton _) (by simpa using hmem)
    · intro e he
      rcases List.mem_append.1 he with he | he
      · exact h3 e he
      · rw [List.mem_singleton.1 he]
        exact not_lt.1 hq

theorem edgeList_foldl_invariant (ps : List (Int × Int)) :
    ∀ acc : List (Int × Int) × List (Int × Int),
      (acc.1 = acc.2 ∧ acc.2.Nodup ∧ ∀ e ∈ acc.2, e.1 ≤ e.2) →
      (ps.foldl edgeListStep acc).2.Nodup ∧ ∀ e ∈ (ps.foldl edgeListStep acc).2, e.1 ≤ e.2 := by
  induction ps with
  | nil => intro acc h; exact ⟨h.2.1, h.2.2⟩
  | cons p ps ih => intro acc h; exact ih _ (edgeListStep_invariant acc p h)

/-- The edge-list branch of `readGraph` hands over no edge twice, in either
order of its endpoints. -/
theorem readEdgeList_no_duplicates (inp : GraphInput) :
    (readGraph inp false).2.Pairwise (fun e f => ¬sameEdge e f) := by
  obtain ⟨h1, h2⟩ := edgeList_foldl_invariant ((tokenPairs inp.lines.flatten).take inp.m.toNat)
    ([], []) ⟨rfl, List.nodup_nil, fun e he => by simp at he⟩
  have h3 : (readGraph inp false).2 =
      (((tokenPairs inp.lines.flatten).take inp.m.toNat).foldl edgeListStep ([], [])).2 := rfl
  rw [h3]
  refine List.Pairwise.imp_of_mem ?_ h1
  intro e f he hf hne hs
  have le1 := h2 e he
  have le2 := h2 f hf
  apply hne
  rcases hs with ⟨a, b⟩ | ⟨a, b⟩
  · exact Prod.ext a b
  · exact Prod.ext (by omega) (by omega)

/-- C9 (evaluation at the failing input): in Chaco format, for two vertices
with the first line `2 2` and the second line `1`, `readGraph` hands the edge
`(0, 1)` to the graph constructor twice. -/
theorem readGraph_chaco_keeps_duplicate :
    readGraph chacoRepeated true = (2, [(0, 1), (0, 1)]) ∧
    ¬(readGraph chacoRepeated true).2.Pairwise (fun e f => ¬sameEdge e f) := by
  have h : readGraph chacoRepeated true = (2, [(0, 1), (0, 1)]) := by decide
  refine ⟨h, ?_⟩
  rw [h]
  simp [sameEdge]

namespace CutMatching

variable {α : Type} [LinearOrderedField α]

/-! ## Two runs of `compute` on the path -/

theorem path_redensify : redensify pathSolver = pathSolver := by
  rfl

theorem path_initialState (cut : List Nat) : initialState (pathEnv cut) pathSolver = pathStart := by
  have h : randomUnitVector (pathEnv cut) pathSolver =
      ([3 / 5, 4 / 5], { pathRng with pos := 2 }) := pathSolver_unitVector cut 0 rfl
  simp only [initialState, pathStart, path_redensify, h]

theorem path_selectSides : selectSides pathStart = some ([], [4]) := by
  have havg : avgFlow pathStart = 7 / 10 := by
    norm_num [avgFlow, pathStart, curSubdivisionCount, pathSolver, pathSubdiv, pathGraph,
      Graph.size]
  have hb : bipartition pathStart.flow pathStart.solver.subdivisionIdx (7 / 10)
      pathStart.solver.subdivGraph.alive = ([3], [4]) := by
    norm_num [bipartition, pathStart, pathSolver, pathSubdiv, idxAt, vget]
  simp only [selectSides, havg, hb]
  rfl

theorem path_roundBody_cut :
    roundBody (pathEnv [2, 4]) plainParams pathStart = some pathAfterCut := by
  have h1 : sampleStep (pathEnv [2, 4]) plainParams pathStart = pathStart := rfl
  have h2 : resampleStep (pathEnv [2, 4]) plainParams pathStart = pathStart := rfl
  simp only [roundBody, h1, h2, path_selectSides, Option.map_some']
  rfl

theorem path_roundBody_all :
    roundBody (pathEnv [0, 1, 2, 3, 4]) plainParams pathStart = some pathAfterAll := by
  have h1 : sampleStep (pathEnv [0, 1, 2, 3, 4]) plainParams pathStart = pathStart := rfl
  have h2 : resampleStep (pathEnv [0, 1, 2, 3, 4]) plainParams pathStart = pathStart := rfl
  simp only [roundBody, h1, h2, path_selectSides, Option.map_some']
  rfl

theorem path_target (cut : List Nat) :
    targetVolumeBalance (pathEnv cut) plainParams (redensify pathSolver) 0 = 0 := by
  norm_num [targetVolumeBalance, plainParams, cTrunc]

theorem path_loopExit_cut :
    loopExit (pathEnv [2, 4]) plainParams pathSolver =
      some { pathAfterCut with iterations := 1 } := by
  have hl : lowerVolumeBalance pathSolver = some 0 := rfl
  have hT : pathSolver.T.toNat = 2 := rfl
  simp only [loopExit, hl, Option.some_bind, path_target, path_initialState, hT]
  rw [roundLoop, if_pos (by decide), path_roundBody_cut, Option.some_bind, roundLoop,
    if_neg (by decide)]
  rfl

theorem path_loopExit_all :
    loopExit (pathEnv [0, 1, 2, 3, 4]) plainParams pathSolver =
      some { pathAfterAll with iterations := 1 } := by
  have hl : lowerVolumeBalance pathSolver = some 0 := rfl
  have hT : pathSolver.T.toNat = 2 := rfl
  simp only [loopExit, hl, Option.some_bind, path_target, path_initialState, hT]
  rw [roundLoop, if_pos (by decide), path_roundBody_all, Option.some_bind, roundLoop,
    if_neg (by decide)]
  rfl

/-- A run of `compute` on the path that reports `Balanced` after one of two
rounds: the level cut `{2, 4}` of the first round has volume `3`. -/
theorem path_compute_cut :
    compute (pathEnv [2, 4]) plainParams pathSolver =
      some ({ type := ResultType.Balanced, iterations := 1, sampledPotentials := [] },
        pathAfterCut.solver) := by
  rw [compute_main (pathEnv [2, 4]) plainParams pathSolver (by decide) 0 rfl _ path_loopExit_cut]
  rfl

/-- A run of `compute` on the path in which the first round removes every
vertex: the third branch of the classification restores them and reports
`Expander`. -/
theorem path_compute_all :
    compute (pathEnv [0, 1, 2, 3, 4]) plainParams pathSolver =
      some ({ type := ResultType.Expander, iterations := 1, sampledPotentials := [] },
        { pathAfterAll.solver with graph := { pathGraph with alive := [2, 1, 0] } }) := by
  rw [compute_main (pathEnv [0, 1, 2, 3, 4]) plainParams pathSolver (by decide) 0 rfl _
    path_loopExit_all]
  rfl

/-! ## The claims at concrete inputs -/

/-- C2 on the path: the run with level cut `{2, 4}` reports `Balanced`, with two
alive vertices, one removed vertex and removed volume `3 > 2 / 20`. -/
theorem balanced_exceeds_rational_bound_path :
    1 ≤ pathSolver.T ∧
    compute (pathEnv [2, 4]) plainParams pathSolver =
      some ({ type := ResultType.Balanced, iterations := 1, sampledPotentials := [] },
        pathAfterCut.solver) ∧
    (1 ≤ pathAfterCut.solver.graph.size ∧ 1 ≤ pathAfterCut.solver.graph.removedSize ∧
      (pathSolver.numSplitNodes : ℚ) / (10 * (pathSolver.T : ℚ)) <
        ((removedVolume (pathEnv [2, 4]) pathAfterCut.solver : Int) : ℚ)) :=
  ⟨by decide, path_compute_cut,
    balanced_exceeds_rational_bound (pathEnv [2, 4]) plainParams pathSolver _ (by decide)
      path_compute_cut rfl⟩

/-- C3 on the path: the run with level cut `{2, 4}` returns after one of its two
rounds, with removed volume above the target. -/
theorem iterations_bounded_by_T_path :
    0 ≤ pathSolver.T ∧
    compute (pathEnv [2, 4]) plainParams pathSolver =
      some ({ type := ResultType.Balanced, iterations := 1, sampledPotentials := [] },
        pathAfterCut.solver) ∧
    (0 ≤ (1 : Int) ∧ (1 : Int) ≤ pathSolver.T ∧
      (¬pathSolver.numSplitNodes ≤ 1 →
        ∃ st lower, loopExit (pathEnv [2, 4]) plainParams pathSolver = some st ∧
          lowerVolumeBalance pathSolver = some lower ∧
          st.iterations = 1 ∧ st.solver.subdivGraph = pathAfterCut.solver.subdivGraph ∧
          ((1 : Int) < pathSolver.T →
            targetVolumeBalance (pathEnv [2, 4]) plainParams (redensify pathSolver) lower <
              removedVolume (pathEnv [2, 4]) st.solver))) :=
  ⟨by decide, path_compute_cut,
    iterations_bounded_by_T (pathEnv [2, 4]) plainParams pathSolver _ (by decide)
      path_compute_cut⟩

/-- C4 on the single edge, with resampling parameters. -/
theorem early_exit_expander_edge :
    edgeSolver.numSplitNodes ≤ 1 ∧
    ∃ r, compute (pathEnv [0]) (resampleParams 3) edgeSolver = some r ∧
      r.1.type = ResultType.Expander ∧ r.1.iterations = 0 ∧ r.1.sampledPotentials = [] ∧
      r.2 = edgeSolver ∧ r.2.graph = edgeSolver.graph ∧
      r.2.subdivGraph = edgeSolver.subdivGraph ∧
      r.2.subdivisionIdx = edgeSolver.subdivisionIdx ∧
      r.2.fromSubdivisionIdx = edgeSolver.fromSubdivisionIdx :=
  ⟨by decide, early_exit_expander (pathEnv [0]) (resampleParams 3) edgeSolver (by decide)⟩

/-- C5 on the path: the run whose first round removes every vertex reports
`Expander` through the third branch and returns with the vertices `0, 1, 2`
alive again. -/
theorem expander_restores_vertices_path :
    pathSolver.graph.removed = [] ∧
    compute (pathEnv [0, 1, 2, 3, 4]) plainParams pathSolver =
      some ({ type := ResultType.Expander, iterations := 1, sampledPotentials := [] },
        { pathAfterAll.solver with graph := { pathGraph with alive := [2, 1, 0] } }) ∧
    classify pathAfterAll.solver.graph.size pathAfterAll.solver.graph.removedSize
      (removedVolume (pathEnv [0, 1, 2, 3, 4]) pathAfterAll.solver) 0 = Branch.allRemoved ∧
    (({ pathGraph with alive := [2, 1, 0] } : Graph).removed = [] ∧
      List.Perm [2, 1, 0] pathSolver.graph.alive ∧
      ∀ v, v ∈ [2, 1, 0] ↔ v ∈ pathSolver.graph.alive) :=
  ⟨rfl, path_compute_all, by decide,
    expander_restores_vertices (pathEnv [0, 1, 2, 3, 4]) plainParams pathSolver _ rfl
      path_compute_all rfl⟩

/-- C6 at a concrete vector and history. -/
theorem averaging_contracts_L2_example :
    sqDist (1 / 3 : ℚ) (projectFlow [[(0, 1)], [(1, 2)]] [1, 0, 0]) ≤
      sqDist (1 / 3 : ℚ) [1, 0, 0] ∧
    sqDist (1 / 3 : ℚ) (List.foldl applyMatched [1, 0, 0] [(0, 2)]) ≤
      sqDist (1 / 3 : ℚ) [1, 0, 0] :=
  averaging_contracts_L2 (1 / 3 : ℚ) [1, 0, 0] [[(0, 1)], [(1, 2)]] [(0, 2)]
    (by decide) (by decide)

/-! ## Height bound and round budget -/

theorem cTrunc_intCast [FloorRing α] (k : Int) : cTrunc ((k : Int) : α) = k := by
  unfold cTrunc
  split_ifs <;> simp

/-- The height bound is at least `1` as soon as `0 < phi ≤ 1` and the logarithm
of `numSplitNodes` is positive. -/
theorem heightBound_ge_one [FloorRing α] (env : Env α) (s : Solver α) (hphi0 : 0 < s.phi)
    (hphi1 : s.phi ≤ 1) (hL : 0 < env.log10 ((s.numSplitNodes : Int) : α)) :
    1 ≤ heightBound env s := by
  unfold heightBound
  rw [cTrunc_intCast]
  by_cases h1 : 1 ≤ env.log10 ((s.numSplitNodes : Int) : α)
  · apply le_max_of_le_right
    unfold cTrunc
    rw [if_pos (le_of_lt hL)]
    exact Int.le_floor.2 (by exact_mod_cast h1)
  · apply le_max_of_le_left
    have hx : 1 ≤ 1 / s.phi / env.log10 ((s.numSplitNodes : Int) : α) := by
      rw [div_div, le_div_iff₀ (mul_pos hphi0 hL), one_mul]
      have hL1 : env.log10 ((s.numSplitNodes : Int) : α) ≤ 1 := le_of_lt (not_le.1 h1)
      calc s.phi * env.log10 ((s.numSplitNodes : Int) : α) ≤ 1 * 1 :=
            mul_le_mul hphi1 hL1 (le_of_lt hL) zero_le_one
        _ = 1 := one_mul 1
    unfold cRound
    rw [if_pos (le_trans zero_le_one hx)]
    apply Int.le_floor.2
    have : ((1 : Int) : α) = 1 := by norm_cast
    rw [this]
    linarith

/-- C20: over the reals, with `std::log10` the logarithm to base ten, for every
`phi` in `(0, 1]` and every `numSplitNodes ≥ 2` the divisor
`log10(numSplitNodes)` of line 198 is strictly positive and the height bound
`h` handed to the flow engine and to `levelCut` is at least `1`. -/
theorem heightBound_ge_one_real (env : Env ℝ) (s : Solver ℝ)
    (hlog : env.log10 = Real.logb 10) (hphi0 : 0 < s.phi) (hphi1 : s.phi ≤ 1)
    (hn : 2 ≤ s.numSplitNodes) :
    0 < env.log10 ((s.numSplitNodes : Int) : ℝ) ∧ 1 ≤ heightBound env s := by
  have hL : 0 < env.log10 ((s.numSplitNodes : Int) : ℝ) := by
    rw [hlog]
    apply Real.logb_pos (by norm_num)
    have : (2 : ℝ) ≤ ((s.numSplitNodes : Int) : ℝ) := by exact_mod_cast hn
    linarith
  exact ⟨hL, heightBound_ge_one env s hphi0 hphi1 hL⟩

/-- C20 on the path over the reals (`phi = 1 / 2`, `numSplitNodes = 2`). -/
theorem heightBound_ge_one_real_path :
    (envOver ℝ Real.sqrt (Real.logb 10) []).log10 = Real.logb 10 ∧
    0 < (pathSolverOver ℝ).phi ∧ (pathSolverOver ℝ).phi ≤ 1 ∧
    2 ≤ (pathSolverOver ℝ).numSplitNodes ∧
    0 < (envOver ℝ Real.sqrt (Real.logb 10) []).log10
      (((pathSolverOver ℝ).numSplitNodes : Int) : ℝ) ∧
    1 ≤ heightBound (envOver ℝ Real.sqrt (Real.logb 10) []) (pathSolverOver ℝ) :=
  ⟨rfl, by norm_num [pathSolverOver], by norm_num [pathSolverOver], by decide,
    heightBound_ge_one_real (envOver ℝ Real.sqrt (Real.logb 10) []) (pathSolverOver ℝ) rfl
      (by norm_num [pathSolverOver]) (by norm_num [pathSolverOver]) (by decide)⟩

theorem roundBudget_eq [FloorRing α] (env : Env α) (params : Parameters α) (m : Int) :
    roundBudget env params m = params.tConst +
      ⌈params.tFactor * env.log10 ((m : Int) : α) * env.log10 ((m : Int) : α)⌉ := by
  unfold roundBudget
  rw [← Int.cast_add, cTrunc_intCast]

/-- The round budget is at least `1` for `tConst ≥ 0`, `tFactor ≥ 0` when
`tConst` is not zero, or `tFactor` is not zero and the logarithm of the edge
count is not zero. -/
theorem roundBudget_ge_one [FloorRing α] (env : Env α) (params : Parameters α) (m : Int)
    (hC : 0 ≤ params.tConst) (hF : 0 ≤ params.tFactor)
    (hne : params.tConst ≠ 0 ∨ (params.tFactor ≠ 0 ∧ env.log10 ((m : Int) : α) ≠ 0)) :
    1 ≤ roundBudget env params m := by
  rw [roundBudget_eq]
  have hsq : 0 ≤ params.tFactor * env.log10 ((m : Int) : α) * env.log10 ((m : Int) : α) := by
    rw [mul_assoc]
    exact mul_nonneg hF (mul_self_nonneg _)
  have hceil : 0 ≤ ⌈params.tFactor * env.log10 ((m : Int) : α) * env.log10 ((m : Int) : α)⌉ :=
    Int.ceil_nonneg hsq
  rcases hne with h | ⟨h1, h2⟩
  · omega
  · have hpos : 0 < params.tFactor * env.log10 ((m : Int) : α) * env.log10 ((m : Int) : α) := by
      rw [mul_assoc]
      exact mul_pos (lt_of_le_of_ne hF (Ne.symm h1)) (mul_self_pos.2 h2)
    have := Int.ceil_pos.2 hpos
    omega

/-- C16 as stated fails: over the reals, with the valid parameters `tConst = 0`
and `tFactor = 0` on the path (two edges, `numSplitNodes = 2`), the constructor
sets `T = 0`, and `compute` reaches the division `numSplitNodes / (10 * T)` with
a zero divisor. -/
theorem roundBudget_zero_divides_by_zero :
    (0 : Int) ≤ (budgetParams ℝ 0 0).tConst ∧ (0 : ℝ) ≤ (budgetParams ℝ 0 0).tFactor ∧
    2 ≤ (pathSolverCreated ℝ Real.sqrt (Real.logb 10) 0 0).numSplitNodes ∧
    (pathSolverCreated ℝ Real.sqrt (Real.logb 10) 0 0).T = 0 ∧
    lowerVolumeBalance (pathSolverCreated ℝ Real.sqrt (Real.logb 10) 0 0) = none ∧
    compute (envOver ℝ Real.sqrt (Real.logb 10) []) (budgetParams ℝ 0 0)
      (pathSolverCreated ℝ Real.sqrt (Real.logb 10) 0 0) = none := by
  have hT : (pathSolverCreated ℝ Real.sqrt (Real.logb 10) 0 0).T = 0 := by
    simp [pathSolverCreated, Solver.create, roundBudget_eq, budgetParams]
  have hn : (pathSolverCreated ℝ Real.sqrt (Real.logb 10) 0 0).numSplitNodes = 2 := by
    simp [pathSolverCreated, Solver.create, Graph.size, pathSubdiv, pathGraph]
  have hl : lowerVolumeBalance (pathSolverCreated ℝ Real.sqrt (Real.logb 10) 0 0) = none := by
    rw [lowerVolumeBalance, hT]
    rfl
  refine ⟨le_refl _, le_refl _, by rw [hn], hT, hl, ?_⟩
  rw [compute, if_neg (by rw [hn]; decide), hl]
  rfl

/-- C16, amended: over the reals, with `std::log10` the logarithm to base ten,
for `tConst ≥ 0` and `tFactor ≥ 0` not both zero and a graph with at least two
edges, the constructor sets `T ≥ 1`, and the division `numSplitNodes / (10 * T)`
of `compute` is not by zero. -/
theorem roundBudget_ge_one_real (env : Env ℝ) (params : Parameters ℝ) (g subdivG : Graph)
    (subdivisionIdx fromSubdivisionIdx : List Int) (phi : ℝ) (rng : Rng ℝ)
    (hlog : env.log10 = Real.logb 10) (hm : 2 ≤ g.edgeCount) (hC : 0 ≤ params.tConst)
    (hF : 0 ≤ params.tFactor) (hne : params.tConst ≠ 0 ∨ params.tFactor ≠ 0) :
    1 ≤ (Solver.create env g subdivG subdivisionIdx fromSubdivisionIdx phi params rng).T ∧
    10 * (Solver.create env g subdivG subdivisionIdx fromSubdivisionIdx phi params rng).T ≠ 0 ∧
    (lowerVolumeBalance
      (Solver.create env g subdivG subdivisionIdx fromSubdivisionIdx phi params rng)).isSome := by
  have hL : env.log10 ((g.edgeCount : Int) : ℝ) ≠ 0 := by
    rw [hlog]
    apply ne_of_gt
    apply Real.logb_pos (by norm_num)
    have : (2 : ℝ) ≤ ((g.edgeCount : Int) : ℝ) := by exact_mod_cast hm
    linarith
  have hT : 1 ≤ (Solver.create env g subdivG subdivisionIdx fromSubdivisionIdx phi params rng).T :=
    roundBudget_ge_one env params g.edgeCount hC hF
      (hne.imp (fun h => h) (fun h => ⟨h, hL⟩))
  refine ⟨hT, by omega, ?_⟩
  unfold lowerVolumeBalance
  rw [if_neg (by omega)]
  rfl

/-- C16, amended, on the path over the reals with `tConst = 0`, `tFactor = 5`. -/
theorem roundBudget_ge_one_real_path :
    (envOver ℝ Real.sqrt (Real.logb 10) []).log10 = Real.logb 10 ∧
    2 ≤ pathGraph.edgeCount ∧ (0 : Int) ≤ (budgetParams ℝ 0 5).tConst ∧
    (0 : ℝ) ≤ (budgetParams ℝ 0 5).tFactor ∧
    ((budgetParams ℝ 0 5).tConst ≠ 0 ∨ (budgetParams ℝ 0 5).tFactor ≠ 0) ∧
    1 ≤ (pathSolverCreated ℝ Real.sqrt (Real.logb 10) 0 5).T :=
  ⟨rfl, by decide, le_refl _, by norm_num [budgetParams],
    Or.inr (by norm_num [budgetParams]),
    (roundBudget_ge_one_real (envOver ℝ Real.sqrt (Real.logb 10) []) (budgetParams ℝ 0 5)
      pathGraph pathSubdiv [-1, -1, -1, 0, 1] [3, 4, -1, -1, -1] (1 / 2)
      (pathSolverOver ℝ).randomGen rfl (by decide) (le_refl _) (by norm_num [budgetParams])
      (Or.inr (by norm_num [budgetParams]))).1⟩

/-! ## `NearExpander` and the number of rounds -/

/-- When `compute` reports `NearExpander` and `T ≥ 0`, the round loop made all
`T` passes. -/
theorem nearExpander_iterations [FloorRing α] (env : Env α) (params : Parameters α)
    (s : Solver α) (r : Result α × Solver α) (hT : 0 ≤ s.T)
    (h : compute env params s = some r) (hN : r.1.type = ResultType.NearExpander) :
    r.1.iterations = s.T := by
  rcases compute_cases env params s r h with ⟨-, hr⟩ | ⟨hn, hT0, st, hst, ht, hi, -⟩
  · rw [hr] at hN
    cases hN
  · have hl : lowerVolumeBalance s = some (s.numSplitNodes.tdiv (10 * s.T)) := by
      simp only [lowerVolumeBalance]
      rw [if_neg (by omega)]
    obtain ⟨st1, hst1, -, -, -, f4, f5, -⟩ := loopExit_spec env params s _ hl
    rw [hst] at hst1
    have hst2 := Option.some.inj hst1
    subst hst2
    rw [hN] at ht
    have hb : classify st.solver.graph.size st.solver.graph.removedSize
        (removedVolume env st.solver) (s.numSplitNodes.tdiv (10 * s.T)) =
        Branch.nearExpander := by
      generalize classify st.solver.graph.size st.solver.graph.removedSize
        (removedVolume env st.solver) (s.numSplitNodes.tdiv (10 * s.T)) = b at ht
      cases b
      · cases ht
      · cases ht
      · cases ht
      · rfl
    obtain ⟨g1, g2, g3⟩ := (classify_fires _ _ _ _ _).1 hb
    have hvol : removedVolume env st.solver ≤ s.numSplitNodes.tdiv (10 * s.T) := by
      by_contra hc
      exact g1 ⟨g3, g2, not_le.1 hc⟩
    have htarget : s.numSplitNodes.tdiv (10 * s.T) ≤
        targetVolumeBalance env params (redensify s) (s.numSplitNodes.tdiv (10 * s.T)) :=
      le_max_left _ _
    have hge : ¬st.iterations < s.T := fun hlt => f5 ⟨hlt, le_trans hvol htarget⟩
    have hle := f4 hT
    rw [hi]
    omega

/-- C19 as stated fails for a negative `T`: on the path with a removed isolated
vertex and `T = -1` the round loop makes no pass, `compute` reports
`NearExpander` and `iterations = 0`, which is not `T`. -/
theorem nearExpander_negative_T :
    ∃ r, compute (pathEnv []) plainParams (isoSolver (-1)) = some r ∧
      r.1.type = ResultType.NearExpander ∧ r.1.iterations = 0 ∧
      r.1.iterations ≠ (isoSolver (-1)).T := by
  have hl : lowerVolumeBalance (isoSolver (-1)) = some 0 := rfl
  have hi : (initialState (pathEnv []) (isoSolver (-1))).iterations = 0 := rfl
  have hexit : loopExit (pathEnv []) plainParams (isoSolver (-1)) =
      some (initialState (pathEnv []) (isoSolver (-1))) := by
    have hT : (isoSolver (-1)).T.toNat = 0 := rfl
    simp only [loopExit, hl, Option.some_bind, hT]
    rw [roundLoop, if_neg]
    rw [hi]
    intro hc
    exact absurd hc.1 (by decide)
  refine ⟨_, compute_main (pathEnv []) plainParams (isoSolver (-1)) (by decide) 0 hl _ hexit,
    ?_, hi, ?_⟩
  · rfl
  · rw [hi]
    decide

/-- C19, amended: for `T ≥ 0`, `compute` reports `NearExpander` only after all
`T` rounds: `result.type = NearExpander` implies `result.iterations = T`. -/
theorem nearExpander_runs_all_rounds [FloorRing α] (env : Env α) (params : Parameters α)
    (s : Solver α) (r : Result α × Solver α) (hT : 0 ≤ s.T)
    (h : compute env params s = some r) (hN : r.1.type = ResultType.NearExpander) :
    r.1.iterations = s.T :=
  nearExpander_iterations env params s r hT h hN

theorem iso_unitVector (cut : List Nat) (T : Int) :
    randomUnitVector (pathEnv cut) (isoSolver T) =
      ([3 / 5, 4 / 5], { pathRng with pos := 2 }) := by
  have h2 : (2 : Int).toNat = 2 := rfl
  have h3 : List.replicate 2 (0 : ℚ) = [0, 0] := rfl
  simp only [randomUnitVector, drawSamples, normalise, isoSolver, isoSubdiv, pathEnv, pathRng,
    idxAt, List.foldl_cons, List.foldl_nil, List.getD_cons_zero, List.getD_cons_succ, Rng.next]
  norm_num [vset, vget, h2, h3]

theorem iso_initialState (cut : List Nat) (T : Int) :
    initialState (pathEnv cut) (isoSolver T) = isoStart T := by
  have hr : redensify (isoSolver T) = isoSolver T := rfl
  simp only [initialState, isoStart, hr, iso_unitVector]

theorem iso_selectSides (T : Int) : selectSides (isoStart T) = some ([], [4]) := by
  have havg : avgFlow (isoStart T) = 7 / 10 := by
    norm_num [avgFlow, isoStart, curSubdivisionCount, isoSolver, isoSubdiv, isoGraph,
      Graph.size]
  have hb : bipartition (isoStart T).flow (isoStart T).solver.subdivisionIdx (7 / 10)
      (isoStart T).solver.subdivGraph.alive = ([3], [4]) := by
    norm_num [bipartition, isoStart, isoSolver, isoSubdiv, idxAt, vget]
  simp only [selectSides, havg, hb]
  rfl

theorem iso_roundBody (T : Int) :
    roundBody (pathEnv []) plainParams (isoStart T) = some (isoStart T) := by
  have h1 : sampleStep (pathEnv []) plainParams (isoStart T) = isoStart T := rfl
  have h2 : resampleStep (pathEnv []) plainParams (isoStart T) = isoStart T := rfl
  simp only [roundBody, h1, h2, iso_selectSides, Option.map_some']
  rfl

/-- A run of `compute` that reports `NearExpander`: one round without excess on
the path with a removed isolated vertex, `T = 1`. -/
theorem iso_compute :
    compute (pathEnv []) plainParams (isoSolver 1) =
      some ({ type := ResultType.NearExpander, iterations := 1, sampledPotentials := [] },
        (isoStart 1).solver) := by
  have hl : lowerVolumeBalance (isoSolver 1) = some 0 := rfl
  have hT : (isoSolver 1).T.toNat = 1 := rfl
  have ht : targetVolumeBalance (pathEnv []) plainParams (redensify (isoSolver 1)) 0 = 0 := by
    norm_num [targetVolumeBalance, plainParams, cTrunc]
  have hexit : loopExit (pathEnv []) plainParams (isoSolver 1) =
      some { isoStart 1 with iterations := 1 } := by
    simp only [loopExit, hl, Option.some_bind, ht, iso_initialState, hT]
    rw [roundLoop, if_pos (by decide), iso_roundBody, Option.some_bind, roundLoop,
      if_neg (by decide)]
    rfl
  rw [compute_main (pathEnv []) plainParams (isoSolver 1) (by decide) 0 hl _ hexit]
  rfl

/-- C19, amended, on the path with a removed isolated vertex and `T = 1`. -/
theorem nearExpander_runs_all_rounds_path :
    0 ≤ (isoSolver 1).T ∧
    compute (pathEnv []) plainParams (isoSolver 1) =
      some ({ type := ResultType.NearExpander, iterations := 1, sampledPotentials := [] },
        (isoStart 1).solver) ∧
    (1 : Int) = (isoSolver 1).T :=
  ⟨by decide, iso_compute,
    nearExpander_runs_all_rounds (pathEnv []) plainParams (isoSolver 1) _ (by decide)
      iso_compute rfl⟩

/-! ## Reads of the sampler and the threshold of the bipartition -/

/-- C18 (evaluation at the failing input): on the subdivided path the alive
original vertex `0` has `subdivisionIdx[0] = -1`, which passes the guard of
line 91 (it is not zero) and is not in `[0, numSplitNodes)`; the read
`flow[-1]` of line 92 is outside the vector, and so the summation loop of
`samplePotential` leaves the vector. -/
theorem samplePotential_read_out_of_bounds :
    0 ∈ pathSolver.subdivGraph.alive ∧
    idxAt pathSolver.subdivisionIdx 0 = -1 ∧
    idxAt pathSolver.subdivisionIdx 0 ≠ 0 ∧
    ¬(0 ≤ idxAt pathSolver.subdivisionIdx 0 ∧
      idxAt pathSolver.subdivisionIdx 0 < pathSolver.numSplitNodes) ∧
    vread ([3 / 5, 4 / 5] : List ℚ) (idxAt pathSolver.subdivisionIdx 0) = none ∧
    potentialTotal (1 / 2 : ℚ) [3 / 5, 4 / 5] pathSolver.subdivisionIdx
      pathSolver.subdivGraph.alive = none := by
  refine ⟨by decide, by decide, by decide, by decide, rfl, ?_⟩
  simp [potentialTotal, pathSolver, pathSubdiv, idxAt, vread]

theorem path_roundBody_cut_balance :
    roundBody (pathEnv [2, 4]) balanceParams pathStart = some pathAfterCut := by
  have h1 : sampleStep (pathEnv [2, 4]) balanceParams pathStart = pathStart := rfl
  have h2 : resampleStep (pathEnv [2, 4]) balanceParams pathStart = pathStart := rfl
  simp only [roundBody, h1, h2, path_selectSides, Option.map_some']
  rfl

/-- C12 (evaluation at the failing input): on the subdivided path with
`minBalance = 1` and without resampling, the first round removes the level cut
`{2, 4}` and the guard of the loop admits a second round. In that round the
split vertex `4` is removed but its slot still holds `4/5`: `avgFlow` is
`(3/5 + 4/5) / 1 = 7/5`, while the mean of `flow` over the alive compact
indices (only index `0`) is `3/5`; the one alive split vertex lands in
`axLeft`. -/
theorem avgFlow_counts_removed_slot :
    initialState (pathEnv [2, 4]) pathSolver = pathStart ∧
    roundBody (pathEnv [2, 4]) balanceParams pathStart = some pathAfterCut ∧
    ((1 : Int) < pathSolver.T ∧
      removedVolume (pathEnv [2, 4]) pathAfterCut.solver ≤
        targetVolumeBalance (pathEnv [2, 4]) balanceParams (redensify pathSolver) 0) ∧
    avgFlow { pathAfterCut with iterations := 1 } = 7 / 5 ∧
    specAvgFlow { pathAfterCut with iterations := 1 } = 3 / 5 ∧
    bipartition pathAfterCut.flow pathAfterCut.solver.subdivisionIdx (7 / 5)
      pathAfterCut.solver.subdivGraph.alive = ([3], []) := by
  refine ⟨path_initialState [2, 4], path_roundBody_cut_balance, ⟨by decide, ?_⟩, ?_, ?_, ?_⟩
  · have hv : removedVolume (pathEnv [2, 4]) pathAfterCut.solver = 3 := by decide
    have ht : targetVolumeBalance (pathEnv [2, 4]) balanceParams (redensify pathSolver) 0 = 8 := by
      have hg : (pathEnv [2, 4]).globalVolume (redensify pathSolver).subdivGraph
          (redensify pathSolver).subdivGraph.alive = 8 := by decide
      simp only [targetVolumeBalance, hg]
      norm_num [balanceParams, cTrunc]
    rw [hv, ht]
    decide
  · norm_num [avgFlow, pathAfterCut, curSubdivisionCount, pathSolver, pathSubdiv, pathGraph,
      Graph.size]
  · norm_num [specAvgFlow, pathAfterCut, pathSolver, pathSubdiv, idxAt, vget]
  · norm_num [bipartition, pathAfterCut, pathSolver, pathSubdiv, idxAt, vget]

/-! ## Re-densification of the index maps -/

theorem redensify_eq_foldl {β : Type} (s : Solver β) :
    (redensify s).subdivisionIdx =
      (s.subdivGraph.alive.foldl redensifyStep
        (s.subdivisionIdx, s.fromSubdivisionIdx, 0)).1 ∧
    (redensify s).fromSubdivisionIdx =
      (s.subdivGraph.alive.foldl redensifyStep
        (s.subdivisionIdx, s.fromSubdivisionIdx, 0)).2.1 :=
  ⟨rfl, rfl⟩

theorem idxAt_set_self (m : List Int) (u : Nat) (x : Int) (h : u < m.length) :
    idxAt (m.set u x) u = x :=
  getD_set_self m u x 0 h

theorem idxAt_set_ne (m : List Int) (u v : Nat) (x : Int) (h : u ≠ v) :
    idxAt (m.set u x) v = idxAt m v :=
  getD_set_ne m u v x 0 h

theorem filter_idx_set (m : List Int) (u : Nat) (x : Int) (l : List Nat) (hu : u ∉ l) :
    l.filter (fun v => decide (0 ≤ idxAt (m.set u x) v)) =
      l.filter (fun v => decide (0 ≤ idxAt m v)) := by
  apply List.filter_congr
  intro v hv
  have hne : u ≠ v := fun h => hu (h ▸ hv)
  rw [idxAt_set_ne m u v x hne]

/-- The fold of `redensifyStep` over distinct vertices inside the map: the
vertices with a non-negative entry get the indices `n, n + 1, ...` in order,
the inverse map records them there, and nothing else changes. -/
theorem redensify_foldl_spec : ∀ (l : List Nat) (idx frm : List Int) (n : Nat),
    l.Nodup → (∀ u ∈ l, u < idx.length) →
    n + (l.filter (fun v => decide (0 ≤ idxAt idx v))).length ≤ frm.length →
    (l.foldl redensifyStep (idx, frm, (n : Int))).1.length = idx.length ∧
    (∀ v, v ∉ l.filter (fun v => decide (0 ≤ idxAt idx v)) →
      idxAt (l.foldl redensifyStep (idx, frm, (n : Int))).1 v = idxAt idx v) ∧
    (∀ k : Nat, k < n →
      vget (l.foldl redensifyStep (idx, frm, (n : Int))).2.1 (k : Int) = vget frm (k : Int)) ∧
    (∀ (i : Nat) (hi : i < (l.filter (fun v => decide (0 ≤ idxAt idx v))).length),
      idxAt (l.foldl redensifyStep (idx, frm, (n : Int))).1
          ((l.filter (fun v => decide (0 ≤ idxAt idx v))).get ⟨i, hi⟩) = ((n + i : Nat) : Int) ∧
      vget (l.foldl redensifyStep (idx, frm, (n : Int))).2.1 ((n + i : Nat) : Int) =
        (((l.filter (fun v => decide (0 ≤ idxAt idx v))).get ⟨i, hi⟩ : Nat) : Int)) := by
  intro l
  induction l with
  | nil =>
    intro idx frm n _ _ _
    refine ⟨rfl, fun v _ => rfl, fun k _ => rfl, fun i hi => ?_⟩
    simp at hi
  | cons u l ih =>
    intro idx frm n hnd hlen hfrm
    have hu : u ∉ l := (List.nodup_cons.1 hnd).1
    have hndl : l.Nodup := (List.nodup_cons.1 hnd).2
    have hul : u < idx.length := hlen u (List.mem_cons_self _ _)
    by_cases hpos : 0 ≤ idxAt idx u
    · have hfilter : (u :: l).filter (fun v => decide (0 ≤ idxAt idx v)) =
          u :: l.filter (fun v => decide (0 ≤ idxAt idx v)) := by
        rw [List.filter_cons_of_pos (by simpa using hpos)]
      have hstep : redensifyStep (idx, frm, (n : Int)) u =
          (idx.set u (n : Int), frm.set n (u : Int), ((n + 1 : Nat) : Int)) := by
        simp only [redensifyStep, hpos, if_true, idxAt_set_self idx u _ hul, vset_natCast]
        push_cast
        rfl
      rw [hfilter] at hfrm ⊢
      simp only [List.length_cons] at hfrm
      rw [List.foldl_cons, hstep]
      have hfs := filter_idx_set idx u (n : Int) l hu
      obtain ⟨a1, a2, a3, a4⟩ := ih (idx.set u (n : Int)) (frm.set n (u : Int)) (n + 1) hndl
        (fun v hv => by simpa using hlen v (List.mem_cons_of_mem _ hv))
        (by rw [hfs]; simp only [List.length_set]; omega)
      rw [hfs] at a2 a4
      have hnfrm : n < frm.length := by omega
      refine ⟨by simpa using a1, ?_, ?_, ?_⟩
      · intro v hv
        have hvu : u ≠ v := fun h => hv (h ▸ List.mem_cons_self _ _)
        rw [a2 v (fun h => hv (List.mem_cons_of_mem _ h)), idxAt_set_ne idx u v _ hvu]
      · intro k hk
        rw [a3 k (by omega), vget_natCast, vget_natCast, getD_set_ne frm n k _ 0 (by omega)]
      · intro i hi
        cases i with
        | zero =>
          simp only [List.get_eq_getElem, List.getElem_cons_zero, Nat.add_zero]
          have hnot : u ∉ l.filter (fun v => decide (0 ≤ idxAt idx v)) :=
            fun h => hu (List.mem_of_mem_filter h)
          refine ⟨?_, ?_⟩
          · rw [a2 u hnot, idxAt_set_self idx u _ hul]
          · rw [a3 n (by omega), vget_natCast, getD_set_self frm n _ 0 hnfrm]
        | succ j =>
          have hj : j < (l.filter (fun v => decide (0 ≤ idxAt idx v))).length := by
            simpa using hi
          have h4 := a4 j hj
          have hadd : n + 1 + j = n + (j + 1) := by omega
          rw [hadd] at h4
          simpa using h4
    · have hfilter : (u :: l).filter (fun v => decide (0 ≤ idxAt idx v)) =
          l.filter (fun v => decide (0 ≤ idxAt idx v)) := by
        rw [List.filter_cons_of_neg (by simpa using hpos)]
      have hstep : redensifyStep (idx, frm, (n : Int)) u = (idx, frm, (n : Int)) := by
        simp only [redensifyStep, hpos, if_false]
      rw [hfilter] at hfrm ⊢
      rw [List.foldl_cons, hstep]
      exact ih idx frm n hndl (fun v hv => hlen v (List.mem_cons_of_mem _ hv)) hfrm

theorem redensify_spec {β : Type} (s : Solver β) (isSplit : Nat → Bool)
    (hnd : s.subdivGraph.alive.Nodup)
    (hlen : ∀ u ∈ s.subdivGraph.alive, u < s.subdivisionIdx.length)
    (hsplit : ∀ u ∈ s.subdivGraph.alive, (0 ≤ idxAt s.subdivisionIdx u ↔ isSplit u = true))
    (horig : ∀ u ∈ s.subdivGraph.alive, isSplit u = false → idxAt s.subdivisionIdx u = -1)
    (hnum : s.numSplitNodes = ((s.subdivGraph.alive.filter isSplit).length : Nat))
    (hfrom : s.numSplitNodes ≤ (s.fromSubdivisionIdx.length : Nat)) :
    (∀ u ∈ s.subdivGraph.alive, isSplit u = true →
      0 ≤ idxAt (redensify s).subdivisionIdx u ∧
      idxAt (redensify s).subdivisionIdx u < s.numSplitNodes ∧
      vget (redensify s).fromSubdivisionIdx (idxAt (redensify s).subdivisionIdx u) = (u : Int)) ∧
    (∀ u ∈ s.subdivGraph.alive, ∀ v ∈ s.subdivGraph.alive, isSplit u = true →
      isSplit v = true →
      idxAt (redensify s).subdivisionIdx u = idxAt (redensify s).subdivisionIdx v → u = v) ∧
    (∀ k : Int, 0 ≤ k → k < s.numSplitNodes →
      ∃ u ∈ s.subdivGraph.alive, isSplit u = true ∧
        idxAt (redensify s).subdivisionIdx u = k) ∧
    (∀ u ∈ s.subdivGraph.alive, isSplit u = false →
      idxAt (redensify s).subdivisionIdx u = -1) := by
  have hfilter : s.subdivGraph.alive.filter (fun v => decide (0 ≤ idxAt s.subdivisionIdx v)) =
      s.subdivGraph.alive.filter isSplit := by
    apply List.filter_congr
    intro u hu
    have := hsplit u hu
    cases hb : isSplit u
    · simp only [hb] at this
      simpa using this
    · simp only [hb] at this
      simpa using this
  have hfrm : 0 + (s.subdivGraph.alive.filter
      (fun v => decide (0 ≤ idxAt s.subdivisionIdx v))).length ≤ s.fromSubdivisionIdx.length := by
    rw [hfilter]
    rw [hnum] at hfrom
    have : (s.subdivGraph.alive.filter isSplit).length ≤ s.fromSubdivisionIdx.length := by
      exact_mod_cast hfrom
    omega
  obtain ⟨-, a2, -, a4⟩ := redensify_foldl_spec s.subdivGraph.alive s.subdivisionIdx
    s.fromSubdivisionIdx 0 hnd hlen hfrm
  obtain ⟨e1, e2⟩ := redensify_eq_foldl s
  simp only [Nat.cast_zero] at a2 a4
  rw [← e1] at a2 a4
  rw [← e2] at a4
  rw [hfilter] at a2 a4
  have hA : ∀ u ∈ s.subdivGraph.alive, isSplit u = true →
      0 ≤ idxAt (redensify s).subdivisionIdx u ∧
      idxAt (redensify s).subdivisionIdx u < s.numSplitNodes ∧
      vget (redensify s).fromSubdivisionIdx (idxAt (redensify s).subdivisionIdx u) =
        (u : Int) := by
    intro u hu hs
    have hmem : u ∈ s.subdivGraph.alive.filter isSplit := List.mem_filter.2 ⟨hu, hs⟩
    obtain ⟨⟨i, hi⟩, hget⟩ := List.get_of_mem hmem
    obtain ⟨b1, b2⟩ := a4 i hi
    rw [hget] at b1 b2
    simp only [Nat.zero_add] at b1 b2
    rw [b1, hnum]
    refine ⟨by omega, by exact_mod_cast hi, b2⟩
  refine ⟨hA, ?_, ?_, ?_⟩
  · intro u hu v hv hsu hsv heq
    have h1 := (hA u hu hsu).2.2
    have h2 := (hA v hv hsv).2.2
    rw [heq, h2] at h1
    exact_mod_cast h1.symm
  · intro k hk0 hk
    lift k to ℕ using hk0
    rw [hnum] at hk
    have hi : k < (s.subdivGraph.alive.filter isSplit).length := by exact_mod_cast hk
    obtain ⟨b1, -⟩ := a4 k hi
    simp only [Nat.zero_add] at b1
    have hmem := List.get_mem (s.subdivGraph.alive.filter isSplit) k hi
    exact ⟨_, (List.mem_filter.1 hmem).1, (List.mem_filter.1 hmem).2, b1⟩
  · intro u hu hs
    rw [a2 u (fun h => by
      have := (List.mem_filter.1 h).2
      rw [hs] at this
      cases this)]
    exact horig u hu hs

/-- C11: the pre-solve block of `compute` re-densifies the index maps. Given
that the alive vertices of the subdivision graph are distinct and inside the
maps, that on entry `subdivisionIdx[u] ≥ 0` exactly for the split vertices
(`-1` for the others), that `numSplitNodes` is the number of alive split
vertices and that `fromSubdivisionIdx` has that many slots: afterwards
`subdivisionIdx` maps the alive split vertices one-to-one onto
`[0, numSplitNodes)`, `fromSubdivisionIdx[subdivisionIdx[s]] = s` for each of
them, and the entries of the original vertices are still `-1`. -/
theorem redensify_bijection {β : Type} (s : Solver β) (isSplit : Nat → Bool)
    (hnd : s.subdivGraph.alive.Nodup)
    (hlen : ∀ u ∈ s.subdivGraph.alive, u < s.subdivisionIdx.length)
    (hsplit : ∀ u ∈ s.subdivGraph.alive, (0 ≤ idxAt s.subdivisionIdx u ↔ isSplit u = true))
    (horig : ∀ u ∈ s.subdivGraph.alive, isSplit u = false → idxAt s.subdivisionIdx u = -1)
    (hnum : s.numSplitNodes = ((s.subdivGraph.alive.filter isSplit).length : Nat))
    (hfrom : s.numSplitNodes ≤ (s.fromSubdivisionIdx.length : Nat)) :
    (∀ u ∈ s.subdivGraph.alive, isSplit u = true →
      0 ≤ idxAt (redensify s).subdivisionIdx u ∧
      idxAt (redensify s).subdivisionIdx u < s.numSplitNodes ∧
      vget (redensify s).fromSubdivisionIdx (idxAt (redensify s).subdivisionIdx u) = (u : Int)) ∧
    (∀ u ∈ s.subdivGraph.alive, ∀ v ∈ s.subdivGraph.alive, isSplit u = true →
      isSplit v = true →
      idxAt (redensify s).subdivisionIdx u = idxAt (redensify s).subdivisionIdx v → u = v) ∧
    (∀ k : Int, 0 ≤ k → k < s.numSplitNodes →
      ∃ u ∈ s.subdivGraph.alive, isSplit u = true ∧
        idxAt (redensify s).subdivisionIdx u = k) ∧
    (∀ u ∈ s.subdivGraph.alive, isSplit u = false →
      idxAt (redensify s).subdivisionIdx u = -1) :=
  redensify_spec s isSplit hnd hlen hsplit horig hnum hfrom

/-- C11 on the path `0 - 1 - 2 - 3` after the removal of `0` and `4`: the alive
split vertices `5, 6` get the indices `0, 1`. -/
theorem redensify_bijection_sparse :
    (redensify sparseSolver).subdivisionIdx = [-1, -1, -1, -1, 0, 0, 1] ∧
    (redensify sparseSolver).fromSubdivisionIdx = [5, 6, 6, -1, -1, -1, -1] ∧
    ((∀ u ∈ sparseSolver.subdivGraph.alive, decide (4 ≤ u) = true →
      0 ≤ idxAt (redensify sparseSolver).subdivisionIdx u ∧
      idxAt (redensify sparseSolver).subdivisionIdx u < sparseSolver.numSplitNodes ∧
      vget (redensify sparseSolver).fromSubdivisionIdx
        (idxAt (redensify sparseSolver).subdivisionIdx u) = (u : Int)) ∧
    (∀ u ∈ sparseSolver.subdivGraph.alive, ∀ v ∈ sparseSolver.subdivGraph.alive,
      decide (4 ≤ u) = true → decide (4 ≤ v) = true →
      idxAt (redensify sparseSolver).subdivisionIdx u =
        idxAt (redensify sparseSolver).subdivisionIdx v → u = v) ∧
    (∀ k : Int, 0 ≤ k → k < sparseSolver.numSplitNodes →
      ∃ u ∈ sparseSolver.subdivGraph.alive, decide (4 ≤ u) = true ∧
        idxAt (redensify sparseSolver).subdivisionIdx u = k) ∧
    (∀ u ∈ sparseSolver.subdivGraph.alive, decide (4 ≤ u) = false →
      idxAt (redensify sparseSolver).subdivisionIdx u = -1)) :=
  ⟨rfl, rfl,
    redensify_bijection sparseSolver (fun u => decide (4 ≤ u)) (by decide) (by decide)
      (by decide) (by decide) (by decide) (by decide)⟩

/-! ## Random unit vector -/

theorem drawSamples_cons_pos (idx : List Int) (u : Nat) (l : List Nat) (res : List α) (tot : α)
    (rng : Rng α) (h : 0 ≤ idxAt idx u) :
    drawSamples idx (u :: l) (res, tot, rng) =
      drawSamples idx l (vset res (idxAt idx u) (rng.draws rng.pos),
        tot + rng.draws rng.pos * rng.draws rng.pos, { rng with pos := rng.pos + 1 }) := by
  simp only [drawSamples, List.foldl_cons, h, if_true, Rng.next]

theorem drawSamples_cons_neg (idx : List Int) (u : Nat) (l : List Nat) (res : List α) (tot : α)
    (rng : Rng α) (h : ¬0 ≤ idxAt idx u) :
    drawSamples idx (u :: l) (res, tot, rng) = drawSamples idx l (res, tot, rng) := by
  simp only [drawSamples, List.foldl_cons, h, if_false]

/-- The first loop of `randomUnitVector` on distinct vertices whose compact
indices are distinct and in range, started on slots that are zero: the squares
of the vector grow by what `total` grows, which is the sum of the squares of the
samples drawn, and the slots of no such vertex stay as they are. -/
theorem drawSamples_spec (idx : List Int) (N : Nat) : ∀ (l : List Nat) (res : List α) (tot : α)
    (rng : Rng α), l.Nodup →
    (∀ u ∈ l, 0 ≤ idxAt idx u → idxAt idx u < (N : Int)) →
    (∀ u ∈ l, ∀ v ∈ l, 0 ≤ idxAt idx u → idxAt idx u = idxAt idx v → u = v) →
    res.length = N →
    (∀ u ∈ l, 0 ≤ idxAt idx u → vget res (idxAt idx u) = 0) →
    (drawSamples idx l (res, tot, rng)).1.length = N ∧
    ((drawSamples idx l (res, tot, rng)).1.map (fun x => x ^ 2)).sum -
      (res.map (fun x => x ^ 2)).sum = (drawSamples idx l (res, tot, rng)).2.1 - tot ∧
    (∀ j : Nat, (∀ u ∈ l, 0 ≤ idxAt idx u → idxAt idx u ≠ (j : Int)) →
      (drawSamples idx l (res, tot, rng)).1.getD j 0 = res.getD j 0) ∧
    (drawSamples idx l (res, tot, rng)).2.1 - tot =
      ((List.range (l.filter (fun v => decide (0 ≤ idxAt idx v))).length).map
        (fun k => rng.draws (rng.pos + k) ^ 2)).sum ∧
    (drawSamples idx l (res, tot, rng)).2.2.draws = rng.draws := by
  intro l
  induction l with
  | nil =>
    intro res tot rng _ _ _ hlen _
    simp [drawSamples, hlen]
  | cons u l ih =>
    intro res tot rng hnd hrange hinj hlen hzero
    have hu : u ∉ l := (List.nodup_cons.1 hnd).1
    have hndl : l.Nodup := (List.nodup_cons.1 hnd).2
    by_cases hpos : 0 ≤ idxAt idx u
    · rw [drawSamples_cons_pos idx u l res tot rng hpos]
      have hlt := hrange u (List.mem_cons_self _ _) hpos
      obtain ⟨a, ha⟩ : ∃ a : Nat, idxAt idx u = (a : Int) := ⟨(idxAt idx u).toNat, by omega⟩
      rw [ha] at hlt ⊢
      rw [vset_natCast]
      have haN : a < res.length := by rw [hlen]; exact_mod_cast hlt
      have hne : ∀ v ∈ l, 0 ≤ idxAt idx v → idxAt idx v ≠ (a : Int) := by
        intro v hv hv0 hva
        have := hinj v (List.mem_cons_of_mem _ hv) u (List.mem_cons_self _ _) hv0
          (by rw [hva, ha])
        exact hu (this ▸ hv)
      obtain ⟨b1, b2, b3, b4, b5⟩ := ih (res.set a (rng.draws rng.pos))
        (tot + rng.draws rng.pos * rng.draws rng.pos) { rng with pos := rng.pos + 1 } hndl
        (fun v hv => hrange v (List.mem_cons_of_mem _ hv))
        (fun v hv w hw => hinj v (List.mem_cons_of_mem _ hv) w (List.mem_cons_of_mem _ hw))
        (by simpa using hlen)
        (by
          intro v hv hv0
          obtain ⟨c, hc⟩ : ∃ c : Nat, idxAt idx v = (c : Int) := ⟨(idxAt idx v).toNat, by omega⟩
          have hca : a ≠ c := by
            intro h
            exact hne v hv hv0 (by rw [hc, h])
          have hz := hzero v (List.mem_cons_of_mem _ hv) hv0
          rw [hc, vget_natCast] at hz ⊢
          rw [getD_set_ne res a c _ 0 hca]
          exact hz)
      have hza : res.getD a 0 = 0 := by
        have := hzero u (List.mem_cons_self _ _) hpos
        rw [ha, vget_natCast] at this
        exact this
      have hsum := sum_map_set (fun x : α => x ^ 2) res a (rng.draws rng.pos) haN
      simp only [hza] at hsum
      have hfilter : (u :: l).filter (fun v => decide (0 ≤ idxAt idx v)) =
          u :: l.filter (fun v => decide (0 ≤ idxAt idx v)) := by
        rw [List.filter_cons_of_pos (by simpa using hpos)]
      refine ⟨b1, ?_, ?_, ?_, b5⟩
      · rw [hsum] at b2
        linear_combination b2
      · intro j hj
        have haj : a ≠ j := by
          intro h
          exact hj u (List.mem_cons_self _ _) hpos (by rw [ha, h])
        rw [b3 j (fun v hv => hj v (List.mem_cons_of_mem _ hv)), getD_set_ne res a j _ 0 haj]
      · rw [hfilter, List.length_cons, List.range_succ_eq_map, List.map_cons, List.sum_cons,
          List.map_map]
        have hshift : ((fun k => rng.draws (rng.pos + k) ^ 2) ∘ Nat.succ) =
            (fun k => rng.draws (rng.pos + 1 + k) ^ 2) := by
          funext k
          simp only [Function.comp, Nat.succ_eq_add_one]
          congr 2
          omega
        rw [hshift]
        simp only at b4
        have h0 : rng.pos + 0 = rng.pos := rfl
        rw [h0]
        linear_combination b4
    · rw [drawSamples_cons_neg idx u l res tot rng hpos]
      have hfilter : (u :: l).filter (fun v => decide (0 ≤ idxAt idx v)) =
          l.filter (fun v => decide (0 ≤ idxAt idx v)) := by
        rw [List.filter_cons_of_neg (by simpa using hpos)]
      rw [hfilter]
      obtain ⟨b1, b2, b3, b4, b5⟩ := ih res tot rng hndl
        (fun v hv => hrange v (List.mem_cons_of_mem _ hv))
        (fun v hv w hw => hinj v (List.mem_cons_of_mem _ hv) w (List.mem_cons_of_mem _ hw))
        hlen (fun v hv => hzero v (List.mem_cons_of_mem _ hv))
      exact ⟨b1, b2, fun j hj => b3 j (fun v hv => hj v (List.mem_cons_of_mem _ hv)), b4, b5⟩

theorem normalise_cons_pos (idx : List Int) (u : Nat) (l : List Nat) (t : α) (res : List α)
    (h : 0 ≤ idxAt idx u) :
    normalise idx (u :: l) t res =
      normalise idx l t (vset res (idxAt idx u) (vget res (idxAt idx u) / t)) := by
  simp only [normalise, List.foldl_cons, h, if_true]

theorem normalise_cons_neg (idx : List Int) (u : Nat) (l : List Nat) (t : α) (res : List α)
    (h : ¬0 ≤ idxAt idx u) :
    normalise idx (u :: l) t res = normalise idx l t res := by
  simp only [normalise, List.foldl_cons, h, if_false]

/-- The second loop of `randomUnitVector` on distinct vertices whose compact
indices are distinct and in range: the slot of each such vertex is divided by
`t` once, the other slots stay. -/
theorem normalise_spec (idx : List Int) (N : Nat) (t : α) : ∀ (l : List Nat) (res : List α),
    l.Nodup →
    (∀ u ∈ l, 0 ≤ idxAt idx u → idxAt idx u < (N : Int)) →
    (∀ u ∈ l, ∀ v ∈ l, 0 ≤ idxAt idx u → idxAt idx u = idxAt idx v → u = v) →
    res.length = N →
    (normalise idx l t res).length = N ∧
    (∀ j : Nat, (∃ u ∈ l, 0 ≤ idxAt idx u ∧ idxAt idx u = (j : Int)) →
      (normalise idx l t res).getD j 0 = res.getD j 0 / t) ∧
    (∀ j : Nat, (∀ u ∈ l, 0 ≤ idxAt idx u → idxAt idx u ≠ (j : Int)) →
      (normalise idx l t res).getD j 0 = res.getD j 0) := by
  intro l
  induction l with
  | nil =>
    intro res _ _ _ hlen
    refine ⟨hlen, ?_, fun j _ => rfl⟩
    rintro j ⟨u, hu, -⟩
    simp at hu
  | cons u l ih =>
    intro res hnd hrange hinj hlen
    have hu : u ∉ l := (List.nodup_cons.1 hnd).1
    have hndl : l.Nodup := (List.nodup_cons.1 hnd).2
    by_cases hpos : 0 ≤ idxAt idx u
    · rw [normalise_cons_pos idx u l t res hpos]
      have hlt := hrange u (List.mem_cons_self _ _) hpos
      obtain ⟨a, ha⟩ : ∃ a : Nat, idxAt idx u = (a : Int) := ⟨(idxAt idx u).toNat, by omega⟩
      rw [ha] at hlt ⊢
      rw [vset_natCast, vget_natCast]
      have haN : a < res.length := by rw [hlen]; exact_mod_cast hlt
      have hne : ∀ v ∈ l, 0 ≤ idxAt idx v → idxAt idx v ≠ (a : Int) := by
        intro v hv hv0 hva
        have := hinj v (List.mem_cons_of_mem _ hv) u (List.mem_cons_self _ _) hv0
          (by rw [hva, ha])
        exact hu (this ▸ hv)
      obtain ⟨b1, b2, b3⟩ := ih (res.set a (res.getD a 0 / t)) hndl
        (fun v hv => hrange v (List.mem_cons_of_mem _ hv))
        (fun v hv w hw => hinj v (List.mem_cons_of_mem _ hv) w (List.mem_cons_of_mem _ hw))
        (by simpa using hlen)
      refine ⟨b1, ?_, ?_⟩
      · rintro j ⟨v, hv, hv0, hvj⟩
        rcases List.mem_cons.1 hv with hvu | hvl
        · have haj : a = j := by
            rw [hvu, ha] at hvj
            exact_mod_cast hvj
          subst haj
          rw [b3 a hne, getD_set_self res a _ 0 haN]
        · have haj : a ≠ j := by
            intro h
            exact hne v hvl hv0 (by rw [hvj, h])
          rw [b2 j ⟨v, hvl, hv0, hvj⟩, getD_set_ne res a j _ 0 haj]
      · intro j hj
        have haj : a ≠ j := by
          intro h
          exact hj u (List.mem_cons_self _ _) hpos (by rw [ha, h])
        rw [b3 j (fun v hv => hj v (List.mem_cons_of_mem _ hv)), getD_set_ne res a j _ 0 haj]
    · rw [normalise_cons_neg idx u l t res hpos]
      obtain ⟨b1, b2, b3⟩ := ih res hndl
        (fun v hv => hrange v (List.mem_cons_of_mem _ hv))
        (fun v hv w hw => hinj v (List.mem_cons_of_mem _ hv) w (List.mem_cons_of_mem _ hw))
        hlen
      refine ⟨b1, ?_, fun j hj => b3 j (fun v hv => hj v (List.mem_cons_of_mem _ hv))⟩
      rintro j ⟨v, hv, hv0, hvj⟩
      rcases List.mem_cons.1 hv with hvu | hvl
      · rw [hvu] at hv0
        exact absurd hv0 hpos
      · exact b2 j ⟨v, hvl, hv0, hvj⟩

theorem sum_sq_map_div (t : α) : ∀ l : List α,
    ((l.map (fun x => x / t)).map (fun x => x ^ 2)).sum = (l.map (fun x => x ^ 2)).sum / t ^ 2 := by
  intro l
  induction l with
  | nil => simp
  | cons x l ih =>
    simp only [List.map_cons, List.sum_cons, ih]
    rw [div_pow, add_div]

theorem eq_map_of_getD (v w : List α) (f : α → α) (hlen : v.length = w.length)
    (h : ∀ j : Nat, j < w.length → v.getD j 0 = f (w.getD j 0)) : v = w.map f := by
  apply List.ext_getElem (by simpa using hlen)
  intro j h1 h2
  have hj : j < w.length := by simpa using h2
  have := h j hj
  rw [List.getD_eq_getElem _ _ h1, List.getD_eq_getElem _ _ hj] at this
  simpa using this

theorem getD_replicate_zero (N j : Nat) : (List.replicate N (0 : α)).getD j 0 = 0 := by
  rw [List.getD_eq_getElem?_getD, List.getElem?_replicate]
  split_ifs <;> rfl

/-- The vector `randomUnitVector` returns, for distinct alive vertices whose
non-negative compact indices are distinct and below `numSplitNodes`, when a
sample drawn is not zero and `std::sqrt` returns a square root of the sum of the
squared samples. -/
theorem randomUnitVector_spec (env : Env α) (s : Solver α)
    (hnd : s.subdivGraph.alive.Nodup)
    (hrange : ∀ u ∈ s.subdivGraph.alive, 0 ≤ idxAt s.subdivisionIdx u →
      idxAt s.subdivisionIdx u < s.numSplitNodes)
    (hinj : ∀ u ∈ s.subdivGraph.alive, ∀ v ∈ s.subdivGraph.alive,
      0 ≤ idxAt s.subdivisionIdx u → idxAt s.subdivisionIdx u = idxAt s.subdivisionIdx v →
      u = v)
    (hsamples : ∃ x ∈ drawnSamples s, x ≠ 0)
    (hsqrt : env.sqrt ((drawnSamples s).map (fun x => x ^ 2)).sum ^ 2 =
      ((drawnSamples s).map (fun x => x ^ 2)).sum) :
    (((randomUnitVector env s).1.length : Nat) : Int) = s.numSplitNodes ∧
    ((randomUnitVector env s).1.map (fun x => x ^ 2)).sum = 1 ∧
    (∀ j : Nat, (∀ u ∈ s.subdivGraph.alive, 0 ≤ idxAt s.subdivisionIdx u →
        idxAt s.subdivisionIdx u ≠ (j : Int)) →
      vget (randomUnitVector env s).1 (j : Int) = 0) := by
  -- the samples are drawn for at least one vertex, so `numSplitNodes` is positive
  have hcount : 0 < (s.subdivGraph.alive.filter
      (fun u => decide (0 ≤ idxAt s.subdivisionIdx u))).length := by
    obtain ⟨x, hx, -⟩ := hsamples
    simp only [drawnSamples, List.mem_map, List.mem_range] at hx
    obtain ⟨k, hk, -⟩ := hx
    omega
  obtain ⟨u0, hu0⟩ := List.exists_mem_of_length_pos hcount
  have hu0a := (List.mem_filter.1 hu0).1
  have hu0p : 0 ≤ idxAt s.subdivisionIdx u0 := by simpa using (List.mem_filter.1 hu0).2
  have hnpos : 0 < s.numSplitNodes := lt_of_le_of_lt hu0p (hrange u0 hu0a hu0p)
  have hN : ((s.numSplitNodes.toNat : Nat) : Int) = s.numSplitNodes :=
    Int.toNat_of_nonneg (le_of_lt hnpos)
  have hrange1 : ∀ u ∈ s.subdivGraph.alive, 0 ≤ idxAt s.subdivisionIdx u →
      idxAt s.subdivisionIdx u < ((s.numSplitNodes.toNat : Nat) : Int) := by
    intro u hu h0
    rw [hN]
    exact hrange u hu h0
  -- first loop
  obtain ⟨d1, d2, d3, d4, -⟩ := drawSamples_spec s.subdivisionIdx s.numSplitNodes.toNat
    s.subdivGraph.alive (List.replicate s.numSplitNodes.toNat 0) 0 s.randomGen hnd hrange1 hinj
    (by simp)
    (by
      intro u hu h0
      obtain ⟨c, hc⟩ : ∃ c : Nat, idxAt s.subdivisionIdx u = (c : Int) :=
        ⟨(idxAt s.subdivisionIdx u).toNat, by omega⟩
      rw [hc, vget_natCast]
      exact getD_replicate_zero _ _)
  have hzeros : ((List.replicate s.numSplitNodes.toNat (0 : α)).map (fun x => x ^ 2)).sum = 0 := by
    simp
  rw [hzeros, sub_zero, sub_zero] at d2
  rw [sub_zero] at d4
  have htotal : (drawSamples s.subdivisionIdx s.subdivGraph.alive
      (List.replicate s.numSplitNodes.toNat 0, 0, s.randomGen)).2.1 =
      ((drawnSamples s).map (fun x => x ^ 2)).sum := by
    rw [d4, drawnSamples, List.map_map]
    rfl
  -- the total is positive
  have htpos : 0 < ((drawnSamples s).map (fun x => x ^ 2)).sum := by
    obtain ⟨x, hx, hx0⟩ := hsamples
    have hmem : x ^ 2 ∈ (drawnSamples s).map (fun x => x ^ 2) := List.mem_map.2 ⟨x, hx, rfl⟩
    have hnonneg : ∀ y ∈ (drawnSamples s).map (fun x => x ^ 2), 0 ≤ y := by
      intro y hy
      obtain ⟨z, -, hz⟩ := List.mem_map.1 hy
      rw [← hz]
      exact sq_nonneg z
    have hle := List.single_le_sum hnonneg _ hmem
    have hxpos : 0 < x ^ 2 := by positivity
    linarith
  -- second loop
  obtain ⟨n1, n2, n3⟩ := normalise_spec s.subdivisionIdx s.numSplitNodes.toNat
    (env.sqrt (drawSamples s.subdivisionIdx s.subdivGraph.alive
      (List.replicate s.numSplitNodes.toNat 0, 0, s.randomGen)).2.1)
    s.subdivGraph.alive
    (drawSamples s.subdivisionIdx s.subdivGraph.alive
      (List.replicate s.numSplitNodes.toNat 0, 0, s.randomGen)).1 hnd hrange1 hinj d1
  have hres : (randomUnitVector env s).1 =
      normalise s.subdivisionIdx s.subdivGraph.alive
        (env.sqrt (drawSamples s.subdivisionIdx s.subdivGraph.alive
          (List.replicate s.numSplitNodes.toNat 0, 0, s.randomGen)).2.1)
        (drawSamples s.subdivisionIdx s.subdivGraph.alive
          (List.replicate s.numSplitNodes.toNat 0, 0, s.randomGen)).1 := rfl
  have hzero_slot : ∀ j : Nat, (∀ u ∈ s.subdivGraph.alive, 0 ≤ idxAt s.subdivisionIdx u →
      idxAt s.subdivisionIdx u ≠ (j : Int)) →
      (drawSamples s.subdivisionIdx s.subdivGraph.alive
        (List.replicate s.numSplitNodes.toNat 0, 0, s.randomGen)).1.getD j 0 = 0 := by
    intro j hj
    rw [d3 j hj]
    exact getD_replicate_zero _ _
  refine ⟨by rw [hres, n1, hN], ?_, ?_⟩
  · have hmap : (randomUnitVector env s).1 =
        (drawSamples s.subdivisionIdx s.subdivGraph.alive
          (List.replicate s.numSplitNodes.toNat 0, 0, s.randomGen)).1.map
          (fun x => x / env.sqrt (drawSamples s.subdivisionIdx s.subdivGraph.alive
            (List.replicate s.numSplitNodes.toNat 0, 0, s.randomGen)).2.1) := by
      rw [hres]
      apply eq_map_of_getD _ _ _ (by rw [n1, d1])
      intro j _
      by_cases hex : ∃ u ∈ s.subdivGraph.alive, 0 ≤ idxAt s.subdivisionIdx u ∧
          idxAt s.subdivisionIdx u = (j : Int)
      · exact n2 j hex
      · have hall : ∀ u ∈ s.subdivGraph.alive, 0 ≤ idxAt s.subdivisionIdx u →
            idxAt s.subdivisionIdx u ≠ (j : Int) :=
          fun u hu h0 he => hex ⟨u, hu, h0, he⟩
        rw [n3 j hall, hzero_slot j hall, zero_div]
    rw [hmap, sum_sq_map_div, d2, htotal, hsqrt]
    exact div_self (ne_of_gt htpos)
  · intro j hj
    rw [vget_natCast, hres, n3 j hj]
    exact hzero_slot j hj

/-- C17: for distinct alive vertices whose non-negative compact indices are
distinct and in `[0, numSplitNodes)`, and samples that are not all zero,
`randomUnitVector` returns a vector of length `numSplitNodes` whose squared
entries sum to exactly `1` and whose slots that belong to no such vertex are
`0`. Exact arithmetic in any ordered field in which `std::sqrt` returns a square
root of the sum of the squared samples, as it does over the reals
(`randomUnitVector_unit_real`). -/
theorem randomUnitVector_unit (env : Env α) (s : Solver α)
    (hnd : s.subdivGraph.alive.Nodup)
    (hrange : ∀ u ∈ s.subdivGraph.alive, 0 ≤ idxAt s.subdivisionIdx u →
      idxAt s.subdivisionIdx u < s.numSplitNodes)
    (hinj : ∀ u ∈ s.subdivGraph.alive, ∀ v ∈ s.subdivGraph.alive,
      0 ≤ idxAt s.subdivisionIdx u → idxAt s.subdivisionIdx u = idxAt s.subdivisionIdx v →
      u = v)
    (hsamples : ∃ x ∈ drawnSamples s, x ≠ 0)
    (hsqrt : env.sqrt ((drawnSamples s).map (fun x => x ^ 2)).sum ^ 2 =
      ((drawnSamples s).map (fun x => x ^ 2)).sum) :
    (((randomUnitVector env s).1.length : Nat) : Int) = s.numSplitNodes ∧
    ((randomUnitVector env s).1.map (fun x => x ^ 2)).sum = 1 ∧
    (∀ j : Nat, (∀ u ∈ s.subdivGraph.alive, 0 ≤ idxAt s.subdivisionIdx u →
        idxAt s.subdivisionIdx u ≠ (j : Int)) →
      vget (randomUnitVector env s).1 (j : Int) = 0) :=
  randomUnitVector_spec env s hnd hrange hinj hsamples hsqrt

/-- Over the reals with the real square root the hypothesis on `std::sqrt`
holds by itself. -/
theorem randomUnitVector_unit_real (env : Env ℝ) (s : Solver ℝ) (hs : env.sqrt = Real.sqrt)
    (hnd : s.subdivGraph.alive.Nodup)
    (hrange : ∀ u ∈ s.subdivGraph.alive, 0 ≤ idxAt s.subdivisionIdx u →
      idxAt s.subdivisionIdx u < s.numSplitNodes)
    (hinj : ∀ u ∈ s.subdivGraph.alive, ∀ v ∈ s.subdivGraph.alive,
      0 ≤ idxAt s.subdivisionIdx u → idxAt s.subdivisionIdx u = idxAt s.subdivisionIdx v →
      u = v)
    (hsamples : ∃ x ∈ drawnSamples s, x ≠ 0) :
    (((randomUnitVector env s).1.length : Nat) : Int) = s.numSplitNodes ∧
    ((randomUnitVector env s).1.map (fun x => x ^ 2)).sum = 1 ∧
    (∀ j : Nat, (∀ u ∈ s.subdivGraph.alive, 0 ≤ idxAt s.subdivisionIdx u →
        idxAt s.subdivisionIdx u ≠ (j : Int)) →
      vget (randomUnitVector env s).1 (j : Int) = 0) := by
  apply randomUnitVector_spec env s hnd hrange hinj hsamples
  rw [hs]
  apply Real.sq_sqrt
  apply List.sum_nonneg
  intro y hy
  obtain ⟨z, -, hz⟩ := List.mem_map.1 hy
  rw [← hz]
  exact sq_nonneg z

/-- C17 on the path: the samples `3, 4` give the vector `[3/5, 4/5]`. -/
theorem randomUnitVector_unit_path :
    (randomUnitVector (pathEnv []) pathSolver).1 = [3 / 5, 4 / 5] ∧
    drawnSamples pathSolver = [3, 4] ∧
    ((((randomUnitVector (pathEnv []) pathSolver).1.length : Nat) : Int) =
        pathSolver.numSplitNodes ∧
      ((randomUnitVector (pathEnv []) pathSolver).1.map (fun x => x ^ 2)).sum = 1 ∧
      (∀ j : Nat, (∀ u ∈ pathSolver.subdivGraph.alive, 0 ≤ idxAt pathSolver.subdivisionIdx u →
          idxAt pathSolver.subdivisionIdx u ≠ (j : Int)) →
        vget (randomUnitVector (pathEnv []) pathSolver).1 (j : Int) = 0)) := by
  have hd : drawnSamples pathSolver = [3, 4] := by
    simp [drawnSamples, pathSolver, pathSubdiv, pathRng, idxAt, List.range_succ]
  have hv : randomUnitVector (pathEnv []) pathSolver =
      ([3 / 5, 4 / 5], { pathRng with pos := 2 }) := pathSolver_unitVector [] 0 rfl
  refine ⟨by rw [hv], hd, ?_⟩
  exact randomUnitVector_unit (pathEnv []) pathSolver (by decide) (by decide) (by decide)
    ⟨3, by rw [hd]; simp, by norm_num⟩
    (by rw [hd]; norm_num [pathEnv])

/-! ## The peel and the scrub of a round -/

/-- The round body in terms of the set `removed`, the sources of the matching
call and the pairs the call returns. -/
theorem roundBody_parts [FloorRing α] (env : Env α) (params : Parameters α)
    (st st1 : RoundState α) (h : roundBody env params st = some st1) :
    ∃ sides removed sources pairs,
      selectSides (resampleStep env params (sampleStep env params st)) = some sides ∧
      roundRemoved env params st = some removed ∧
      matchingSources env params st = some sources ∧
      matchingCall env params st = some pairs ∧
      sources = peelSide (levelCutSet env (resampleStep env params (sampleStep env params st))
        sides.1 sides.2) sides.1 ∧
      (∃ g : Graph, pairs = env.matching
        (resampleStep env params (sampleStep env params st)).iterations g sides.1 sides.2
        sources) ∧
      st1.rounds =
        (if shouldMaintainMatchings params then
          scrub params st1.solver.fromSubdivisionIdx removed
            (resampleStep env params (sampleStep env params st)).rounds ++
            [pairs.map (fun p => (idxAt st1.solver.subdivisionIdx p.1,
              idxAt st1.solver.subdivisionIdx p.2))]
        else scrub params st1.solver.fromSubdivisionIdx removed
          (resampleStep env params (sampleStep env params st)).rounds) ∧
      st1.solver = removeAll
        (removeAll (resampleStep env params (sampleStep env params st)).solver
          (levelCutSet env (resampleStep env params (sampleStep env params st)) sides.1 sides.2))
        (zeroDegrees (removeAll (resampleStep env params (sampleStep env params st)).solver
          (levelCutSet env (resampleStep env params (sampleStep env params st))
            sides.1 sides.2))) := by
  obtain ⟨sides, hs⟩ := selectSides_some (resampleStep env params (sampleStep env params st))
  unfold roundBody at h
  simp only [hs, Option.map_some', Option.some.injEq] at h
  subst h
  refine ⟨sides, _, _, _, hs, ?_, ?_, ?_, rfl, ⟨_, rfl⟩, rfl, rfl⟩
  · simp only [roundRemoved, hs, Option.map_some']
  · simp only [matchingSources, hs, Option.map_some']
  · simp only [matchingCall, hs, Option.map_some']

theorem mem_foldl_hashInsert (l : List Nat) : ∀ (acc : List Nat) (v : Nat),
    v ∈ l.foldl hashInsert acc ↔ v ∈ acc ∨ v ∈ l := by
  induction l with
  | nil => intro acc v; simp
  | cons u l ih =>
    intro acc v
    rw [List.foldl_cons, ih]
    unfold hashInsert
    split_ifs with hu
    · constructor
      · rintro (h | h)
        · exact Or.inl h
        · exact Or.inr (List.mem_cons_of_mem _ h)
      · rintro (h | h)
        · exact Or.inl h
        · rcases List.mem_cons.1 h with h1 | h1
          · exact Or.inl (h1 ▸ hu)
          · exact Or.inr h1
    · simp only [List.mem_append, List.mem_singleton, List.mem_cons]
      tauto

theorem Graph.mem_alive_remove (g : Graph) (u v : Nat) (hv : v ∈ g.alive)
    (hn : v ∉ (g.remove u).alive) : v = u := by
  unfold Graph.remove at hn
  split_ifs at hn with h
  · by_contra hne
    exact hn ((List.mem_erase_of_ne hne).2 hv)
  · exact absurd hv hn

/-- A vertex that leaves the alive range of the subdivision graph in
`removeAll` is one of the listed vertices. -/
theorem removeAll_alive {β : Type} (us : List Nat) : ∀ (s : Solver β) (v : Nat),
    v ∈ s.subdivGraph.alive → v ∉ (removeAll s us).subdivGraph.alive → v ∈ us := by
  induction us with
  | nil => intro s v hv hn; exact absurd hv hn
  | cons u us ih =>
    intro s v hv hn
    by_cases hvu : v = u
    · rw [hvu]
      exact List.mem_cons_self _ _
    · have hstill : v ∈ (s.subdivGraph.remove u).alive := by
        by_contra hc
        exact hvu (Graph.mem_alive_remove s.subdivGraph u v hv hc)
      exact List.mem_cons_of_mem _ (ih
        { s with
          graph := if idxAt s.subdivisionIdx u = -1 then s.graph.remove u else s.graph,
          subdivGraph := s.subdivGraph.remove u } v hstill hn)

theorem isRemoved_iff (removed : List Nat) (x : Int) :
    isRemoved removed x = true ↔ ∃ r ∈ removed, (r : Int) = x := by
  simp [isRemoved, List.any_eq_true]

theorem scrub_spec [FloorRing α] (env : Env α) (params : Parameters α)
    (st st1 : RoundState α) (hm : shouldMaintainMatchings params = true)
    (h : roundBody env params st = some st1) :
    ∃ removed matching,
      roundRemoved env params st = some removed ∧
      (∀ v ∈ st.solver.subdivGraph.alive, v ∉ st1.solver.subdivGraph.alive → v ∈ removed) ∧
      st1.rounds = st.rounds.map (fun m => m.filter (fun p =>
        !(isRemoved removed (vget st.solver.fromSubdivisionIdx p.1) ||
          isRemoved removed (vget st.solver.fromSubdivisionIdx p.2)))) ++ [matching] ∧
      (∀ m ∈ st.rounds,
        (m.filter (fun p =>
          !(isRemoved removed (vget st.solver.fromSubdivisionIdx p.1) ||
            isRemoved removed (vget st.solver.fromSubdivisionIdx p.2)))).Sublist m ∧
        (∀ p ∈ m.filter (fun p =>
          !(isRemoved removed (vget st.solver.fromSubdivisionIdx p.1) ||
            isRemoved removed (vget st.solver.fromSubdivisionIdx p.2))),
          (¬∃ r ∈ removed, (r : Int) = vget st.solver.fromSubdivisionIdx p.1) ∧
          ¬∃ r ∈ removed, (r : Int) = vget st.solver.fromSubdivisionIdx p.2) ∧
        (∀ p ∈ m, (¬∃ r ∈ removed, (r : Int) = vget st.solver.fromSubdivisionIdx p.1) →
          (¬∃ r ∈ removed, (r : Int) = vget st.solver.fromSubdivisionIdx p.2) →
          p ∈ m.filter (fun p =>
            !(isRemoved removed (vget st.solver.fromSubdivisionIdx p.1) ||
              isRemoved removed (vget st.solver.fromSubdivisionIdx p.2))))) := by
  obtain ⟨sides, removed, sources, pairs, hs, hrem, -, -, -, -, hrounds, hsolver⟩ :=
    roundBody_parts env params st st1 h
  obtain ⟨-, -, -, -, e5, -⟩ := roundBody_frame env params st st1 h
  obtain ⟨-, a2, -, -, -, -, -, -, a9, -⟩ := sampleStep_frame env params st
  obtain ⟨-, b2, -, -, -, -, -, -, b9, -⟩ :=
    resampleStep_frame env params (sampleStep env params st)
  rw [hm, if_pos rfl, e5, b9, a9] at hrounds
  simp only [scrub, hm, if_true] at hrounds
  refine ⟨removed, _, hrem, ?_, hrounds, ?_⟩
  · intro v hv hn
    have hremoved : removed = (zeroDegrees (removeAll
        (resampleStep env params (sampleStep env params st)).solver
        (levelCutSet env (resampleStep env params (sampleStep env params st))
          sides.1 sides.2))).foldl hashInsert
        (levelCutSet env (resampleStep env params (sampleStep env params st))
          sides.1 sides.2) := by
      simp only [roundRemoved, hs, Option.map_some', Option.some.injEq] at hrem
      exact hrem.symm
    rw [hremoved, mem_foldl_hashInsert]
    rw [hsolver] at hn
    rw [← a2, ← b2] at hv
    by_cases hmid : v ∈ (removeAll (resampleStep env params (sampleStep env params st)).solver
        (levelCutSet env (resampleStep env params (sampleStep env params st))
          sides.1 sides.2)).subdivGraph.alive
    · exact Or.inr (removeAll_alive _ _ v hmid hn)
    · exact Or.inl (removeAll_alive _ _ v hv hmid)
  · intro m _
    refine ⟨List.filter_sublist m, ?_, ?_⟩
    · intro p hp
      have hk := (List.mem_filter.1 hp).2
      simp only [Bool.not_eq_true', Bool.or_eq_false_iff] at hk
      constructor
      · intro hex
        have := (isRemoved_iff removed _).2 hex
        rw [hk.1] at this
        cases this
      · intro hex
        have := (isRemoved_iff removed _).2 hex
        rw [hk.2] at this
        cases this
    · intro p hp h1 h2
      apply List.mem_filter.2
      refine ⟨hp, ?_⟩
      have k1 : isRemoved removed (vget st.solver.fromSubdivisionIdx p.1) = false := by
        cases hb : isRemoved removed (vget st.solver.fromSubdivisionIdx p.1)
        · rfl
        · exact absurd ((isRemoved_iff removed _).1 hb) h1
      have k2 : isRemoved removed (vget st.solver.fromSubdivisionIdx p.2) = false := by
        cases hb : isRemoved removed (vget st.solver.fromSubdivisionIdx p.2)
        · rfl
        · exact absurd ((isRemoved_iff removed _).1 hb) h2
      rw [k1, k2]
      rfl

/-- C14: with `shouldMaintainMatchings`, after the scrub of a round the
matchings recorded before the round hold no pair `(i, j)` with
`fromSubdivisionIdx[i]` or `fromSubdivisionIdx[j]` in the set `removed` of the
round, which contains every vertex the round removes from the subdivision graph
(level cut and isolated vertices alike); each matching keeps, in their order,
exactly the pairs that touch no such vertex. The matching of the round itself
is appended after the scrub. -/
theorem scrub_drops_removed_pairs [FloorRing α] (env : Env α) (params : Parameters α)
    (st st1 : RoundState α) (hm : shouldMaintainMatchings params = true)
    (h : roundBody env params st = some st1) :
    ∃ removed matching,
      roundRemoved env params st = some removed ∧
      (∀ v ∈ st.solver.subdivGraph.alive, v ∉ st1.solver.subdivGraph.alive → v ∈ removed) ∧
      st1.rounds = st.rounds.map (fun m => m.filter (fun p =>
        !(isRemoved removed (vget st.solver.fromSubdivisionIdx p.1) ||
          isRemoved removed (vget st.solver.fromSubdivisionIdx p.2)))) ++ [matching] ∧
      (∀ m ∈ st.rounds,
        (m.filter (fun p =>
          !(isRemoved removed (vget st.solver.fromSubdivisionIdx p.1) ||
            isRemoved removed (vget st.solver.fromSubdivisionIdx p.2)))).Sublist m ∧
        (∀ p ∈ m.filter (fun p =>
          !(isRemoved removed (vget st.solver.fromSubdivisionIdx p.1) ||
            isRemoved removed (vget st.solver.fromSubdivisionIdx p.2))),
          (¬∃ r ∈ removed, (r : Int) = vget st.solver.fromSubdivisionIdx p.1) ∧
          ¬∃ r ∈ removed, (r : Int) = vget st.solver.fromSubdivisionIdx p.2) ∧
        (∀ p ∈ m, (¬∃ r ∈ removed, (r : Int) = vget st.solver.fromSubdivisionIdx p.1) →
          (¬∃ r ∈ removed, (r : Int) = vget st.solver.fromSubdivisionIdx p.2) →
          p ∈ m.filter (fun p =>
            !(isRemoved removed (vget st.solver.fromSubdivisionIdx p.1) ||
              isRemoved removed (vget st.solver.fromSubdivisionIdx p.2))))) :=
  scrub_spec env params st st1 hm h

theorem pathStateTwo_roundBody :
    roundBody (pathEnv [2, 4]) (resampleParams 0) pathStateTwo = some pathStateTwoAfter := by
  have h1 : sampleStep (pathEnv [2, 4]) (resampleParams 0) pathStateTwo = pathStateTwo := rfl
  have hv : randomUnitVector (pathEnv [2, 4]) pathStateTwo.solver =
      ([3 / 5, 4 / 5], { pathRng with pos := 2 }) := pathSolver_unitVector [2, 4] 0 rfl
  have h2 : resampleStep (pathEnv [2, 4]) (resampleParams 0) pathStateTwo =
      { pathStateTwo with solver := { pathSolver with randomGen := { pathRng with pos := 2 } } } := by
    simp only [resampleStep, resampleParams, if_true, hv, Int.toNat_zero, randomWalk]
    rfl
  have havg : avgFlow { pathStateTwo with
      solver := { pathSolver with randomGen := { pathRng with pos := 2 } } } = 7 / 10 := by
    norm_num [avgFlow, pathStateTwo, curSubdivisionCount, pathSolver, pathSubdiv, pathGraph,
      Graph.size]
  have hb : bipartition pathStateTwo.flow pathSolver.subdivisionIdx (7 / 10)
      pathSolver.subdivGraph.alive = ([3], [4]) := by
    norm_num [bipartition, pathStateTwo, pathSolver, pathSubdiv, idxAt, vget]
  have hsel : selectSides { pathStateTwo with
      solver := { pathSolver with randomGen := { pathRng with pos := 2 } } } =
      some ([], [4]) := by
    simp only [selectSides, havg, hb]
    rfl
  simp only [roundBody, h1, h2, hsel, Option.map_some']
  rfl

/-- C14 on the path: with resampling, the round with level cut `{2, 4}` scrubs
the pair `(0, 1)` of the recorded matching and keeps the pair `(0, 0)`. -/
theorem scrub_drops_removed_pairs_path :
    shouldMaintainMatchings (resampleParams 0) = true ∧
    roundBody (pathEnv [2, 4]) (resampleParams 0) pathStateTwo = some pathStateTwoAfter ∧
    roundRemoved (pathEnv [2, 4]) (resampleParams 0) pathStateTwo = some [2, 4] ∧
    pathStateTwoAfter.rounds = [[(0, 0)], []] ∧
    ∃ removed matching,
      roundRemoved (pathEnv [2, 4]) (resampleParams 0) pathStateTwo = some removed ∧
      (∀ v ∈ pathStateTwo.solver.subdivGraph.alive,
        v ∉ pathStateTwoAfter.solver.subdivGraph.alive → v ∈ removed) ∧
      pathStateTwoAfter.rounds = pathStateTwo.rounds.map (fun m => m.filter (fun p =>
        !(isRemoved removed (vget pathStateTwo.solver.fromSubdivisionIdx p.1) ||
          isRemoved removed (vget pathStateTwo.solver.fromSubdivisionIdx p.2)))) ++ [matching] ∧
      (∀ m ∈ pathStateTwo.rounds,
        (m.filter (fun p =>
          !(isRemoved removed (vget pathStateTwo.solver.fromSubdivisionIdx p.1) ||
            isRemoved removed (vget pathStateTwo.solver.fromSubdivisionIdx p.2)))).Sublist m ∧
        (∀ p ∈ m.filter (fun p =>
          !(isRemoved removed (vget pathStateTwo.solver.fromSubdivisionIdx p.1) ||
            isRemoved removed (vget pathStateTwo.solver.fromSubdivisionIdx p.2))),
          (¬∃ r ∈ removed, (r : Int) = vget pathStateTwo.solver.fromSubdivisionIdx p.1) ∧
          ¬∃ r ∈ removed, (r : Int) = vget pathStateTwo.solver.fromSubdivisionIdx p.2) ∧
        (∀ p ∈ m,
          (¬∃ r ∈ removed, (r : Int) = vget pathStateTwo.solver.fromSubdivisionIdx p.1) →
          (¬∃ r ∈ removed, (r : Int) = vget pathStateTwo.solver.fromSubdivisionIdx p.2) →
          p ∈ m.filter (fun p =>
            !(isRemoved removed (vget pathStateTwo.solver.fromSubdivisionIdx p.1) ||
              isRemoved removed (vget pathStateTwo.solver.fromSubdivisionIdx p.2))))) := by
  have hrem : roundRemoved (pathEnv [2, 4]) (resampleParams 0) pathStateTwo = some [2, 4] := by
    obtain ⟨sides, removed, -, -, hs, hr, -, -, -, -, -, -⟩ :=
      roundBody_parts (pathEnv [2, 4]) (resampleParams 0) pathStateTwo pathStateTwoAfter
        pathStateTwo_roundBody
    simp only [roundRemoved, hs, Option.map_some']
    rfl
  exact ⟨rfl, pathStateTwo_roundBody, hrem, rfl,
    scrub_drops_removed_pairs (pathEnv [2, 4]) (resampleParams 0) pathStateTwo
      pathStateTwoAfter rfl pathStateTwo_roundBody⟩

/-! ## The sources of the matching call -/

theorem long_initialState (cut : List Nat) :
    initialState (pathEnv cut) longSolver = longStart := by
  have hr : redensify longSolver = longSolver := rfl
  have h2 : (8 : Int).toNat = 8 := rfl
  have h3 : List.replicate 8 (0 : ℚ) = [0, 0, 0, 0, 0, 0, 0, 0] := rfl
  have hv : randomUnitVector (pathEnv cut) longSolver =
      ([0, 0, 0, 0, 0, 0, 0, 1], { longSolver.randomGen with pos := 8 }) := by
    simp only [randomUnitVector, drawSamples, normalise, longSolver, longSubdiv, pathEnv,
      idxAt, List.foldl_cons, List.foldl_nil, List.getD_cons_zero, List.getD_cons_succ,
      Rng.next]
    have t1 : (1 : Int).toNat = 1 := rfl
    have t2 : (2 : Int).toNat = 2 := rfl
    have t3 : (3 : Int).toNat = 3 := rfl
    have t4 : (4 : Int).toNat = 4 := rfl
    have t5 : (5 : Int).toNat = 5 := rfl
    have t6 : (6 : Int).toNat = 6 := rfl
    have t7 : (7 : Int).toNat = 7 := rfl
    norm_num [vset, vget, h2, h3, t1, t2, t3, t4, t5, t6, t7]
  simp only [initialState, hr, hv, longStart]

theorem long_selectSides : selectSides longStart = some ([9], [16]) := by
  have t1 : (1 : Int).toNat = 1 := rfl
  have t2 : (2 : Int).toNat = 2 := rfl
  have t3 : (3 : Int).toNat = 3 := rfl
  have t4 : (4 : Int).toNat = 4 := rfl
  have t5 : (5 : Int).toNat = 5 := rfl
  have t6 : (6 : Int).toNat = 6 := rfl
  have t7 : (7 : Int).toNat = 7 := rfl
  have havg : avgFlow longStart = 1 / 8 := by
    norm_num [avgFlow, longStart, curSubdivisionCount, longSolver, longSubdiv, longGraph,
      Graph.size]
  have hb : bipartition longStart.flow longStart.solver.subdivisionIdx (1 / 8)
      longStart.solver.subdivGraph.alive = ([9, 10, 11, 12, 13, 14, 15], [16]) := by
    norm_num [bipartition, longStart, longSolver, longSubdiv, idxAt, vget, t1, t2, t3, t4, t5,
      t6, t7]
  have hsl : sortByFlow longStart.flow longStart.solver.subdivisionIdx
      [9, 10, 11, 12, 13, 14, 15] = [9, 10, 11, 12, 13, 14, 15] := by
    norm_num [sortByFlow, longStart, longSolver, idxAt, vget, List.insertionSort,
      List.orderedInsert, t1, t2, t3, t4, t5, t6, t7]
  have hsr : sortByFlow longStart.flow longStart.solver.subdivisionIdx [16] = [16] := rfl
  simp only [selectSides, havg, hb, hsl, hsr]
  rfl

/-- C13 (evaluation at the failing input): on the path with eight edges, the
first round selects the split vertex `9` as the only source; the level cut
`{0, 1}` isolates it, so the pass over the vertices of degree zero removes it
from the subdivision graph (and puts it into `removed`), but `axLeft` was
filtered before that pass: the round calls `subdivGraph->matching` with
`axLeft = [9]`. -/
theorem matching_sources_keep_isolated :
    initialState (pathEnv [0, 1]) longSolver = longStart ∧
    9 ∈ longStart.solver.subdivGraph.alive ∧
    matchingSources (pathEnv [0, 1]) plainParams longStart = some [9] ∧
    roundRemoved (pathEnv [0, 1]) plainParams longStart = some [0, 1, 9] ∧
    ∃ st1, roundBody (pathEnv [0, 1]) plainParams longStart = some st1 ∧
      st1.solver.subdivGraph.removed = [0, 1, 9] ∧
      st1.solver.subdivGraph.alive = [2, 3, 4, 5, 6, 7, 8, 10, 11, 12, 13, 14, 15, 16] := by
  have h1 : sampleStep (pathEnv [0, 1]) plainParams longStart = longStart := rfl
  have h2 : resampleStep (pathEnv [0, 1]) plainParams longStart = longStart := rfl
  refine ⟨long_initialState [0, 1], by decide, ?_, ?_, ?_⟩
  · simp only [matchingSources, h1, h2, long_selectSides, Option.map_some']
    rfl
  · simp only [roundRemoved, h1, h2, long_selectSides, Option.map_some']
    rfl
  · obtain ⟨st1, hst1⟩ := roundBody_some (pathEnv [0, 1]) plainParams longStart
    obtain ⟨sides, -, -, -, -, -, -, -, -, -, -, hsolver⟩ :=
      roundBody_parts (pathEnv [0, 1]) plainParams longStart st1 hst1
    rw [h1, h2] at hsolver
    refine ⟨st1, hst1, ?_, ?_⟩
    · rw [hsolver]
      rfl
    · rw [hsolver]
      rfl

/-! ## Alive vertices of the two graphs -/

theorem Graph.remove_nodup (g : Graph) (u : Nat) (h : g.alive.Nodup) :
    (g.remove u).alive.Nodup := by
  unfold Graph.remove
  split_ifs
  · exact h.erase u
  · exact h

theorem Graph.mem_remove_alive (g : Graph) (u v : Nat) (h : g.alive.Nodup) :
    v ∈ (g.remove u).alive ↔ v ∈ g.alive ∧ v ≠ u := by
  unfold Graph.remove
  split_ifs with hu
  · simp only [h.mem_erase_iff]
    tauto
  · constructor
    · intro hv
      exact ⟨hv, fun hvu => hu (hvu ▸ hv)⟩
    · exact fun hv => hv.1

theorem Graph.mem_remove_vertices (g : Graph) (u v : Nat) :
    v ∈ (g.remove u).alive ++ (g.remove u).removed ↔ v ∈ g.alive ++ g.removed :=
  (Graph.remove_perm g u).mem_iff

theorem syncInvariant_removeStep {β : Type} (s : Solver β) (u : Nat) (h : syncInvariant s) :
    syncInvariant { s with
      graph := if idxAt s.subdivisionIdx u = -1 then s.graph.remove u else s.graph,
      subdivGraph := s.subdivGraph.remove u } := by
  obtain ⟨h1, h2, h3, h4⟩ := h
  by_cases hu : idxAt s.subdivisionIdx u = -1
  · simp only [syncInvariant, aliveSync, hu, if_true]
    refine ⟨?_, ?_, Graph.remove_nodup _ _ h3, Graph.remove_nodup _ _ h4⟩
    · intro v hv
      have hv1 := (Graph.mem_remove_vertices s.graph u v).1 hv
      rw [Graph.mem_remove_alive _ _ _ h3, Graph.mem_remove_alive _ _ _ h4, h1 v hv1]
    · intro v hv
      exact h2 v ((Graph.mem_remove_vertices s.graph u v).1 hv)
  · simp only [syncInvariant, aliveSync, hu, if_false]
    refine ⟨?_, h2, h3, Graph.remove_nodup _ _ h4⟩
    intro v hv
    have hvu : v ≠ u := fun hvu => hu (hvu ▸ h2 v hv)
    rw [Graph.mem_remove_alive _ _ _ h4, h1 v hv]
    tauto

theorem syncInvariant_removeAll {β : Type} (us : List Nat) : ∀ s : Solver β,
    syncInvariant s → syncInvariant (removeAll s us) := by
  induction us with
  | nil => intro s h; exact h
  | cons u us ih =>
    intro s h
    exact ih _ (syncInvariant_removeStep s u h)

theorem syncInvariant_congr {β : Type} (s t : Solver β) (hg : t.graph = s.graph)
    (hs : t.subdivGraph = s.subdivGraph) (hi : t.subdivisionIdx = s.subdivisionIdx)
    (h : syncInvariant s) : syncInvariant t := by
  unfold syncInvariant aliveSync at h ⊢
  rw [hg, hs, hi]
  exact h

/-- A round keeps the alive ranges of the two graphs in step. -/
theorem syncInvariant_roundBody [FloorRing α] (env : Env α) (params : Parameters α)
    (st st1 : RoundState α) (h : roundBody env params st = some st1)
    (hinv : syncInvariant st.solver) : syncInvariant st1.solver := by
  obtain ⟨sides, -, -, -, -, -, -, -, -, -, -, hsolver⟩ := roundBody_parts env params st st1 h
  obtain ⟨a1, a2, a3, -⟩ := sampleStep_frame env params st
  obtain ⟨b1, b2, b3, -⟩ := resampleStep_frame env params (sampleStep env params st)
  rw [hsolver]
  apply syncInvariant_removeAll
  apply syncInvariant_removeAll
  exact syncInvariant_congr st.solver _ (b1.trans a1) (b2.trans a2) (b3.trans a3) hinv

theorem syncInvariant_roundLoop [FloorRing α] (env : Env α) (params : Parameters α)
    (target : Int) : ∀ (fuel : Nat) (st st1 : RoundState α),
    roundLoop env params target fuel st = some st1 → syncInvariant st.solver →
    syncInvariant st1.solver := by
  intro fuel
  induction fuel with
  | zero =>
    intro st st1 h hinv
    rw [roundLoop] at h
    split_ifs at h
    rw [← Option.some.inj h]
    exact hinv
  | succ fuel ih =>
    intro st st1 h hinv
    rw [roundLoop] at h
    split_ifs at h with hg
    · obtain ⟨st2, h2⟩ := roundBody_some env params st
      rw [h2, Option.some_bind] at h
      exact ih _ st1 h (syncInvariant_roundBody env params st st2 h2 hinv)
    · rw [← Option.some.inj h]
      exact hinv

theorem redensify_keeps_negative {β : Type} (s : Solver β) (v : Nat)
    (hv : idxAt s.subdivisionIdx v < 0) :
    idxAt (redensify s).subdivisionIdx v = idxAt s.subdivisionIdx v := by
  have key : ∀ (l : List Nat) (acc : List Int × List Int × Int),
      idxAt acc.1 v = idxAt s.subdivisionIdx v →
      idxAt (l.foldl redensifyStep acc).1 v = idxAt s.subdivisionIdx v := by
    intro l
    induction l with
    | nil => intro acc h; exact h
    | cons u l ih =>
      intro acc h
      rw [List.foldl_cons]
      apply ih
      unfold redensifyStep
      split_ifs with hu
      · have hne : u ≠ v := by
          intro huv
          rw [huv, h] at hu
          omega
        simp only
        rw [idxAt_set_ne _ _ _ _ hne, h]
      · exact h
  rw [(redensify_eq_foldl s).1]
  exact key _ _ rfl

theorem syncInvariant_initialState (env : Env α) (s : Solver α) (h : syncInvariant s) :
    syncInvariant (initialState env s).solver := by
  obtain ⟨h1, h2, h3, h4⟩ := h
  have hidx : (initialState env s).solver.subdivisionIdx = (redensify s).subdivisionIdx := rfl
  obtain ⟨i1, i2, -⟩ := initialState_frame env s
  unfold syncInvariant aliveSync
  rw [i1, i2, hidx]
  refine ⟨h1, ?_, h3, h4⟩
  intro v hv
  have hneg : idxAt s.subdivisionIdx v < 0 := by rw [h2 v hv]; decide
  rw [redensify_keeps_negative s v hneg]
  exact h2 v hv

theorem syncInvariant_loopExit [FloorRing α] (env : Env α) (params : Parameters α)
    (s : Solver α) (st : RoundState α) (h : loopExit env params s = some st)
    (hinv : syncInvariant s) : syncInvariant st.solver := by
  unfold loopExit at h
  cases hl : lowerVolumeBalance s with
  | none => simp [hl] at h
  | some lower =>
    rw [hl, Option.some_bind] at h
    exact syncInvariant_roundLoop env params _ _ _ st h (syncInvariant_initialState env s hinv)

theorem aliveSync_spec [FloorRing α] (env : Env α) (params : Parameters α) (s : Solver α)
    (hinv : syncInvariant s) :
    (∀ st st1 : RoundState α, syncInvariant st.solver → roundBody env params st = some st1 →
      aliveSync st1.solver) ∧
    (∀ st, loopExit env params s = some st → aliveSync st.solver) ∧
    (∀ r, compute env params s = some r →
      aliveSync r.2 ∨
      (r.1.type = ResultType.Expander ∧
        ∀ v ∈ r.2.graph.alive ++ r.2.graph.removed,
          v ∈ r.2.graph.alive ∧ v ∉ r.2.subdivGraph.alive)) ∧
    (∀ r, compute env params s = some r → r.1.type ≠ ResultType.Expander → aliveSync r.2) := by
  have hret : ∀ r, compute env params s = some r →
      aliveSync r.2 ∨
      (r.1.type = ResultType.Expander ∧
        ∀ v ∈ r.2.graph.alive ++ r.2.graph.removed,
          v ∈ r.2.graph.alive ∧ v ∉ r.2.subdivGraph.alive) := by
    intro r h
    rcases compute_cases env params s r h with ⟨-, hr⟩ | ⟨-, -, st, hst, ht, -, hg, hsub, -⟩
    · left
      rw [hr]
      exact hinv.1
    · have hsync := (syncInvariant_loopExit env params s st hst hinv).1
      generalize hb : classify st.solver.graph.size st.solver.graph.removedSize
        (removedVolume env st.solver) (s.numSplitNodes.tdiv (10 * s.T)) = b at ht hg
      have hf := (classify_fires _ _ _ _ _).1 hb
      have hkeep : r.2.graph = st.solver.graph → aliveSync r.2 := by
        intro hgr
        unfold aliveSync at hsync ⊢
        rw [hgr, hsub]
        exact hsync
      cases b with
      | balanced => exact Or.inl (hkeep hg)
      | noneRemoved => exact Or.inl (hkeep hg)
      | nearExpander => exact Or.inl (hkeep hg)
      | allRemoved =>
        right
        refine ⟨ht, ?_⟩
        have hempty : st.solver.graph.alive = [] := by
          have := hf.2.2
          simpa [Graph.size] using this
        intro v hv
        rw [hg] at hv ⊢
        simp only [Branch.graphAfter, Graph.restoreRemoves, hempty, List.nil_append,
          List.append_nil, List.mem_reverse] at hv ⊢
        refine ⟨hv, ?_⟩
        rw [hsub]
        intro hc
        have hvert : v ∈ st.solver.graph.alive ++ st.solver.graph.removed :=
          List.mem_append_right _ hv
        have := (hsync v hvert).2 hc
        rw [hempty] at this
        cases this
  refine ⟨fun st st1 hst h => (syncInvariant_roundBody env params st st1 h hst).1,
    fun st hst => (syncInvariant_loopExit env params s st hst hinv).1, hret, ?_⟩
  intro r h hne
  rcases hret r h with h1 | ⟨h1, -⟩
  · exact h1
  · exact absurd h1 hne

/-- C15 as stated fails for the outcome `Expander` of the third branch: on the
path every original vertex is alive in both graphs on entry; the run whose
first round removes every vertex restores the removals of the original graph
only, and returns with the vertex `0` alive in the original graph and removed
in the subdivision graph. -/
theorem restore_breaks_aliveSync :
    aliveSync pathSolver ∧
    compute (pathEnv [0, 1, 2, 3, 4]) plainParams pathSolver =
      some ({ type := ResultType.Expander, iterations := 1, sampledPotentials := [] },
        { pathAfterAll.solver with graph := { pathGraph with alive := [2, 1, 0] } }) ∧
    ¬aliveSync { pathAfterAll.solver with graph := { pathGraph with alive := [2, 1, 0] } } := by
  refine ⟨?_, path_compute_all, ?_⟩
  · unfold aliveSync
    decide
  · intro h
    have h0 := (h 0 (by decide)).1 (by decide)
    revert h0
    decide

/-- C15, amended: if on entry every original vertex is alive in the original
graph iff it is alive in the subdivision graph (original vertices carry the
compact index `-1`, no vertex is twice in an alive range), the same holds after
the peel of every round, at the end of the round loop, and in the state in which
`compute` returns with `Balanced`, with `NearExpander`, or with `Expander` when
no removal was restored. When `compute` returns `Expander` through the branch
that calls `graph->restoreRemoves()`, every original vertex is alive in the
original graph and removed in the subdivision graph. -/
theorem aliveSync_preserved [FloorRing α] (env : Env α) (params : Parameters α)
    (s : Solver α) (hinv : syncInvariant s) :
    (∀ st st1 : RoundState α, syncInvariant st.solver → roundBody env params st = some st1 →
      aliveSync st1.solver) ∧
    (∀ st, loopExit env params s = some st → aliveSync st.solver) ∧
    (∀ r, compute env params s = some r →
      aliveSync r.2 ∨
      (r.1.type = ResultType.Expander ∧
        ∀ v ∈ r.2.graph.alive ++ r.2.graph.removed,
          v ∈ r.2.graph.alive ∧ v ∉ r.2.subdivGraph.alive)) ∧
    (∀ r, compute env params s = some r → r.1.type ≠ ResultType.Expander → aliveSync r.2) :=
  aliveSync_spec env params s hinv

/-- C15, amended, on the path: after the run with level cut `{2, 4}`, which
reports `Balanced`, the original vertices `0, 1` are alive in both graphs and
`2` in neither. -/
theorem aliveSync_preserved_path :
    syncInvariant pathSolver ∧
    compute (pathEnv [2, 4]) plainParams pathSolver =
      some ({ type := ResultType.Balanced, iterations := 1, sampledPotentials := [] },
        pathAfterCut.solver) ∧
    aliveSync pathAfterCut.solver := by
  have hinv : syncInvariant pathSolver := by
    unfold syncInvariant aliveSync
    decide
  exact ⟨hinv, path_compute_cut,
    (aliveSync_preserved (pathEnv [2, 4]) plainParams pathSolver hinv).2.2.2 _
      path_compute_cut (by decide)⟩

end CutMatching
